import Mathlib

/-!
# thevoid connection engine: a shallow embedding of `src/thevoid/connection.cpp`

The per-connection state machine of the embeddable HTTP server is embedded as
pure state-passing functions over a record `connection` that has one field per
data member of the C++ class.  Each method of `connection<T>` is one function
of the same name.

How the C++ is read:

* The external collaborators (header parser, handler factory, request handler,
  stock replies) are not part of the source file; they are taken as a
  parameter `Env`, and every theorem holds for every `Env`.  Concrete
  environments appear only where a statement is evaluated on concrete bytes.
* Everything the connection does to the outside world (issuing a read or a
  write, shutting the socket down, calling the parser, the handler or a
  completion callback) is appended to the ghost field `log`, so that "X is
  called exactly once" or "no read is issued" are statements about the log.
* Pointers into `m_buffer` are offsets from `m_buffer.data()`; `size_t`
  arithmetic wraps at `2 ^ 64`; the state word is a natural number handled with
  the bit operations of the source.
* `close` and `want_more` only post `close_impl` and `want_more_impl` to the
  io_service, so the steps of a connection are the calls of `handle_read`,
  `write_finished`, `close_impl`, `want_more_impl` and of the two `send_`
  methods, one after the other (`Event`).  `send_impl` takes the queue lock for
  all it does, so an enqueue from another thread is one such step.
* A completion callback supplied by the application is opaque: calling it is
  recorded in the log.  What it may do to the connection (enqueue more data)
  is a `send_` step of its own.
* The destructor and the reference counting that triggers it are not
  modelled.
-/

namespace thevoid

/-! ## Data model -/

/-- A byte of the stream. -/
abbrev Byte := Nat

/-- The value of a `boost::system::error_code`; `0` is success, so the C++ test
`if (err)` is `err ≠ 0`. -/
abbrev error_code := Nat

/-- The three values of `boost::tribool` returned by the request parser. -/
inductive tribool where
  | false_value
  | true_value
  | indeterminate_value
  deriving DecidableEq, Repr

/-- The two stock statuses used by `send_error` in this file. -/
inductive status_type where
  | bad_request
  | not_found
  deriving DecidableEq, Repr

/-- A `std::function<void (const error_code &)>` stored in a `buffer_info`:
empty, an application callback (named by a number), or the bound
`connection::close_impl` that `send_error` installs. -/
inductive handler_fn where
  | empty
  | user (id : Nat)
  | close_impl
  deriving DecidableEq, Repr

/-- One outbound item: the vector of byte ranges still to be written, whether a
response object is held as storage anchor, and the completion. -/
structure buffer_info where
  buffer : List (List Byte)
  response : Bool
  handler : handler_fn
  deriving DecidableEq, Repr

/-- Everything the connection does to its collaborators, in order;
`socket_closed` is the closing of the socket by the destruction of the member
`m_socket`. -/
inductive Effect where
  | async_read_some
  | async_write_some (buffers : List (List Byte))
  | shutdown
  | parse (bytes : List Byte)
  | parser_reset
  | create (h : Nat)
  | on_headers (h : Nat)
  | on_data (h : Nat) (bytes : List Byte) (consumed : Nat)
  | on_close (h : Nat) (err : error_code)
  | invoke (f : handler_fn) (err : error_code)
  | socket_closed
  deriving DecidableEq, Repr

/-- The collaborators of the connection that live outside `connection.cpp`:
`P` is the parser state, `Q` the request object, `R` the response object and
`H` the state of a request handler.  `parse p q bytes` returns the tribool, the
distance of `new_begin` from `begin`, and the updated parser and request.
`get_factory q` is `m_server->get_factory(q.url())` followed by
`factory->create()`.  `on_data h bytes` returns the number of bytes consumed and
the handler afterwards. -/
structure Env (P Q R H : Type) where
  parse : P → Q → List Byte → tribool × Nat × P × Q
  parser_initial : P
  new_request : Q
  get_factory : Q → Option H
  content_length : Q → Option Nat
  is_keep_alive : Q → Bool
  on_data : H → List Byte → Nat × H
  stock_reply : status_type → R
  set_keep_alive : R → R
  to_buffers : R → List Byte → List (List Byte)

/-- The data members of `connection<T>` (`m_request_parser_state` is the member
`m_request_parser`; of the pointer `m_server` only whether it is set is kept);
`m_handler` carries the number of the
handler instance (ghost) next to the handler.  `handlers_created` and `log` are
ghost fields; the two counters are the server-wide counters the connection
updates. -/
structure connection (P Q H : Type) where
  m_server : Bool
  m_sending : Bool
  m_outgoing_info : buffer_info
  m_outgoing : List buffer_info
  m_buffer : List Byte
  m_content_length : Nat
  m_state : Nat
  m_keep_alive : Bool
  m_at_read : Bool
  m_unprocessed_begin : Nat
  m_unprocessed_end : Nat
  m_request_parser_state : P
  m_request : Q
  m_handler : Option (Nat × H)
  connections_counter : Int
  active_connections_counter : Int
  handlers_created : Nat
  log : List Effect
  deriving DecidableEq, Repr

/-- Modelled from the spec: the value of `enum state` for "request fully read"
(`connection_p.hpp` is not part of the source); the spec fixes it as the
all-zero value. -/
def processing_request : Nat := 0

/-- Modelled from the spec: the reading-headers bit of `enum state`. -/
def read_headers : Nat := 1

/-- Modelled from the spec: the reading-body bit of `enum state`. -/
def read_data : Nat := 2

/-- Modelled from the spec: the response-already-closed bit of `enum state`. -/
def request_processed : Nat := 4

/-- Bitwise complement of a 32-bit state word (`~x`). -/
def bit_not (x : Nat) : Nat := 4294967295 ^^^ x

/-- Number of values of `size_t`. -/
def size_t_mod : Nat := 2 ^ 64

/-- The C++ `a -= b` on `size_t`. -/
def size_t_sub (a b : Nat) : Nat := (a % size_t_mod + (size_t_mod - b % size_t_mod)) % size_t_mod

/-- The bytes of the pointer range `[b, e)` of a buffer. -/
def slice (buf : List Byte) (b e : Nat) : List Byte := (buf.drop b).take (e - b)

/-- The value of `boost::asio::buffer_size` on a buffer sequence. -/
def buffer_size (buffers : List (List Byte)) : Nat := (buffers.map List.length).sum

variable {P Q R H : Type}

/-- Append one effect to the log. -/
def emit (st : connection P Q H) (e : Effect) : connection P Q H :=
  { st with log := st.log ++ [e] }

/-- The constructor `connection(service, buffer_size)`. -/
def connection.init (env : Env P Q R H) (buffer_size : Nat) : connection P Q H :=
  { m_server := false
    m_sending := false
    m_outgoing_info := ⟨[], false, handler_fn.empty⟩
    m_outgoing := []
    m_buffer := List.replicate buffer_size 0
    m_content_length := 0
    m_state := read_headers
    m_keep_alive := false
    m_at_read := false
    m_unprocessed_begin := 0
    m_unprocessed_end := 0
    m_request_parser_state := env.parser_initial
    m_request := env.new_request
    m_handler := none
    connections_counter := 0
    active_connections_counter := 0
    handlers_created := 0
    log := [] }

/-! ## Operations -/

/-- The method `connection<T>::async_read`. -/
def async_read (st : connection P Q H) : connection P Q H :=
  if st.m_at_read then st
  else emit { st with m_at_read := true } Effect.async_read_some

/-- The method `connection<T>::start`. -/
def start (st : connection P Q H) : connection P Q H :=
  async_read { st with m_server := true, connections_counter := st.connections_counter + 1 }

/-- The method `connection<T>::send_impl`. -/
def send_impl (st : connection P Q H) (info : buffer_info) : connection P Q H :=
  if st.m_sending then
    { st with m_outgoing := st.m_outgoing ++ [info] }
  else
    emit { st with m_sending := true, m_outgoing_info := info }
      (Effect.async_write_some info.buffer)

/-- The method `connection<T>::send_headers`. -/
def send_headers (env : Env P Q R H) (st : connection P Q H) (rep : R)
    (content : List Byte) (handler : handler_fn) : connection P Q H :=
  let rep1 := if st.m_keep_alive then env.set_keep_alive rep else rep
  send_impl st ⟨env.to_buffers rep1 content, true, handler⟩

/-- The method `connection<T>::send_data`. -/
def send_data (st : connection P Q H) (buffer : List Byte) (handler : handler_fn) :
    connection P Q H :=
  send_impl st ⟨[buffer], false, handler⟩

/-- The method `connection<T>::send_error`. -/
def send_error (env : Env P Q R H) (st : connection P Q H) (type : status_type) :
    connection P Q H :=
  send_headers env st (env.stock_reply type) [] handler_fn.close_impl

/-- The method `connection<T>::process_next`, with the call of `process_data`
it makes passed as `pd`. -/
def process_next_with (env : Env P Q R H)
    (pd : connection P Q H → Nat → Nat → Option (connection P Q H))
    (st : connection P Q H) : Option (connection P Q H) :=
  let st1 := emit { st with m_state := read_headers, m_request_parser_state := env.parser_initial }
    Effect.parser_reset
  let st2 := { st1 with m_request := env.new_request }
  if st2.m_unprocessed_begin ≠ st2.m_unprocessed_end then
    pd st2 st2.m_unprocessed_begin st2.m_unprocessed_end
  else
    some (async_read st2)

/-- The call of the parser in `process_data` (reading headers): the tribool,
the distance of `new_begin` from `begin`, and the connection afterwards. -/
def parse_headers (env : Env P Q R H) (st : connection P Q H) (b e : Nat) :
    tribool × Nat × connection P Q H :=
  let r := env.parse st.m_request_parser_state st.m_request (slice st.m_buffer b e)
  (r.1, r.2.1,
    emit { st with m_request_parser_state := r.2.2.1, m_request := r.2.2.2 }
      (Effect.parse (slice st.m_buffer b e)))

/-- The statements of `process_data` between the factory lookup and the nested
call: body length and keep-alive are taken from the request, the handler is
created and given the headers, the state goes from reading headers to reading
the body.  (`m_request` is moved into `on_headers`; the moved-from member is
not read again before `process_next` replaces it and is left as it is.) -/
def attach_handler (env : Env P Q R H) (st : connection P Q H) (h : H) : connection P Q H :=
  { st with
    m_content_length := ((env.content_length st.m_request).getD 0) % size_t_mod
    m_keep_alive := env.is_keep_alive st.m_request
    active_connections_counter := st.active_connections_counter + 1
    m_handler := some (st.handlers_created, h)
    handlers_created := st.handlers_created + 1
    log := st.log ++ [Effect.create st.handlers_created, Effect.on_headers st.handlers_created]
    m_state := (st.m_state &&& bit_not read_headers) ||| read_data }

/-- The first statements of `process_data` (reading the body): `data_from_body`,
`processed_size` and the connection after `on_data` and
`m_content_length -= processed_size`.  The conversion of `end - begin` to
`size_t` is taken for `begin ≤ end`, where it is `e - b`; a range with
`end < begin` is only ever produced after an `on_data` that returned more than
it was offered. -/
def deliver (env : Env P Q R H) (st : connection P Q H) (b e : Nat) :
    Nat × Nat × connection P Q H :=
  let data_from_body := min st.m_content_length (e - b)
  match st.m_handler with
  | some (id, h) =>
    if data_from_body ≠ 0 then
      let a := env.on_data h (slice st.m_buffer b (b + data_from_body))
      (data_from_body, a.1,
        { st with
          m_handler := some (id, a.2)
          log := st.log ++ [Effect.on_data id (slice st.m_buffer b (b + data_from_body)) a.1]
          m_content_length := size_t_sub st.m_content_length a.1 })
    else
      (data_from_body, data_from_body,
        { st with m_content_length := size_t_sub st.m_content_length data_from_body })
  | none =>
    (data_from_body, data_from_body,
      { st with m_content_length := size_t_sub st.m_content_length data_from_body })

/-- The statements of `process_data` when the body is complete, up to the test
of `request_processed`: the reading-body bit is cleared, the bytes after the
body are recorded and the handler is told. -/
def finish_body (st : connection P Q H) (new_begin e : Nat) : connection P Q H :=
  let st2 := { st with
    m_state := st.m_state &&& bit_not read_data
    m_unprocessed_begin := new_begin
    m_unprocessed_end := e }
  match st2.m_handler with
  | some (id, _) => emit st2 (Effect.on_close id 0)
  | none => st2

/-- The body of `connection<T>::process_data`, with the calls it makes of
itself (directly after a parsed header, and through `process_next`) passed as
`self`. -/
def process_data_body (env : Env P Q R H)
    (self : connection P Q H → Nat → Nat → Option (connection P Q H))
    (st : connection P Q H) (b e : Nat) : Option (connection P Q H) :=
  if st.m_state &&& read_headers ≠ 0 then
    match parse_headers env st b e with
    | (tribool.false_value, _, st1) => some (send_error env st1 status_type.bad_request)
    | (tribool.true_value, k, st1) =>
      match env.get_factory st1.m_request with
      | none => some (send_error env st1 status_type.not_found)
      | some h => self (attach_handler env st1 h) (b + k) e
    | (tribool.indeterminate_value, _, st1) => some (async_read st1)
  else if st.m_state &&& read_data ≠ 0 then
    match deliver env st b e with
    | (data_from_body, processed_size, st1) =>
      if data_from_body ≠ processed_size then
        some { st1 with m_unprocessed_begin := b + processed_size, m_unprocessed_end := e }
      else if st1.m_content_length > 0 then
        some (async_read st1)
      else if (finish_body st1 (b + processed_size) e).m_state &&& request_processed ≠ 0 then
        process_next_with env self (finish_body st1 (b + processed_size) e)
      else
        some (finish_body st1 (b + processed_size) e)
  else
    some st

/-- The method `connection<T>::process_data` with its nesting bounded by the
first argument: `none` is returned when the bound is used up. -/
def process_data_fuel (env : Env P Q R H) :
    Nat → connection P Q H → Nat → Nat → Option (connection P Q H)
  | 0 => fun _ _ _ => none
  | fuel + 1 => process_data_body env (process_data_fuel env fuel)

/-- Nesting depth that `process_data` never exceeds (`process_data_fuel_total`). -/
def process_data_depth : Nat := 4

/-- The method `connection<T>::process_data`. -/
def process_data (env : Env P Q R H) (st : connection P Q H) (b e : Nat) : connection P Q H :=
  (process_data_fuel env process_data_depth st b e).getD st

/-- The method `connection<T>::process_next`. -/
def process_next (env : Env P Q R H) (st : connection P Q H) : connection P Q H :=
  (process_next_with env (fun s b e => some (process_data env s b e)) st).getD st

/-- The method `connection<T>::want_more_impl`. -/
def want_more_impl (env : Env P Q R H) (st : connection P Q H) : connection P Q H :=
  if st.m_unprocessed_begin ≠ st.m_unprocessed_end then
    process_data env st st.m_unprocessed_begin st.m_unprocessed_end
  else
    async_read st

/-- The first statements of `close_impl`:
`if (m_handler) --active_connections_counter; m_handler.reset();`. -/
def drop_handler (st : connection P Q H) : connection P Q H :=
  { st with
    active_connections_counter :=
      match st.m_handler with
      | some _ => st.active_connections_counter - 1
      | none => st.active_connections_counter
    m_handler := none }

/-- The method `connection<T>::close_impl`. -/
def close_impl (env : Env P Q R H) (st : connection P Q H) (err : error_code) :
    connection P Q H :=
  if err ≠ 0 then
    emit (drop_handler st) Effect.shutdown
  else if (drop_handler st).m_state ≠ processing_request then
    { (drop_handler st) with m_state := (drop_handler st).m_state ||| request_processed }
  else if !(drop_handler st).m_keep_alive then
    emit (drop_handler st) Effect.shutdown
  else
    process_next env (drop_handler st)

/-- Calling the completion stored in a `buffer_info` (`if (handler) handler(err)`). -/
def invoke (env : Env P Q R H) (st : connection P Q H) (f : handler_fn) (err : error_code) :
    connection P Q H :=
  match f with
  | handler_fn.empty => st
  | handler_fn.user id => emit st (Effect.invoke (handler_fn.user id) err)
  | handler_fn.close_impl => close_impl env (emit st (Effect.invoke handler_fn.close_impl err)) err

/-- The loop of `write_finished` over the byte ranges of the current item:
`for (it = begin; bytes_written > 0 && it != end; ++it) *it = *it + min(bytes_written, size(*it))`. -/
def advance (bytes_written : Nat) : List (List Byte) → List (List Byte)
  | [] => []
  | buffer :: rest =>
    if bytes_written > 0 then
      buffer.drop (min bytes_written buffer.length) :: advance bytes_written rest
    else
      buffer :: rest

/-- The method `connection<T>::write_finished`. -/
def write_finished (env : Env P Q R H) (st : connection P Q H) (err : error_code)
    (bytes_written : Nat) : connection P Q H :=
  if err ≠ 0 then
    let outgoing := st.m_outgoing
    let st1 := { st with m_outgoing := [] }
    let st2 := invoke env st1 st1.m_outgoing_info.handler err
    let st3 := outgoing.foldl (fun s it => invoke env s it.handler err) st2
    let st4 :=
      match st3.m_handler with
      | some (id, _) => emit st3 (Effect.on_close id err)
      | none => st3
    close_impl env st4 err
  else
    let st1 := { st with m_outgoing_info :=
      { st.m_outgoing_info with buffer := advance bytes_written st.m_outgoing_info.buffer } }
    if buffer_size st1.m_outgoing_info.buffer > 0 then
      emit st1 (Effect.async_write_some st1.m_outgoing_info.buffer)
    else
      let st2 := invoke env st1 st1.m_outgoing_info.handler err
      let st3 := { st2 with m_outgoing_info := ⟨[], false, handler_fn.empty⟩ }
      match st3.m_outgoing with
      | [] => { st3 with m_sending := false }
      | front :: rest =>
        emit { st3 with m_outgoing_info := front, m_outgoing := rest }
          (Effect.async_write_some front.buffer)

/-- The connection as a read completion finds it: the transport has stored the
bytes `data` at the start of `m_buffer`, and `handle_read` starts with
`m_at_read = false`. -/
def read_done (st : connection P Q H) (data : List Byte) : connection P Q H :=
  { st with m_buffer := data ++ st.m_buffer.drop data.length, m_at_read := false }

/-- The method `connection<T>::handle_read`; `data` are the bytes the transport
stored at the start of `m_buffer` before it completed the read
(`bytes_transferred = data.length`). -/
def handle_read (env : Env P Q R H) (st : connection P Q H) (err : error_code)
    (data : List Byte) : connection P Q H :=
  if err ≠ 0 then
    match (read_done st data).m_handler with
    | some (id, _) =>
      { (emit (read_done st data) (Effect.on_close id err)) with
          active_connections_counter := (read_done st data).active_connections_counter - 1
          m_handler := none }
    | none => { (read_done st data) with m_handler := none }
  else
    process_data env (read_done st data) 0 data.length

/-- The destructor `connection<T>::~connection`, followed by the destruction
of the members: the socket is closed when `m_socket` is destroyed (the comment
at the end of `handle_read`).  The object is destroyed when the last
`shared_ptr` to it disappears, so this is the last thing that happens to a
connection. -/
def destroy (st : connection P Q H) : connection P Q H :=
  let st1 :=
    if st.m_server then { st with connections_counter := st.connections_counter - 1 } else st
  let st2 :=
    match st1.m_handler with
    | some (id, _) => emit st1 (Effect.on_close id 0)
    | none => st1
  emit st2 Effect.socket_closed

/-! ## A concrete environment, used to run the embedding on concrete inputs -/

/-- The request object of the concrete environment. -/
structure demo_request where
  url : List Byte
  content_length : Option Nat
  keep_alive : Bool
  deriving DecidableEq, Repr

/-- The bytes that follow the first occurrence of `pat`, if there is one. -/
def after_first (pat : List Byte) : List Byte → Option (List Byte)
  | [] => if pat = [] then some [] else none
  | c :: cs =>
    if pat.isPrefixOf (c :: cs) then some ((c :: cs).drop pat.length) else after_first pat cs

/-- The decimal number a byte string starts with. -/
def read_decimal (s : List Byte) : Nat :=
  (s.takeWhile (fun c => decide (48 ≤ c) && decide (c ≤ 57))).foldl (fun n c => 10 * n + (c - 48)) 0

/-- The bytes of `Content-Length: `. -/
def content_length_name : List Byte :=
  [67, 111, 110, 116, 101, 110, 116, 45, 76, 101, 110, 103, 116, 104, 58, 32]

/-- The bytes of `Connection: close`. -/
def connection_close_line : List Byte :=
  [67, 111, 110, 110, 101, 99, 116, 105, 111, 110, 58, 32, 99, 108, 111, 115, 101]

/-- The request read off a complete header block: the target is the second
word of the request line. -/
def demo_request_of (block : List Byte) : demo_request :=
  { url := ((block.dropWhile (fun c => c != 32)).drop 1).takeWhile (fun c => c != 32)
    content_length := (after_first content_length_name block).map read_decimal
    keep_alive := (after_first connection_close_line block).isNone }

/-- The resumable scan of the concrete parser: `acc` holds the bytes of the
block seen so far, `k` counts the bytes consumed in this call.  The block is
rejected when it does not start with an upper-case letter and is complete when
it ends in CR LF CR LF. -/
def demo_scan (acc : List Byte) (k : Nat) : List Byte → tribool × Nat × List Byte
  | [] => (tribool.indeterminate_value, k, acc)
  | c :: cs =>
    let acc1 := acc ++ [c]
    if !(decide (65 ≤ acc1.headD 0) && decide (acc1.headD 0 ≤ 90)) then
      (tribool.false_value, k + 1, acc1)
    else if [13, 10, 13, 10].isSuffixOf acc1 then
      (tribool.true_value, k + 1, acc1)
    else
      demo_scan acc1 (k + 1) cs

/-- The concrete parser. -/
def demo_parse (p : List Byte) (q : demo_request) (bytes : List Byte) :
    tribool × Nat × List Byte × demo_request :=
  let r := demo_scan p 0 bytes
  (r.1, r.2.1, r.2.2, if r.1 = tribool.true_value then demo_request_of r.2.2 else q)

/-- The concrete environment: one handler factory, registered for the target
`/`, whose handlers consume according to `plan` (the n-th `on_data` call
consumes at most the n-th number of the plan, and everything once the plan is
used up); a response is its list of byte ranges. -/
def demo_env (plan : List Nat) : Env (List Byte) demo_request (List (List Byte)) (List Nat) :=
  { parse := demo_parse
    parser_initial := []
    new_request := ⟨[], none, false⟩
    get_factory := fun q => if q.url = [47] then some plan else none
    content_length := fun q => q.content_length
    is_keep_alive := fun q => q.keep_alive
    on_data := fun h bytes => (min (h.headD bytes.length) bytes.length, h.tail)
    stock_reply := fun t =>
      match t with
      | status_type.bad_request => [[52, 48, 48]]
      | status_type.not_found => [[52, 48, 52]]
    set_keep_alive := fun r => r ++ [[75, 65]]
    to_buffers := fun r content => r ++ [content] }

/-- The bytes of `GET / HTTP/1.1\r\nHost: h\r\n\r\n`. -/
def get_root_request : List Byte :=
  [71, 69, 84, 32, 47, 32, 72, 84, 84, 80, 47, 49, 46, 49, 13, 10,
   72, 111, 115, 116, 58, 32, 104, 13, 10, 13, 10]

/-- The bytes of `GET /x HTTP/1.1\r\nHost: h\r\n\r\n`. -/
def get_missing_request : List Byte :=
  [71, 69, 84, 32, 47, 120, 32, 72, 84, 84, 80, 47, 49, 46, 49, 13, 10,
   72, 111, 115, 116, 58, 32, 104, 13, 10, 13, 10]

/-- The bytes of `POST / HTTP/1.1\r\nContent-Length: 10\r\n\r\n`. -/
def post_root_request : List Byte :=
  [80, 79, 83, 84, 32, 47, 32, 72, 84, 84, 80, 47, 49, 46, 49, 13, 10,
   67, 111, 110, 116, 101, 110, 116, 45, 76, 101, 110, 103, 116, 104, 58, 32, 49, 48, 13, 10,
   13, 10]

/-- A connection that was started: the first read is outstanding. -/
def started (plan : List Nat) (size : Nat) : connection (List Byte) demo_request (List Nat) :=
  start (connection.init (demo_env plan) size)

/-! ## Observations on the embedding, used to state the properties -/

/-- The effects added to the log between two states. -/
def effects_since (st st1 : connection P Q H) : List Effect :=
  st1.log.drop st.log.length

/-- The bytes the transport takes when it completes the outstanding write with
`n`: the first `n` bytes of the ranges it was offered, which are the ranges of
the current item. -/
def accepted (st : connection P Q H) (n : Nat) : List Byte :=
  (st.m_outgoing_info.buffer.flatten).take n

/-- Successive successful write completions reporting the given counts; the
second component collects the bytes the transport accepted. -/
def flush (env : Env P Q R H) (st : connection P Q H) :
    List Nat → connection P Q H × List Byte
  | [] => (st, [])
  | n :: ns =>
    ((flush env (write_finished env st 0 n) ns).1,
      accepted st n ++ (flush env (write_finished env st 0 n) ns).2)

/-- The completion call recorded by an effect, if it is one. -/
def invoked : Effect → Option (handler_fn × error_code)
  | Effect.invoke f err => some (f, err)
  | _ => none

/-- What calling a completion with an error adds to the log. -/
def invoke_log (f : handler_fn) (err : error_code) : List Effect :=
  match f with
  | handler_fn.empty => []
  | handler_fn.user id => [Effect.invoke (handler_fn.user id) err]
  | handler_fn.close_impl => [Effect.invoke handler_fn.close_impl err, Effect.shutdown]

/-- A queue with a current item that has two byte ranges and a content range,
followed by a `send_data` item. -/
def two_items : connection (List Byte) demo_request (List Nat) :=
  send_data
    (send_headers (demo_env []) (connection.init (demo_env []) 16) [[1, 2], [3, 4]] [5]
      (handler_fn.user 0))
    [6, 7] (handler_fn.user 1)

/-- A queue with a current item and two pending items (one of them the stock
reply item whose completion is `close_impl`), and a handler attached. -/
def busy_queue : connection (List Byte) demo_request (List Nat) :=
  { (connection.init (demo_env []) 16) with
    m_sending := true
    m_outgoing_info := ⟨[[1, 2]], true, handler_fn.user 7⟩
    m_outgoing := [⟨[[3]], false, handler_fn.empty⟩, ⟨[[4]], false, handler_fn.user 8⟩,
                   ⟨[[5]], true, handler_fn.close_impl⟩, ⟨[[6]], false, handler_fn.user 9⟩]
    m_state := processing_request
    m_handler := some (0, [])
    handlers_created := 1 }

/-- The steps of a living connection after `start`: completions of the
outstanding read and write, enqueues made by the application, and the deferred
`want_more` and `close` calls.  The destruction of the object is not a step:
it comes after the last step of a trace, as `destroy` applied to the state the
trace ends in. -/
inductive Event (R : Type) where
  | handle_read (err : error_code) (data : List Byte)
  | write_finished (err : error_code) (bytes_written : Nat)
  | send_headers (rep : R) (content : List Byte) (handler : handler_fn)
  | send_data (buffer : List Byte) (handler : handler_fn)
  | want_more_impl
  | close_impl (err : error_code)

/-- One step of a connection. -/
def step (env : Env P Q R H) (st : connection P Q H) : Event R → connection P Q H
  | Event.handle_read err data => handle_read env st err data
  | Event.write_finished err n => write_finished env st err n
  | Event.send_headers rep content handler => send_headers env st rep content handler
  | Event.send_data buffer handler => send_data st buffer handler
  | Event.want_more_impl => want_more_impl env st
  | Event.close_impl err => close_impl env st err

/-- A trace of steps. -/
def run (env : Env P Q R H) (st : connection P Q H) (evs : List (Event R)) : connection P Q H :=
  evs.foldl (step env) st

/-- The error codes of the `on_close` calls received by handler instance `h`,
in order. -/
def closes (h : Nat) (log : List Effect) : List error_code :=
  log.filterMap (fun x =>
    match x with
    | Effect.on_close id err => if id = h then some err else none
    | _ => none)

/-- The possible histories of `on_close` calls of one handler instance: none,
one call, or a call with success followed by a call with an error. -/
def close_shape : List error_code → Prop
  | [] => True
  | [_] => True
  | [a, b] => a = 0 ∧ b ≠ 0
  | _ => False

/-- The invariant behind `close_shape`: handler numbers not yet handed out
have no `on_close`; the attached handler has received no `on_close` with an
error, and none at all while the body is being read. -/
def close_inv (st : connection P Q H) : Prop :=
  (∀ id, close_shape (closes id st.log))
  ∧ (∀ id, st.handlers_created ≤ id → closes id st.log = [])
  ∧ (∀ id hd, st.m_handler = some (id, hd) →
      id < st.handlers_created
      ∧ (closes id st.log = [] ∨ (closes id st.log = [0] ∧ st.m_state &&& read_data = 0)))

/-- The log of the second state continues the log of the first. -/
def grows (st st1 : connection P Q H) : Prop :=
  ∃ rest, st1.log = st.log ++ rest

/-- Scenario D before the body step: the header of a request with
`Content-Length: 10` has been read and handed to a handler that will consume
2 bytes at its first `on_data`; the next read has stored the body bytes
`1 2 3 4` in the buffer, and `handle_read` is about to call
`process_data(0, 4)`. -/
def scenario_D : connection (List Byte) demo_request (List Nat) :=
  { (handle_read (demo_env [2]) (started [2] 64) 0 post_root_request) with
    m_buffer := [1, 2, 3, 4] ++ List.replicate 60 0
    m_at_read := false }

/-- Successive successful read completions delivering the given chunks. -/
def deliver_reads (env : Env P Q R H) (st : connection P Q H) :
    List (List Byte) → connection P Q H
  | [] => st
  | c :: cs => deliver_reads env (handle_read env st 0 c) cs

/-- What the delivery of a body of `remaining` bytes in the given read chunks
to handler `id` is expected to add to the log when the handler consumes
everything: per chunk that carries bytes one `on_data` with
min(remaining, chunk length) bytes, followed by a new read while bytes remain,
and by `on_close` with success when none remain. -/
def body_effects (id : Nat) : Nat → List (List Byte) → List Effect
  | _, [] => []
  | remaining, c :: cs =>
    (if min remaining c.length = 0 then []
      else [Effect.on_data id (c.take (min remaining c.length)) (min remaining c.length)])
    ++ (if remaining - min remaining c.length > 0 then
        Effect.async_read_some :: body_effects id (remaining - min remaining c.length) cs
      else
        [Effect.on_close id 0])

/-- The bytes offered by the `on_data` calls of a log, concatenated. -/
def offered_bytes (log : List Effect) : List Byte :=
  (log.filterMap (fun x =>
    match x with
    | Effect.on_data _ bytes _ => some bytes
    | _ => none)).flatten

/-- The lengths of the byte ranges offered by the `on_data` calls of a log. -/
def offered_lengths (log : List Effect) : List Nat :=
  log.filterMap (fun x =>
    match x with
    | Effect.on_data _ bytes _ => some bytes.length
    | _ => none)

/-- The concrete environment with handlers that consume everything offered. -/
def greedy_env : Env (List Byte) demo_request (List (List Byte)) (List Nat) :=
  { demo_env [] with on_data := fun h bytes => (bytes.length, h) }

/-- Scenario C after the header: a request with `Content-Length: 10` has been
read, its handler is attached and the next read is outstanding. -/
def scenario_C : connection (List Byte) demo_request (List Nat) :=
  handle_read greedy_env (start (connection.init greedy_env 64)) 0 post_root_request

/-- The connection at the point where `process_next` has reset it after the
read of `data` drained the rest of a body whose response was already closed:
reading headers, parser and request fresh, the bytes after the body recorded
as unprocessed. -/
def drained_reset (env : Env P Q R H) (s : connection P Q H) (data : List Byte) :
    connection P Q H :=
  { read_done s data with
    m_content_length := 0
    m_state := read_headers
    m_unprocessed_begin := s.m_content_length
    m_unprocessed_end := data.length
    m_request_parser_state := env.parser_initial
    m_request := env.new_request
    log := s.log ++ [Effect.parser_reset] }

/-- The header of a request with `Content-Length: 10` has been read and its
handler is attached; the next read is outstanding. -/
def post_header_read : connection (List Byte) demo_request (List Nat) :=
  handle_read (demo_env []) (started [] 64) 0 post_root_request

/-- The parser and the request after the parser has been fed the chunks in
order. -/
def fed (env : Env P Q R H) : P × Q → List (List Byte) → P × Q
  | pq, [] => pq
  | pq, c :: cs => fed env (env.parse pq.1 pq.2 c).2.2 cs

/-- The parser, fed the chunks in order, reports "incomplete" on each. -/
def all_incomplete (env : Env P Q R H) : P × Q → List (List Byte) → Prop
  | _, [] => True
  | pq, c :: cs =>
    (env.parse pq.1 pq.2 c).1 = tribool.indeterminate_value
      ∧ all_incomplete env (env.parse pq.1 pq.2 c).2.2 cs

/-- The byte ranges handed to the parser, in order. -/
def parsed_chunks (log : List Effect) : List (List Byte) :=
  log.filterMap (fun x =>
    match x with
    | Effect.parse bytes => some bytes
    | _ => none)

/-- The handler instances that received `on_headers`, in order. -/
def headers_calls (log : List Effect) : List Nat :=
  log.filterMap (fun x =>
    match x with
    | Effect.on_headers id => some id
    | _ => none)

/-- The connection after the parser call that `handle_read` makes on the bytes
`data` of a completed read while headers are being read. -/
def after_parse (env : Env P Q R H) (st : connection P Q H) (data : List Byte) :
    connection P Q H :=
  { read_done st data with
    m_request_parser_state := (env.parse st.m_request_parser_state st.m_request data).2.2.1
    m_request := (env.parse st.m_request_parser_state st.m_request data).2.2.2
    log := st.log ++ [Effect.parse data] }

/-- The bytes consumed by the handlers: of every `on_data` call, the first
`consumed` of the bytes offered. -/
def consumed_bytes (log : List Effect) : List Byte :=
  (log.filterMap (fun x =>
    match x with
    | Effect.on_data _ bytes consumed => some (bytes.take consumed)
    | _ => none)).flatten

/-- What happens next while a body is being read: the outstanding read
completes with a chunk, or the handler, which had consumed less than it was
offered, resumes. -/
inductive body_step where
  | read (c : List Byte)
  | resume
  deriving DecidableEq, Repr

/-- A sequence of body steps. -/
def body_run (env : Env P Q R H) (st : connection P Q H) : List body_step → connection P Q H
  | [] => st
  | body_step.read c :: rest => body_run env (handle_read env st 0 c) rest
  | body_step.resume :: rest => body_run env (want_more_impl env st) rest

/-- Every step of the sequence can happen when it happens: a read completes
only while a read is outstanding, and the handler resumes only while it holds
back, that is while the body is being read and no read is outstanding. -/
def body_steps_ok (env : Env P Q R H) (st : connection P Q H) : List body_step → Prop
  | [] => True
  | body_step.read c :: rest =>
    st.m_at_read = true ∧ body_steps_ok env (handle_read env st 0 c) rest
  | body_step.resume :: rest =>
    (st.m_at_read = false ∧ st.m_state = read_data)
      ∧ body_steps_ok env (want_more_impl env st) rest

/-- The bytes delivered by the reads of a sequence of body steps. -/
def bytes_read : List body_step → List Byte
  | [] => []
  | body_step.read c :: rest => c ++ bytes_read rest
  | body_step.resume :: rest => bytes_read rest

/-- The invariant of a body delivery: `L` is the declared body length, `D` the
bytes delivered by the reads so far, `log0` the log when the body started.
The handler has consumed the first `L - m_content_length` bytes of `D`, and
either a read is outstanding and all of `D` is consumed, or the handler holds
back and the unprocessed range holds exactly the rest of `D`, or the body is
complete. -/
def body_inv (L : Nat) (D : List Byte) (id : Nat) (log0 : List Effect)
    (st : connection P Q H) : Prop :=
  (∃ hd, st.m_handler = some (id, hd))
  ∧ st.m_content_length ≤ L
  ∧ L - st.m_content_length ≤ D.length
  ∧ (∃ eff, st.log = log0 ++ eff ∧ consumed_bytes eff = D.take (L - st.m_content_length))
  ∧ ((st.m_state = read_data ∧ st.m_at_read = true ∧ 0 < st.m_content_length
        ∧ D.length = L - st.m_content_length)
    ∨ (st.m_state = read_data ∧ st.m_at_read = false ∧ 0 < st.m_content_length
        ∧ st.m_unprocessed_begin < st.m_unprocessed_end
        ∧ st.m_unprocessed_end ≤ st.m_buffer.length
        ∧ slice st.m_buffer st.m_unprocessed_begin st.m_unprocessed_end
            = D.drop (L - st.m_content_length))
    ∨ (st.m_state = processing_request ∧ st.m_at_read = false ∧ st.m_content_length = 0))

/-- The connection as `process_next` leaves it before it looks at the
unprocessed range: reading headers, parser and request fresh. -/
def next_request (env : Env P Q R H) (st : connection P Q H) : connection P Q H :=
  { (emit { st with m_state := read_headers, m_request_parser_state := env.parser_initial }
      Effect.parser_reset) with m_request := env.new_request }

/-- What a transport error makes the connection tell the attached handler. -/
def notify_log (h : Option (Nat × H)) (err : error_code) : List Effect :=
  match h with
  | some (id, _) => [Effect.on_close id err]
  | none => []

/-- A current item with the two byte ranges `[1,2]` and `[3,4]`, its write
outstanding. -/
def split_item : connection (List Byte) demo_request (List Nat) :=
  send_impl (connection.init (demo_env []) 16) ⟨[[1, 2], [3, 4]], false, handler_fn.user 0⟩

/-- The number of reads issued on the transport, as the log shows them. -/
def reads_issued (log : List Effect) : Nat :=
  (log.filter (fun x =>
    match x with
    | Effect.async_read_some => true
    | _ => false)).length

/-- The number of writes issued on the transport, as the log shows them. -/
def writes_issued (log : List Effect) : Nat :=
  (log.filter (fun x =>
    match x with
    | Effect.async_write_some _ => true
    | _ => false)).length

/-- Calling the completion stored in a `buffer_info` when application
callbacks enqueue from inside the call: `sends st id err` are the items that
callback `id`, called with `err`, hands to `send_impl` before it returns. -/
def invoke_cb (env : Env P Q R H) (sends : connection P Q H → Nat → error_code → List buffer_info)
    (st : connection P Q H) (f : handler_fn) (err : error_code) : connection P Q H :=
  match f with
  | handler_fn.empty => st
  | handler_fn.user id =>
    (sends st id err).foldl send_impl (emit st (Effect.invoke (handler_fn.user id) err))
  | handler_fn.close_impl => close_impl env (emit st (Effect.invoke handler_fn.close_impl err)) err

/-- The method `connection<T>::write_finished` when application callbacks
enqueue from inside the completion call (`invoke_cb`); with callbacks that
enqueue nothing it is `write_finished`. -/
def write_finished_cb (env : Env P Q R H) (sends : connection P Q H → Nat → error_code → List buffer_info)
    (st : connection P Q H) (err : error_code) (bytes_written : Nat) : connection P Q H :=
  if err ≠ 0 then
    let outgoing := st.m_outgoing
    let st1 := { st with m_outgoing := [] }
    let st2 := invoke_cb env sends st1 st1.m_outgoing_info.handler err
    let st3 := outgoing.foldl (fun s it => invoke_cb env sends s it.handler err) st2
    let st4 :=
      match st3.m_handler with
      | some (id, _) => emit st3 (Effect.on_close id err)
      | none => st3
    close_impl env st4 err
  else
    let st1 := { st with m_outgoing_info :=
      { st.m_outgoing_info with buffer := advance bytes_written st.m_outgoing_info.buffer } }
    if buffer_size st1.m_outgoing_info.buffer > 0 then
      emit st1 (Effect.async_write_some st1.m_outgoing_info.buffer)
    else
      let st2 := invoke_cb env sends st1 st1.m_outgoing_info.handler err
      let st3 := { st2 with m_outgoing_info := ⟨[], false, handler_fn.empty⟩ }
      match st3.m_outgoing with
      | [] => { st3 with m_sending := false }
      | front :: rest =>
        emit { st3 with m_outgoing_info := front, m_outgoing := rest }
          (Effect.async_write_some front.buffer)

/-- A connection together with the transport: the numbers of read and write
completions the transport has delivered so far. -/
structure wire (P Q H : Type) where
  conn : connection P Q H
  reads_completed : Nat
  writes_completed : Nat
  deriving DecidableEq

/-- The reads issued and not yet completed. -/
def reads_outstanding (w : wire P Q H) : Nat :=
  reads_issued w.conn.log - w.reads_completed

/-- The writes issued and not yet completed. -/
def writes_outstanding (w : wire P Q H) : Nat :=
  writes_issued w.conn.log - w.writes_completed

/-- One step of a connection on its transport: a read (write) completion can
only be delivered while a read (write) is outstanding, and uses it up; the
other steps are always possible. -/
def wire_step (env : Env P Q R H) (sends : connection P Q H → Nat → error_code → List buffer_info)
    (w : wire P Q H) : Event R → Option (wire P Q H)
  | Event.handle_read err data =>
    if reads_outstanding w = 0 then none
    else some ⟨handle_read env w.conn err data, w.reads_completed + 1, w.writes_completed⟩
  | Event.write_finished err n =>
    if writes_outstanding w = 0 then none
    else some ⟨write_finished_cb env sends w.conn err n, w.reads_completed, w.writes_completed + 1⟩
  | Event.send_headers rep content handler =>
    some ⟨send_headers env w.conn rep content handler, w.reads_completed, w.writes_completed⟩
  | Event.send_data buffer handler =>
    some ⟨send_data w.conn buffer handler, w.reads_completed, w.writes_completed⟩
  | Event.want_more_impl =>
    some ⟨want_more_impl env w.conn, w.reads_completed, w.writes_completed⟩
  | Event.close_impl err =>
    some ⟨close_impl env w.conn err, w.reads_completed, w.writes_completed⟩

/-- A trace of steps on the transport; `none` when a completion is delivered
that the transport does not owe. -/
def wire_run (env : Env P Q R H) (sends : connection P Q H → Nat → error_code → List buffer_info) :
    wire P Q H → List (Event R) → Option (wire P Q H)
  | w, [] => some w
  | w, ev :: evs => (wire_step env sends w ev).bind (fun w1 => wire_run env sends w1 evs)

/-- The reads and writes issued between two states match the flags: a read is
issued exactly when `m_at_read` goes up, a write exactly when `m_sending` goes
up, and neither flag goes down. -/
def balanced (st st1 : connection P Q H) : Prop :=
  reads_issued st1.log + (if st.m_at_read then 1 else 0)
      = reads_issued st.log + (if st1.m_at_read then 1 else 0)
  ∧ (st.m_at_read = true → st1.m_at_read = true)
  ∧ writes_issued st1.log + (if st.m_sending then 1 else 0)
      = writes_issued st.log + (if st1.m_sending then 1 else 0)
  ∧ (st.m_sending = true → st1.m_sending = true)

/-- The invariant of a connection on its transport. -/
def wire_inv (w : wire P Q H) : Prop :=
  reads_issued w.conn.log = w.reads_completed + (if w.conn.m_at_read then 1 else 0)
  ∧ w.writes_completed ≤ writes_issued w.conn.log
  ∧ writes_issued w.conn.log ≤ w.writes_completed + (if w.conn.m_sending then 1 else 0)

/-- A request with `Content-Length: 10` arrives in one read together with the
body bytes `1 2 3 4`; its handler takes 2 bytes at the first `on_data` and
everything afterwards.  The handler has held back the bytes `3 4` and then
resumed: `want_more_impl` has handed it `3 4` and, 6 bytes of the body still
missing, has issued the next read. -/
def resumed_body : connection (List Byte) demo_request (List Nat) :=
  want_more_impl (demo_env [2])
    (handle_read (demo_env [2]) (started [2] 64) 0 (post_root_request ++ [1, 2, 3, 4]))

/-- The read issued by `resumed_body` has completed with the bytes `5 6 7`,
which the handler has consumed; 3 bytes of the body are missing and the next
read is outstanding. -/
def refilled_body : connection (List Byte) demo_request (List Nat) :=
  handle_read (demo_env [2]) resumed_body 0 [5, 6, 7]

/-- What matters to the reset rule: an application of `close_impl` without
error, and a reset (`process_next`). -/
inductive mark where
  | closed
  | reset
  deriving DecidableEq, Repr

/-- The marks of a piece of log: the bound `close_impl` of a stock reply called
without error, and the parser reset that `process_next` makes. -/
def marks (log : List Effect) : List mark :=
  log.filterMap (fun x =>
    match x with
    | Effect.invoke f err =>
      if f = handler_fn.close_impl ∧ err = 0 then some mark.closed else none
    | Effect.parser_reset => some mark.reset
    | _ => none)

/-- The marks of one step: a deferred `close` without error is an application
of `close_impl` without error, before anything the step does. -/
def step_marks (env : Env P Q R H) (st : connection P Q H) (ev : Event R) : List mark :=
  (match ev with
    | Event.close_impl err => if err = 0 then [mark.closed] else []
    | _ => [])
  ++ marks (effects_since st (step env st ev))

/-- The marks of a trace. -/
def run_marks (env : Env P Q R H) : connection P Q H → List (Event R) → List mark
  | _, [] => []
  | st, ev :: evs => step_marks env st ev ++ run_marks env (step env st ev) evs

/-- Reading the marks in order with the flag "a close without error was
applied since the last reset": a close sets it, a reset needs it and clears
it.  The result is `none` when a reset comes without it. -/
def scan : Bool → List mark → Option Bool
  | g, [] => some g
  | _, mark.closed :: rest => scan true rest
  | g, mark.reset :: rest => if g then scan false rest else none

/-- A piece of execution without reset and without close, which leaves the
response-already-closed bit as it is. -/
def unmarked (st st1 : connection P Q H) : Prop :=
  ∃ new, st1.log = st.log ++ new ∧ marks new = []
    ∧ st1.m_state &&& request_processed = st.m_state &&& request_processed

/-- A piece of execution without close: either no reset, and the
response-already-closed bit is not newly set; or one reset, made with the bit
set and leaving it cleared. -/
def quiet_or_reset (st st1 : connection P Q H) : Prop :=
  ∃ new, st1.log = st.log ++ new
    ∧ ((marks new = []
        ∧ (st1.m_state &&& request_processed ≠ 0 → st.m_state &&& request_processed ≠ 0))
      ∨ (marks new = [mark.reset] ∧ st.m_state &&& request_processed ≠ 0
        ∧ st1.m_state &&& request_processed = 0))

/-- A piece of execution whose marks are in order when the flag is at least
the response-already-closed bit before, and leave it so. -/
def follows (st st1 : connection P Q H) : Prop :=
  ∃ new, st1.log = st.log ++ new
    ∧ ∀ g, (st.m_state &&& request_processed ≠ 0 → g = true) →
        ∃ g1, scan g (marks new) = some g1
          ∧ (st1.m_state &&& request_processed ≠ 0 → g1 = true)

/-- While the reading-body bit is clear no body byte is missing. -/
def body_count_inv (st : connection P Q H) : Prop :=
  st.m_state &&& read_data = 0 → st.m_content_length = 0

/-- A trace in which the handler of the first request closes its response
twice, and a second request with a 10 byte body follows. -/
def double_close_trace : List (Event (List (List Byte))) :=
  [Event.handle_read 0 get_root_request, Event.close_impl 0, Event.close_impl 0,
    Event.handle_read 0 (post_root_request ++ [1, 2, 3, 4, 5, 6, 7, 8, 9, 10])]

/-- A request with `Content-Length: 10` has arrived in one read together with
the body bytes `1 2 3 4`; its handler has taken 2 of them and holds back the
rest, so no read is outstanding. -/
def held_back : connection (List Byte) demo_request (List Nat) :=
  handle_read (demo_env [2]) (started [2] 64) 0 (post_root_request ++ [1, 2, 3, 4])

/-- Between the two states the socket is not shut down. -/
def keeps_open (st st1 : connection P Q H) : Prop :=
  ∃ new, st1.log = st.log ++ new ∧ Effect.shutdown ∉ new

/-- The response of a request with `Content-Length: 10` was closed without
error right after its header was read; the request asked for no keep-alive. -/
def closed_early_no_keep_alive : connection (List Byte) demo_request (List Nat) :=
  { (close_impl (demo_env []) post_header_read 0) with m_keep_alive := false }

/-- The request `GET /` has been read and its handler has called `want_more`
once: all-zero state, unprocessed range empty, a read outstanding. -/
def resumed_after_request : connection (List Byte) demo_request (List Nat) :=
  want_more_impl (demo_env []) (handle_read (demo_env []) (started [] 64) 0 get_root_request)

/-- The possible histories of `on_close` calls of one handler instance once
the connection object is destroyed: none, one call, or a call with success
followed by one more call. -/
def final_close_shape : List error_code → Prop
  | [] => True
  | [_] => True
  | [a, _] => a = 0
  | _ => False

/-- The header of a request with `Content-Length: 10` has been read; its
handler will take 2 bytes at its first `on_data` and everything afterwards;
the next read is outstanding. -/
def slow_handler_attached : connection (List Byte) demo_request (List Nat) :=
  handle_read (demo_env [2]) (started [2] 64) 0 post_root_request

/-- The item that `send_error` hands to `send_impl`: the byte ranges of the
stock reply (marked keep-alive when `m_keep_alive` is set) with an empty
content range, and the bound `close_impl` as completion. -/
def stock_item (env : Env P Q R H) (st : connection P Q H) (t : status_type) : buffer_info :=
  ⟨env.to_buffers
      (if st.m_keep_alive then env.set_keep_alive (env.stock_reply t) else env.stock_reply t) [],
    true, handler_fn.close_impl⟩

/-- The connection at the end of a request without body whose header block
`data` arrived in one read: the handler is attached and has been told the
headers and the close, the body count is 0, the reading-body bit has been set
and cleared again, and the bytes after the header boundary are recorded. -/
def bodyless_done (env : Env P Q R H) (st : connection P Q H) (data : List Byte) (h : H) :
    connection P Q H :=
  { attach_handler env (after_parse env st data) h with
    m_content_length := 0
    m_state := (attach_handler env (after_parse env st data) h).m_state &&& bit_not read_data
    m_unprocessed_begin := (env.parse st.m_request_parser_state st.m_request data).2.1
    m_unprocessed_end := data.length
    log := st.log ++ [Effect.parse data, Effect.create st.handlers_created,
      Effect.on_headers st.handlers_created, Effect.on_close st.handlers_created 0] }

/-- The state words a connection takes between steps. -/
def state_word_ok (s : Nat) : Prop :=
  s = processing_request ∨ s = read_headers ∨ s = read_data
    ∨ s = read_headers ||| request_processed ∨ s = read_data ||| request_processed

/-- A trace in which the handler of the first request closes its response
twice. -/
def stray_close_trace : List (Event (List (List Byte))) :=
  [Event.handle_read 0 get_root_request, Event.close_impl 0, Event.close_impl 0]

/-- The connection at the point of `process_data(begin, end)` where the body
is complete: after the delivery, the clearing of the reading-body bit, the
recording of the bytes after the body and the `on_close` of the handler. -/
def body_finished (env : Env P Q R H) (st : connection P Q H) (b e : Nat) : connection P Q H :=
  finish_body (deliver env st b e).2.2 (b + (deliver env st b e).2.1) e

/-- A bound on the nesting of `process_data` calls started in state word `s`. -/
def nesting (s : Nat) : Nat :=
  (if s &&& request_processed ≠ 0 then 2 else 0) + (if s &&& read_headers ≠ 0 then 1 else 0) + 1

/-! ## Theorems -/

/-! ### The state word -/

theorem testBit_small (n i k : Nat) (h : n < 2 ^ k) : n.testBit (i + k) = false :=
  Nat.testBit_lt_two_pow
    (lt_of_lt_of_le h (Nat.pow_le_pow_right (by decide) (Nat.le_add_left k i)))

theorem headers_done_read_headers (s : Nat) :
    ((s &&& bit_not read_headers) ||| read_data) &&& read_headers = 0 := by
  apply Nat.eq_of_testBit_eq; intro i
  simp only [Nat.testBit_and, Nat.testBit_or, bit_not, read_headers, read_data]
  rcases i with _ | _ | _ | i
  · generalize s.testBit _ = x; cases x <;> decide
  · generalize s.testBit _ = x; cases x <;> decide
  · generalize s.testBit _ = x; cases x <;> decide
  · simp [testBit_small 1 i 3 (by decide)]

theorem headers_done_read_data (s : Nat) :
    ((s &&& bit_not read_headers) ||| read_data) &&& read_data = 2 := by
  apply Nat.eq_of_testBit_eq; intro i
  simp only [Nat.testBit_and, Nat.testBit_or, bit_not, read_headers, read_data]
  rcases i with _ | _ | _ | i
  · generalize s.testBit _ = x; cases x <;> decide
  · generalize s.testBit _ = x; cases x <;> decide
  · generalize s.testBit _ = x; cases x <;> decide
  · simp [testBit_small 2 i 3 (by decide)]

theorem headers_done_request_processed (s : Nat) :
    ((s &&& bit_not read_headers) ||| read_data) &&& request_processed
      = s &&& request_processed := by
  apply Nat.eq_of_testBit_eq; intro i
  simp only [Nat.testBit_and, Nat.testBit_or, bit_not, read_headers, read_data, request_processed]
  rcases i with _ | _ | _ | i
  · generalize s.testBit _ = x; cases x <;> decide
  · generalize s.testBit _ = x; cases x <;> decide
  · generalize s.testBit _ = x; cases x <;> decide
  · simp [testBit_small 4 i 3 (by decide)]

theorem body_done_request_processed (s : Nat) :
    (s &&& bit_not read_data) &&& request_processed = s &&& request_processed := by
  apply Nat.eq_of_testBit_eq; intro i
  simp only [Nat.testBit_and, Nat.testBit_or, bit_not, read_data, request_processed]
  rcases i with _ | _ | _ | i
  · generalize s.testBit _ = x; cases x <;> decide
  · generalize s.testBit _ = x; cases x <;> decide
  · generalize s.testBit _ = x; cases x <;> decide
  · simp [testBit_small 4 i 3 (by decide)]

theorem body_done_read_data (s : Nat) : (s &&& bit_not read_data) &&& read_data = 0 := by
  apply Nat.eq_of_testBit_eq; intro i
  simp only [Nat.testBit_and, Nat.testBit_or, bit_not, read_data]
  rcases i with _ | _ | _ | i
  · generalize s.testBit _ = x; cases x <;> decide
  · generalize s.testBit _ = x; cases x <;> decide
  · generalize s.testBit _ = x; cases x <;> decide
  · simp [testBit_small 2 i 3 (by decide)]

theorem closed_read_data (s : Nat) :
    (s ||| request_processed) &&& read_data = s &&& read_data := by
  apply Nat.eq_of_testBit_eq; intro i
  simp only [Nat.testBit_and, Nat.testBit_or, read_data, request_processed]
  rcases i with _ | _ | _ | i
  · generalize s.testBit _ = x; cases x <;> decide
  · generalize s.testBit _ = x; cases x <;> decide
  · generalize s.testBit _ = x; cases x <;> decide
  · simp [testBit_small 2 i 3 (by decide)]

/-! ### `process_data` is total and satisfies its recursive equation -/

theorem process_next_with_mono (env : Env P Q R H)
    (f g : connection P Q H → Nat → Nat → Option (connection P Q H))
    (hfg : ∀ s b e r, f s b e = some r → g s b e = some r)
    (st r : connection P Q H) (h : process_next_with env f st = some r) :
    process_next_with env g st = some r := by
  unfold process_next_with at h ⊢
  dsimp only at h ⊢
  split_ifs at h ⊢ with h1
  · exact hfg _ _ _ _ h
  · exact h

theorem process_data_body_mono (env : Env P Q R H)
    (f g : connection P Q H → Nat → Nat → Option (connection P Q H))
    (hfg : ∀ s b e r, f s b e = some r → g s b e = some r)
    (st : connection P Q H) (b e : Nat) (r : connection P Q H)
    (h : process_data_body env f st b e = some r) :
    process_data_body env g st b e = some r := by
  unfold process_data_body at h ⊢
  split_ifs at h ⊢ with h1 h2
  · split at h
    · exact h
    · split at h
      · exact h
      · exact hfg _ _ _ _ h
    · exact h
  · dsimp only at h ⊢
    split_ifs at h ⊢ with h3 h4 h5
    · exact h
    · exact h
    · exact process_next_with_mono env f g hfg _ _ h
    · exact h
  · exact h

theorem process_data_fuel_succ (env : Env P Q R H) :
    ∀ (n : Nat) (st : connection P Q H) (b e : Nat) (r : connection P Q H),
      process_data_fuel env n st b e = some r → process_data_fuel env (n + 1) st b e = some r := by
  intro n
  induction n with
  | zero => intro st b e r h; simp [process_data_fuel] at h
  | succ n ih =>
    intro st b e r h
    exact process_data_body_mono env _ _ ih st b e r h

theorem process_data_fuel_le (env : Env P Q R H) (n m : Nat) (hnm : n ≤ m)
    (st : connection P Q H) (b e : Nat) (r : connection P Q H)
    (h : process_data_fuel env n st b e = some r) :
    process_data_fuel env m st b e = some r := by
  induction hnm with
  | refl => exact h
  | step _ ih => exact process_data_fuel_succ env _ st b e r ih

theorem parse_headers_state (env : Env P Q R H) (st : connection P Q H) (b e : Nat) :
    (parse_headers env st b e).2.2.m_state = st.m_state := rfl

theorem deliver_state (env : Env P Q R H) (st : connection P Q H) (b e : Nat) :
    (deliver env st b e).2.2.m_state = st.m_state := by
  unfold deliver
  dsimp only
  split
  · split_ifs <;> rfl
  · rfl

theorem finish_body_state (st : connection P Q H) (nb e : Nat) :
    (finish_body st nb e).m_state = st.m_state &&& bit_not read_data := by
  unfold finish_body
  dsimp only
  split <;> rfl

theorem nesting_attach (s : Nat) (h : s &&& read_headers ≠ 0) :
    nesting ((s &&& bit_not read_headers) ||| read_data) + 1 = nesting s := by
  unfold nesting
  rw [headers_done_request_processed, headers_done_read_headers]
  simp [h]

theorem nesting_next (s : Nat) (h : s &&& request_processed ≠ 0) :
    nesting read_headers + 1 ≤ nesting s := by
  have h1 : nesting read_headers = 2 := by decide
  rw [h1]
  unfold nesting
  simp only [h, ne_eq, not_false_eq_true, if_true]
  omega

theorem process_data_fuel_some (env : Env P Q R H) :
    ∀ (n : Nat) (st : connection P Q H) (b e : Nat), nesting st.m_state ≤ n →
      ∃ r, process_data_fuel env n st b e = some r := by
  intro n
  induction n with
  | zero => intro st b e h; simp [nesting] at h
  | succ n ih =>
    intro st b e h
    show ∃ r, process_data_body env (process_data_fuel env n) st b e = some r
    unfold process_data_body
    split_ifs with h1 h2
    · split
      · exact ⟨_, rfl⟩
      · rename_i k st1 heq
        split
        · exact ⟨_, rfl⟩
        · apply ih
          have hs : st1.m_state = st.m_state := by
            have := parse_headers_state env st b e
            rw [heq] at this
            exact this
          show nesting ((st1.m_state &&& bit_not read_headers) ||| read_data) ≤ n
          rw [hs]
          have := nesting_attach st.m_state h1
          omega
      · exact ⟨_, rfl⟩
    · dsimp only
      split_ifs with h3 h4 h5
      · exact ⟨_, rfl⟩
      · exact ⟨_, rfl⟩
      · unfold process_next_with
        dsimp only
        split_ifs with h6
        · apply ih
          rw [finish_body_state, deliver_state, body_done_request_processed] at h5
          show nesting read_headers ≤ n
          have := nesting_next st.m_state h5
          omega
        · exact ⟨_, rfl⟩
      · exact ⟨_, rfl⟩
    · exact ⟨_, rfl⟩

theorem nesting_le (s : Nat) : nesting s ≤ process_data_depth := by
  unfold nesting process_data_depth
  split_ifs <;> omega

/-- The nesting bound is never used up: with any bound of at least
`process_data_depth` the C++ recursion returns, and returns `process_data`. -/
theorem process_data_fuel_total (env : Env P Q R H) (n : Nat) (hn : process_data_depth ≤ n)
    (st : connection P Q H) (b e : Nat) :
    process_data_fuel env n st b e = some (process_data env st b e) := by
  obtain ⟨r, hr⟩ := process_data_fuel_some env process_data_depth st b e (nesting_le _)
  have : process_data env st b e = r := by simp [process_data, hr]
  rw [this]
  exact process_data_fuel_le env _ _ hn st b e r hr

/-- The embedding satisfies the recursive equation of the C++ function. -/
theorem process_data_eq (env : Env P Q R H) (st : connection P Q H) (b e : Nat) :
    process_data_body env (fun s b1 e1 => some (process_data env s b1 e1)) st b e
      = some (process_data env st b e) := by
  have h5 : process_data_fuel env (process_data_depth + 1) st b e
      = some (process_data env st b e) :=
    process_data_fuel_total env _ (Nat.le_succ _) st b e
  refine process_data_body_mono env (process_data_fuel env process_data_depth) _ ?_ st b e _ h5
  intro s b1 e1 r hr
  rw [process_data_fuel_total env _ (le_refl _)] at hr
  exact hr

theorem process_next_eq (env : Env P Q R H) (st : connection P Q H) :
    process_next_with env (fun s b1 e1 => some (process_data env s b1 e1)) st
      = some (process_next env st) := by
  unfold process_next process_next_with
  dsimp only
  split_ifs <;> rfl

/-! ### `process_data`, branch by branch -/

theorem process_data_reading_headers (env : Env P Q R H) (st : connection P Q H) (b e : Nat)
    (h1 : st.m_state &&& read_headers ≠ 0) :
    process_data env st b e =
      match parse_headers env st b e with
      | (tribool.false_value, _, st1) => send_error env st1 status_type.bad_request
      | (tribool.true_value, k, st1) =>
        match env.get_factory st1.m_request with
        | none => send_error env st1 status_type.not_found
        | some h => process_data env (attach_handler env st1 h) (b + k) e
      | (tribool.indeterminate_value, _, st1) => async_read st1 := by
  have h := process_data_eq env st b e
  unfold process_data_body at h
  rw [if_pos h1] at h
  apply Option.some.inj
  rw [← h]
  split
  · rfl
  · split <;> rfl
  · rfl

theorem process_data_reading_body (env : Env P Q R H) (st : connection P Q H) (b e : Nat)
    (h1 : st.m_state &&& read_headers = 0) (h2 : st.m_state &&& read_data ≠ 0) :
    process_data env st b e =
      if (deliver env st b e).1 ≠ (deliver env st b e).2.1 then
        { (deliver env st b e).2.2 with
            m_unprocessed_begin := b + (deliver env st b e).2.1, m_unprocessed_end := e }
      else if (deliver env st b e).2.2.m_content_length > 0 then
        async_read (deliver env st b e).2.2
      else if (finish_body (deliver env st b e).2.2 (b + (deliver env st b e).2.1) e).m_state
          &&& request_processed ≠ 0 then
        process_next env (finish_body (deliver env st b e).2.2 (b + (deliver env st b e).2.1) e)
      else
        finish_body (deliver env st b e).2.2 (b + (deliver env st b e).2.1) e := by
  have h := process_data_eq env st b e
  unfold process_data_body at h
  rw [if_neg (not_not.mpr h1), if_pos h2] at h
  apply Option.some.inj
  rw [← h]
  dsimp only
  split_ifs
  · rfl
  · rfl
  · rw [process_next_eq]
  · rfl

theorem process_data_request_read (env : Env P Q R H) (st : connection P Q H) (b e : Nat)
    (h1 : st.m_state &&& read_headers = 0) (h2 : st.m_state &&& read_data = 0) :
    process_data env st b e = st := by
  have h := process_data_eq env st b e
  unfold process_data_body at h
  rw [if_neg (not_not.mpr h1), if_neg (not_not.mpr h2)] at h
  exact (Option.some.inj h).symm

theorem process_next_unfold (env : Env P Q R H) (st : connection P Q H) :
    process_next env st =
      if st.m_unprocessed_begin ≠ st.m_unprocessed_end then
        process_data env
          { (emit { st with m_state := read_headers, m_request_parser_state := env.parser_initial }
              Effect.parser_reset) with m_request := env.new_request }
          st.m_unprocessed_begin st.m_unprocessed_end
      else
        async_read
          { (emit { st with m_state := read_headers, m_request_parser_state := env.parser_initial }
              Effect.parser_reset) with m_request := env.new_request } := by
  unfold process_next process_next_with
  dsimp only [emit]
  split_ifs <;> rfl

/-! ### The log -/

theorem effects_since_append (st st1 : connection P Q H) (new : List Effect)
    (h : st1.log = st.log ++ new) : effects_since st st1 = new := by
  simp [effects_since, h]

/-! ### C1: order of the bytes put on the wire -/

/-- C1 (fails on the code): a `send_headers` item with the ranges `[1,2]`,
`[3,4]`, `[5]` followed by a `send_data` item `[6,7]`, written with completions
reporting 1, 2 and 2 bytes (each at least 1 and at most what is left of the
current item): the transport has accepted `1 2 4 6 7`, both completions have
run with success and the queue is idle, although the bytes enqueued are
`1 2 3 4 5 6 7`; bytes 3 and 5 were never offered to the transport. -/
theorem C1_flush_loses_bytes :
    (two_items.m_outgoing_info :: two_items.m_outgoing).map (fun i => i.buffer)
        = [[[1, 2], [3, 4], [5]], [[6, 7]]]
    ∧ (flush (demo_env []) two_items [1, 2, 2]).2 = [1, 2, 4, 6, 7]
    ∧ (flush (demo_env []) two_items [1, 2, 2]).2
        ≠ ((two_items.m_outgoing_info :: two_items.m_outgoing).map
            (fun i => i.buffer.flatten)).flatten
    ∧ (flush (demo_env []) two_items [1, 2, 2]).1.m_sending = false
    ∧ (flush (demo_env []) two_items [1, 2, 2]).1.log =
        [Effect.async_write_some [[1, 2], [3, 4], [5]],
         Effect.async_write_some [[2], [4], []],
         Effect.invoke (handler_fn.user 0) 0,
         Effect.async_write_some [[6, 7]],
         Effect.invoke (handler_fn.user 1) 0] := by
  decide

/-! ### C2: a write error drains the queue -/

theorem close_impl_error (env : Env P Q R H) (st : connection P Q H) (err : error_code)
    (herr : err ≠ 0) :
    (close_impl env st err).log = st.log ++ [Effect.shutdown]
    ∧ (close_impl env st err).m_outgoing = st.m_outgoing
    ∧ (close_impl env st err).m_outgoing_info = st.m_outgoing_info
    ∧ (close_impl env st err).m_handler = none := by
  unfold close_impl
  simp only [herr, ne_eq, not_false_eq_true, if_true, emit, drop_handler]
  simp

theorem invoke_error (env : Env P Q R H) (st : connection P Q H) (f : handler_fn)
    (err : error_code) (herr : err ≠ 0) :
    (invoke env st f err).log = st.log ++ invoke_log f err
    ∧ (invoke env st f err).m_outgoing = st.m_outgoing
    ∧ (invoke env st f err).m_outgoing_info = st.m_outgoing_info := by
  cases f with
  | empty => simp [invoke, invoke_log]
  | user id => simp [invoke, invoke_log, emit]
  | close_impl =>
    have h := close_impl_error env (emit st (Effect.invoke handler_fn.close_impl err)) err herr
    simp only [invoke, invoke_log]
    refine ⟨?_, ?_, ?_⟩
    · rw [h.1]; simp [emit]
    · rw [h.2.1]; rfl
    · rw [h.2.2.1]; rfl

theorem invoke_all_error (env : Env P Q R H) (err : error_code) (herr : err ≠ 0) :
    ∀ (items : List buffer_info) (st : connection P Q H),
      (items.foldl (fun s it => invoke env s it.handler err) st).log
          = st.log ++ (items.map (fun it => invoke_log it.handler err)).flatten
      ∧ (items.foldl (fun s it => invoke env s it.handler err) st).m_outgoing = st.m_outgoing := by
  intro items
  induction items with
  | nil => intro st; simp
  | cons it rest ih =>
    intro st
    have h1 := invoke_error env st it.handler err herr
    have h2 := ih (invoke env st it.handler err)
    simp only [List.foldl_cons, List.map_cons, List.flatten_cons]
    refine ⟨?_, ?_⟩
    · rw [h2.1, h1.1, List.append_assoc]
    · rw [h2.2, h1.2.1]

theorem invoked_invoke_log (f : handler_fn) (err : error_code) :
    (invoke_log f err).filterMap invoked
      = if f = handler_fn.empty then [] else [(f, err)] := by
  cases f <;> simp [invoke_log, invoked]

theorem invoked_all (err : error_code) (items : List buffer_info) :
    ((items.map (fun it => invoke_log it.handler err)).flatten).filterMap invoked
      = (items.filter (fun it => decide (it.handler ≠ handler_fn.empty))).map
          (fun it => (it.handler, err)) := by
  induction items with
  | nil => simp
  | cons it rest ih =>
    simp only [List.map_cons, List.flatten_cons, List.filterMap_append, ih, invoked_invoke_log]
    by_cases h : it.handler = handler_fn.empty
    · simp [h]
    · simp [h]

theorem write_finished_error_log (env : Env P Q R H) (st : connection P Q H)
    (err : error_code) (n : Nat) (herr : err ≠ 0) :
    (write_finished env st err n).m_outgoing = []
    ∧ ∃ notify : List Effect,
        (notify = [] ∨ ∃ id, notify = [Effect.on_close id err])
        ∧ (write_finished env st err n).log
            = st.log
              ++ (((st.m_outgoing_info :: st.m_outgoing).map
                    (fun it => invoke_log it.handler err)).flatten
                  ++ notify ++ [Effect.shutdown]) := by
  unfold write_finished
  simp only [herr, ne_eq, not_false_eq_true, if_true]
  have h1 := invoke_error env { st with m_outgoing := [] } st.m_outgoing_info.handler err herr
  have h2 := invoke_all_error env err herr st.m_outgoing
    (invoke env { st with m_outgoing := [] } st.m_outgoing_info.handler err)
  generalize hst3 : (st.m_outgoing.foldl (fun s it => invoke env s it.handler err)
      (invoke env { st with m_outgoing := [] } st.m_outgoing_info.handler err)) = st3 at h2
  have hlog3 : st3.log = st.log ++ ((st.m_outgoing_info :: st.m_outgoing).map
      (fun it => invoke_log it.handler err)).flatten := by
    rw [h2.1, h1.1]; simp
  have hout3 : st3.m_outgoing = [] := by rw [h2.2, h1.2.1]
  cases hh : st3.m_handler with
  | none =>
    have h4 := close_impl_error env st3 err herr
    refine ⟨by rw [h4.2.1, hout3], [], Or.inl rfl, ?_⟩
    rw [h4.1, hlog3]; simp
  | some p =>
    obtain ⟨id, hd⟩ := p
    have h4 := close_impl_error env (emit st3 (Effect.on_close id err)) err herr
    refine ⟨by rw [h4.2.1]; exact hout3, [Effect.on_close id err], Or.inr ⟨id, rfl⟩, ?_⟩
    rw [h4.1]; simp [emit, hlog3]

/-- C2: when `write_finished` is called with an error, the completions of the
current item and of every pending item (those that hold a function) are each
called exactly once with that error, the current one first and the pending
ones in queue order; the pending list is left empty; no write (and no read)
is issued. -/
theorem C2_write_error_completes_all (env : Env P Q R H) (st : connection P Q H)
    (err : error_code) (n : Nat) (herr : err ≠ 0) :
    (write_finished env st err n).m_outgoing = []
    ∧ (effects_since st (write_finished env st err n)).filterMap invoked
        = ((st.m_outgoing_info :: st.m_outgoing).filter
            (fun it => decide (it.handler ≠ handler_fn.empty))).map (fun it => (it.handler, err))
    ∧ (∀ bufs, Effect.async_write_some bufs ∉ effects_since st (write_finished env st err n))
    ∧ Effect.async_read_some ∉ effects_since st (write_finished env st err n) := by
  obtain ⟨hout, notify, hn, hlog⟩ := write_finished_error_log env st err n herr
  rw [effects_since_append st _ _ hlog]
  have hno : ∀ (f : handler_fn) (x : Effect), x ∈ invoke_log f err →
      (∃ g, x = Effect.invoke g err) ∨ x = Effect.shutdown := by
    intro f x hx
    cases f <;> simp [invoke_log] at hx
    · exact Or.inl ⟨_, hx⟩
    · rcases hx with hx | hx
      · exact Or.inl ⟨_, hx⟩
      · exact Or.inr hx
  have hmem : ∀ x, x ∈ ((st.m_outgoing_info :: st.m_outgoing).map
      (fun it => invoke_log it.handler err)).flatten ++ notify ++ [Effect.shutdown] →
      (∃ g, x = Effect.invoke g err) ∨ x = Effect.shutdown ∨ ∃ id, x = Effect.on_close id err := by
    intro x hx
    simp only [List.mem_append, List.mem_flatten, List.mem_map, List.mem_singleton] at hx
    rcases hx with (⟨l, ⟨it, _, rfl⟩, hx⟩ | hx) | hx
    · rcases hno _ _ hx with h | h
      · exact Or.inl h
      · exact Or.inr (Or.inl h)
    · rcases hn with h | ⟨id, h⟩
      · rw [h] at hx; simp at hx
      · rw [h] at hx; simp at hx; exact Or.inr (Or.inr ⟨id, hx⟩)
    · exact Or.inr (Or.inl hx)
  refine ⟨hout, ?_, ?_, ?_⟩
  · rw [List.filterMap_append, List.filterMap_append, invoked_all]
    rcases hn with h | ⟨id, h⟩ <;> simp [h, invoked]
  · intro bufs hx
    rcases hmem _ hx with ⟨g, h⟩ | h | ⟨id, h⟩ <;> cases h
  · intro hx
    rcases hmem _ hx with ⟨g, h⟩ | h | ⟨id, h⟩ <;> cases h

/-- C2 at a queue with a current item and four pending items, error 5. -/
theorem C2_write_error_completes_all_witness :
    (write_finished (demo_env []) busy_queue 5 0).m_outgoing = []
    ∧ (effects_since busy_queue (write_finished (demo_env []) busy_queue 5 0)).filterMap invoked
        = [(handler_fn.user 7, 5), (handler_fn.user 8, 5), (handler_fn.close_impl, 5),
           (handler_fn.user 9, 5)]
    ∧ (∀ bufs, Effect.async_write_some bufs ∉
        effects_since busy_queue (write_finished (demo_env []) busy_queue 5 0))
    ∧ Effect.async_read_some ∉
        effects_since busy_queue (write_finished (demo_env []) busy_queue 5 0) :=
  C2_write_error_completes_all (demo_env []) busy_queue 5 0 (by decide)

/-! ### C3: the `on_close` calls a handler receives -/

theorem closes_append (id : Nat) (l1 l2 : List Effect) :
    closes id (l1 ++ l2) = closes id l1 ++ closes id l2 := by
  simp [closes, List.filterMap_append]

theorem close_inv_frame {st st1 : connection P Q H} (hinv : close_inv st)
    (hlog : ∀ id, closes id st1.log = closes id st.log)
    (hc : st1.handlers_created = st.handlers_created)
    (hh : ∀ id hd, st1.m_handler = some (id, hd) →
      (∃ hd0, st.m_handler = some (id, hd0))
      ∧ (st1.m_state &&& read_data ≠ 0 → st.m_state &&& read_data ≠ 0)) :
    close_inv st1 := by
  obtain ⟨h1, h2, h3⟩ := hinv
  refine ⟨fun id => by rw [hlog]; exact h1 id, fun id hid => ?_, fun id hd hatt => ?_⟩
  · rw [hlog]; exact h2 id (by omega)
  · obtain ⟨⟨hd0, h0⟩, hbit⟩ := hh id hd hatt
    obtain ⟨hlt, hcl⟩ := h3 id hd0 h0
    refine ⟨by omega, ?_⟩
    rw [hlog]
    rcases hcl with hcl | ⟨hcl, hz⟩
    · exact Or.inl hcl
    · refine Or.inr ⟨hcl, ?_⟩
      by_contra hne
      exact hbit hne hz

theorem close_inv_closed {st st1 : connection P Q H} (hinv : close_inv st)
    (id : Nat) (hd : H) (err : error_code) (hatt : st.m_handler = some (id, hd))
    (herr : err ≠ 0)
    (hlog : ∀ i, closes i st1.log = closes i st.log ++ closes i [Effect.on_close id err])
    (hc : st1.handlers_created = st.handlers_created)
    (hh : st1.m_handler = none) :
    close_inv st1 := by
  obtain ⟨h1, h2, h3⟩ := hinv
  obtain ⟨hlt, hcl⟩ := h3 id hd hatt
  refine ⟨fun i => ?_, fun i hi => ?_, fun i hd1 h => by rw [hh] at h; cases h⟩
  · rw [hlog]
    by_cases hi : id = i
    · subst hi
      rcases hcl with hcl | ⟨hcl, _⟩
      · rw [hcl]; simp [closes, close_shape]
      · rw [hcl]; simp [closes, close_shape, herr]
    · have : closes i [Effect.on_close id err] = [] := by simp [closes, hi]
      rw [this, List.append_nil]; exact h1 i
  · rw [hlog, h2 i (by omega)]
    have : id ≠ i := by omega
    simp [closes, this]

theorem close_inv_async_read {st : connection P Q H} (hinv : close_inv st) :
    close_inv (async_read st) := by
  unfold async_read
  split_ifs
  · exact hinv
  · exact close_inv_frame hinv (fun id => by simp [emit, closes]) rfl
      (fun id hd h => ⟨⟨hd, h⟩, fun h => h⟩)

theorem close_inv_send_impl {st : connection P Q H} (hinv : close_inv st) (info : buffer_info) :
    close_inv (send_impl st info) := by
  unfold send_impl
  split_ifs
  · exact close_inv_frame hinv (fun id => rfl) rfl (fun id hd h => ⟨⟨hd, h⟩, fun h => h⟩)
  · exact close_inv_frame hinv (fun id => by simp [emit, closes]) rfl
      (fun id hd h => ⟨⟨hd, h⟩, fun h => h⟩)

theorem close_inv_send_error (env : Env P Q R H) {st : connection P Q H} (hinv : close_inv st)
    (t : status_type) : close_inv (send_error env st t) :=
  close_inv_send_impl hinv _

theorem close_inv_parse_headers (env : Env P Q R H) {st : connection P Q H} (hinv : close_inv st)
    (b e : Nat) : close_inv (parse_headers env st b e).2.2 :=
  close_inv_frame hinv (fun id => by simp [parse_headers, emit, closes]) rfl
    (fun id hd h => ⟨⟨hd, h⟩, fun h => h⟩)

theorem close_inv_attach_handler (env : Env P Q R H) {st : connection P Q H}
    (hinv : close_inv st) (h : H) : close_inv (attach_handler env st h) := by
  obtain ⟨h1, h2, h3⟩ := hinv
  have hlog : ∀ id, closes id (attach_handler env st h).log = closes id st.log := by
    intro id; simp [attach_handler, closes]
  refine ⟨fun id => by rw [hlog]; exact h1 id, fun id hid => ?_, fun id hd hatt => ?_⟩
  · rw [hlog]; exact h2 id (by simp only [attach_handler] at hid; omega)
  · simp only [attach_handler, Option.some.injEq, Prod.mk.injEq] at hatt
    obtain ⟨rfl, _⟩ := hatt
    refine ⟨by simp [attach_handler], Or.inl ?_⟩
    rw [hlog]; exact h2 _ (le_refl _)

theorem close_inv_deliver (env : Env P Q R H) {st : connection P Q H} (hinv : close_inv st)
    (b e : Nat) :
    close_inv (deliver env st b e).2.2
    ∧ (deliver env st b e).2.2.m_state = st.m_state := by
  refine ⟨?_, deliver_state env st b e⟩
  unfold deliver
  dsimp only
  split
  · rename_i id hd hatt
    split_ifs
    · refine close_inv_frame hinv (fun i => by simp [closes]) rfl ?_
      intro i hd1 h
      simp only [Option.some.injEq, Prod.mk.injEq] at h
      exact ⟨⟨hd, by rw [hatt, ← h.1]⟩, fun h => h⟩
    · exact close_inv_frame hinv (fun i => rfl) rfl (fun i hd1 h => ⟨⟨hd1, h⟩, fun h => h⟩)
  · exact close_inv_frame hinv (fun i => rfl) rfl (fun i hd1 h => ⟨⟨hd1, h⟩, fun h => h⟩)

theorem close_inv_finish_body {st : connection P Q H} (hinv : close_inv st)
    (hs : st.m_state &&& read_data ≠ 0) (nb e : Nat) : close_inv (finish_body st nb e) := by
  have hstate := finish_body_state st nb e
  obtain ⟨h1, h2, h3⟩ := hinv
  unfold finish_body at hstate ⊢
  dsimp only at hstate ⊢
  cases hatt : st.m_handler with
  | none =>
    simp only [hatt]
    refine ⟨h1, h2, fun id hd h => ?_⟩
    simp [hatt] at h
  | some p =>
    obtain ⟨id, hd⟩ := p
    simp only [hatt, emit]
    obtain ⟨hlt, hcl⟩ := h3 id hd hatt
    have hnil : closes id st.log = [] := by
      rcases hcl with hcl | ⟨_, hz⟩
      · exact hcl
      · exact absurd hz hs
    refine ⟨fun i => ?_, fun i hi => ?_, fun i hd1 h => ?_⟩
    · show close_shape (closes i (st.log ++ [Effect.on_close id 0]))
      rw [closes_append]
      by_cases hi : id = i
      · subst hi
        rw [hnil]; simp [closes, close_shape]
      · have : closes i [Effect.on_close id 0] = [] := by simp [closes, hi]
        rw [this, List.append_nil]; exact h1 i
    · show closes i (st.log ++ [Effect.on_close id 0]) = []
      rw [closes_append, h2 i hi]
      have : id ≠ i := by
        have : i ≥ st.handlers_created := hi
        omega
      simp [closes, this]
    · simp only [hatt, Option.some.injEq, Prod.mk.injEq] at h
      obtain ⟨rfl, _⟩ := h
      refine ⟨hlt, Or.inr ⟨?_, ?_⟩⟩
      · show closes id (st.log ++ [Effect.on_close id 0]) = [0]
        rw [closes_append, hnil]; simp [closes]
      · exact body_done_read_data st.m_state

theorem close_inv_process_next_with (env : Env P Q R H)
    (self : connection P Q H → Nat → Nat → Option (connection P Q H))
    (hself : ∀ s b e r, self s b e = some r → close_inv s → close_inv r)
    (st r : connection P Q H) (h : process_next_with env self st = some r)
    (hinv : close_inv st) : close_inv r := by
  unfold process_next_with at h
  dsimp only at h
  have hfresh : close_inv
      { (emit { st with m_state := read_headers, m_request_parser_state := env.parser_initial }
          Effect.parser_reset) with m_request := env.new_request } := by
    refine close_inv_frame hinv (fun id => by simp [emit, closes]) rfl ?_
    intro id hd hatt
    exact ⟨⟨hd, hatt⟩, fun hbit => absurd (by decide : read_headers &&& read_data = 0) hbit⟩
  split_ifs at h
  · exact hself _ _ _ _ h hfresh
  · cases h
    exact close_inv_async_read hfresh

theorem close_inv_process_data_body (env : Env P Q R H)
    (self : connection P Q H → Nat → Nat → Option (connection P Q H))
    (hself : ∀ s b e r, self s b e = some r → close_inv s → close_inv r)
    (st : connection P Q H) (b e : Nat) (r : connection P Q H)
    (h : process_data_body env self st b e = some r) (hinv : close_inv st) :
    close_inv r := by
  unfold process_data_body at h
  split_ifs at h with h1 h2
  · have hp := close_inv_parse_headers env hinv b e
    split at h
    · rename_i k st1 heq
      rw [heq] at hp
      cases h
      exact close_inv_send_error env hp _
    · rename_i k st1 heq
      rw [heq] at hp
      split at h
      · cases h
        exact close_inv_send_error env hp _
      · exact hself _ _ _ _ h (close_inv_attach_handler env hp _)
    · rename_i k st1 heq
      rw [heq] at hp
      cases h
      exact close_inv_async_read hp
  · dsimp only at h
    obtain ⟨hd, hds⟩ := close_inv_deliver env hinv b e
    split_ifs at h with h3 h4 h5
    · cases h
      exact close_inv_frame hd (fun id => rfl) rfl (fun id hd1 h => ⟨⟨hd1, h⟩, fun h => h⟩)
    · cases h
      exact close_inv_async_read hd
    · exact close_inv_process_next_with env self hself _ _ h
        (close_inv_finish_body hd (by rw [hds]; exact h2) _ _)
    · cases h
      exact close_inv_finish_body hd (by rw [hds]; exact h2) _ _
  · cases h
    exact hinv

theorem close_inv_process_data_fuel (env : Env P Q R H) :
    ∀ (n : Nat) (st : connection P Q H) (b e : Nat) (r : connection P Q H),
      process_data_fuel env n st b e = some r → close_inv st → close_inv r := by
  intro n
  induction n with
  | zero => intro st b e r h; simp [process_data_fuel] at h
  | succ n ih =>
    intro st b e r h
    exact close_inv_process_data_body env _ ih st b e r h

theorem close_inv_process_data (env : Env P Q R H) {st : connection P Q H}
    (hinv : close_inv st) (b e : Nat) : close_inv (process_data env st b e) :=
  close_inv_process_data_fuel env _ st b e _
    (process_data_fuel_total env _ (le_refl _) st b e) hinv

theorem close_inv_process_next (env : Env P Q R H) {st : connection P Q H}
    (hinv : close_inv st) : close_inv (process_next env st) :=
  close_inv_process_next_with env _
    (fun s b e r h hs => by cases h; exact close_inv_process_data env hs b e)
    st _ (process_next_eq env st) hinv

theorem close_inv_drop_handler {st : connection P Q H} (hinv : close_inv st) :
    close_inv (drop_handler st) :=
  close_inv_frame hinv (fun id => rfl) rfl (fun id hd h => by simp [drop_handler] at h)

theorem close_inv_close_impl (env : Env P Q R H) {st : connection P Q H}
    (hinv : close_inv st) (err : error_code) : close_inv (close_impl env st err) := by
  unfold close_impl
  have h2 := close_inv_drop_handler hinv
  have hn : (drop_handler st).m_handler = none := rfl
  split_ifs
  · exact close_inv_frame h2 (fun id => by simp [emit, closes]) rfl
      (fun id hd h => by simp [emit, hn] at h)
  · exact close_inv_frame h2 (fun id => rfl) rfl (fun id hd h => by simp [hn] at h)
  · exact close_inv_frame h2 (fun id => by simp [emit, closes]) rfl
      (fun id hd h => by simp [emit, hn] at h)
  · exact close_inv_process_next env h2

theorem close_inv_invoke (env : Env P Q R H) {st : connection P Q H}
    (hinv : close_inv st) (f : handler_fn) (err : error_code) :
    close_inv (invoke env st f err) := by
  cases f with
  | empty => exact hinv
  | user id =>
    exact close_inv_frame hinv (fun id => by simp [invoke, emit, closes]) rfl
      (fun id hd h => ⟨⟨hd, h⟩, fun h => h⟩)
  | close_impl =>
    refine close_inv_close_impl env ?_ err
    exact close_inv_frame hinv (fun id => by simp [emit, closes]) rfl
      (fun id hd h => ⟨⟨hd, h⟩, fun h => h⟩)

theorem close_inv_invoke_all (env : Env P Q R H) (err : error_code) :
    ∀ (items : List buffer_info) (st : connection P Q H), close_inv st →
      close_inv (items.foldl (fun s it => invoke env s it.handler err) st) := by
  intro items
  induction items with
  | nil => intro st h; exact h
  | cons it rest ih => intro st h; exact ih _ (close_inv_invoke env h _ _)

theorem close_impl_error_created (env : Env P Q R H) (st : connection P Q H) (err : error_code)
    (herr : err ≠ 0) : (close_impl env st err).handlers_created = st.handlers_created := by
  unfold close_impl
  simp only [herr, ne_eq, not_false_eq_true, if_true, emit, drop_handler]

theorem close_inv_write_finished (env : Env P Q R H) {st : connection P Q H}
    (hinv : close_inv st) (err : error_code) (n : Nat) :
    close_inv (write_finished env st err n) := by
  unfold write_finished
  split_ifs with herr
  · dsimp only
    have h1 : close_inv { st with m_outgoing := [] } :=
      close_inv_frame hinv (fun id => rfl) rfl (fun id hd h => ⟨⟨hd, h⟩, fun h => h⟩)
    have h3 := close_inv_invoke_all env err st.m_outgoing _
      (close_inv_invoke env h1 st.m_outgoing_info.handler err)
    generalize (st.m_outgoing.foldl (fun s it => invoke env s it.handler err)
      (invoke env { st with m_outgoing := [] } st.m_outgoing_info.handler err)) = st3 at h3
    cases hatt : st3.m_handler with
    | none => exact close_inv_close_impl env h3 err
    | some p =>
      obtain ⟨id, hd⟩ := p
      dsimp only
      have hc := close_impl_error env (emit st3 (Effect.on_close id err)) err herr
      refine close_inv_closed h3 id hd err hatt herr (fun i => ?_) ?_ hc.2.2.2
      · rw [hc.1]
        show closes i ((st3.log ++ [Effect.on_close id err]) ++ [Effect.shutdown]) = _
        rw [closes_append, closes_append]
        simp [closes]
      · rw [close_impl_error_created env _ err herr]; rfl
  · dsimp only
    have h1 : close_inv { st with m_outgoing_info :=
        { st.m_outgoing_info with buffer := advance n st.m_outgoing_info.buffer } } :=
      close_inv_frame hinv (fun id => rfl) rfl (fun id hd h => ⟨⟨hd, h⟩, fun h => h⟩)
    split_ifs
    · exact close_inv_frame h1 (fun id => by simp [emit, closes]) rfl
        (fun id hd h => ⟨⟨hd, h⟩, fun h => h⟩)
    · have h2 := close_inv_invoke env h1 st.m_outgoing_info.handler err
      have h3 : close_inv { (invoke env { st with m_outgoing_info :=
          { st.m_outgoing_info with buffer := advance n st.m_outgoing_info.buffer } }
            st.m_outgoing_info.handler err) with
          m_outgoing_info := ⟨[], false, handler_fn.empty⟩ } :=
        close_inv_frame h2 (fun id => rfl) rfl (fun id hd h => ⟨⟨hd, h⟩, fun h => h⟩)
      split
      · exact close_inv_frame h3 (fun id => rfl) rfl (fun id hd h => ⟨⟨hd, h⟩, fun h => h⟩)
      · exact close_inv_frame h3 (fun id => by simp [emit, closes]) rfl
          (fun id hd h => ⟨⟨hd, h⟩, fun h => h⟩)

theorem close_inv_handle_read (env : Env P Q R H) {st : connection P Q H}
    (hinv : close_inv st) (err : error_code) (data : List Byte) :
    close_inv (handle_read env st err data) := by
  unfold handle_read
  have h1 : close_inv (read_done st data) :=
    close_inv_frame hinv (fun id => rfl) rfl (fun id hd h => ⟨⟨hd, h⟩, fun h => h⟩)
  have hh : (read_done st data).m_handler = st.m_handler := rfl
  split_ifs with herr
  · rw [hh]
    cases hatt : st.m_handler with
    | none =>
      exact close_inv_frame h1 (fun id => rfl) rfl (fun id hd h => by simp at h)
    | some p =>
      obtain ⟨id, hd⟩ := p
      exact close_inv_closed hinv id hd err hatt herr
        (fun i => by simp [emit, closes, read_done]) rfl rfl
  · exact close_inv_process_data env h1 _ _

theorem close_inv_want_more_impl (env : Env P Q R H) {st : connection P Q H}
    (hinv : close_inv st) : close_inv (want_more_impl env st) := by
  unfold want_more_impl
  split_ifs
  · exact close_inv_process_data env hinv _ _
  · exact close_inv_async_read hinv

theorem close_inv_step (env : Env P Q R H) {st : connection P Q H}
    (hinv : close_inv st) (ev : Event R) : close_inv (step env st ev) := by
  cases ev with
  | handle_read err data => exact close_inv_handle_read env hinv err data
  | write_finished err n => exact close_inv_write_finished env hinv err n
  | send_headers rep content handler => exact close_inv_send_impl hinv _
  | send_data buffer handler => exact close_inv_send_impl hinv _
  | want_more_impl => exact close_inv_want_more_impl env hinv
  | close_impl err => exact close_inv_close_impl env hinv err

theorem close_inv_run (env : Env P Q R H) (evs : List (Event R)) :
    ∀ st : connection P Q H, close_inv st → close_inv (run env st evs) := by
  induction evs with
  | nil => intro st h; exact h
  | cons ev rest ih => intro st h; exact ih _ (close_inv_step env h ev)

theorem close_inv_started (env : Env P Q R H) (size : Nat) :
    close_inv (start (connection.init env size)) := by
  refine ⟨fun id => ?_, fun id _ => ?_, fun id hd h => ?_⟩
  · simp [start, async_read, connection.init, emit, closes, close_shape]
  · simp [start, async_read, connection.init, emit, closes]
  · simp [start, async_read, connection.init, emit] at h

/-! ### The log only grows -/

theorem grows_refl (st : connection P Q H) : grows st st := ⟨[], by simp⟩

theorem grows_trans {a b c : connection P Q H} (h1 : grows a b) (h2 : grows b c) :
    grows a c := by
  obtain ⟨r1, e1⟩ := h1
  obtain ⟨r2, e2⟩ := h2
  exact ⟨r1 ++ r2, by rw [e2, e1, List.append_assoc]⟩

theorem grows_async_read (st : connection P Q H) : grows st (async_read st) := by
  unfold async_read
  split_ifs
  · exact grows_refl st
  · exact ⟨[Effect.async_read_some], rfl⟩

theorem grows_send_impl (st : connection P Q H) (info : buffer_info) :
    grows st (send_impl st info) := by
  unfold send_impl
  split_ifs
  · exact ⟨[], by simp⟩
  · exact ⟨[Effect.async_write_some info.buffer], rfl⟩

theorem grows_finish_body (st : connection P Q H) (nb e : Nat) :
    grows st (finish_body st nb e) := by
  unfold finish_body
  dsimp only
  split
  · exact ⟨[_], rfl⟩
  · exact ⟨[], by simp⟩

theorem grows_deliver (env : Env P Q R H) (st : connection P Q H) (b e : Nat) :
    grows st (deliver env st b e).2.2 := by
  unfold deliver
  dsimp only
  split
  · split_ifs
    · exact ⟨[_], rfl⟩
    · exact ⟨[], by simp⟩
  · exact ⟨[], by simp⟩

theorem grows_process_next_with (env : Env P Q R H)
    (self : connection P Q H → Nat → Nat → Option (connection P Q H))
    (hself : ∀ s b e r, self s b e = some r → grows s r)
    (st r : connection P Q H) (h : process_next_with env self st = some r) : grows st r := by
  unfold process_next_with at h
  dsimp only at h
  have h0 : grows st
      { (emit { st with m_state := read_headers, m_request_parser_state := env.parser_initial }
          Effect.parser_reset) with m_request := env.new_request } :=
    ⟨[Effect.parser_reset], rfl⟩
  split_ifs at h
  · exact grows_trans h0 (hself _ _ _ _ h)
  · cases h
    exact grows_trans h0 (grows_async_read _)

theorem grows_process_data_body (env : Env P Q R H)
    (self : connection P Q H → Nat → Nat → Option (connection P Q H))
    (hself : ∀ s b e r, self s b e = some r → grows s r)
    (st : connection P Q H) (b e : Nat) (r : connection P Q H)
    (h : process_data_body env self st b e = some r) : grows st r := by
  unfold process_data_body at h
  split_ifs at h with h1 h2
  · have hp : grows st (parse_headers env st b e).2.2 := ⟨[_], rfl⟩
    split at h
    · rename_i k st1 heq
      rw [heq] at hp
      cases h
      exact grows_trans hp (grows_send_impl _ _)
    · rename_i k st1 heq
      rw [heq] at hp
      split at h
      · cases h
        exact grows_trans hp (grows_send_impl _ _)
      · exact grows_trans hp (grows_trans ⟨[_, _], rfl⟩ (hself _ _ _ _ h))
    · rename_i k st1 heq
      rw [heq] at hp
      cases h
      exact grows_trans hp (grows_async_read _)
  · dsimp only at h
    have hd := grows_deliver env st b e
    split_ifs at h with h3 h4 h5
    · cases h
      exact grows_trans hd ⟨[], by simp⟩
    · cases h
      exact grows_trans hd (grows_async_read _)
    · exact grows_trans hd (grows_trans (grows_finish_body _ _ _)
        (grows_process_next_with env self hself _ _ h))
    · cases h
      exact grows_trans hd (grows_finish_body _ _ _)
  · cases h
    exact grows_refl st

theorem grows_process_data_fuel (env : Env P Q R H) :
    ∀ (n : Nat) (st : connection P Q H) (b e : Nat) (r : connection P Q H),
      process_data_fuel env n st b e = some r → grows st r := by
  intro n
  induction n with
  | zero => intro st b e r h; simp [process_data_fuel] at h
  | succ n ih =>
    intro st b e r h
    exact grows_process_data_body env _ ih st b e r h

theorem grows_process_data (env : Env P Q R H) (st : connection P Q H) (b e : Nat) :
    grows st (process_data env st b e) :=
  grows_process_data_fuel env _ st b e _ (process_data_fuel_total env _ (le_refl _) st b e)

theorem grows_process_next (env : Env P Q R H) (st : connection P Q H) :
    grows st (process_next env st) :=
  grows_process_next_with env _
    (fun s b e r h => by cases h; exact grows_process_data env s b e)
    st _ (process_next_eq env st)

theorem process_data_reading_body_grows (env : Env P Q R H) (st : connection P Q H) (b e : Nat)
    (h1 : st.m_state &&& read_headers = 0) (h2 : st.m_state &&& read_data ≠ 0) :
    grows (deliver env st b e).2.2 (process_data env st b e) := by
  rw [process_data_reading_body env st b e h1 h2]
  split_ifs
  · exact ⟨[], by simp⟩
  · exact grows_async_read _
  · exact grows_trans (grows_finish_body _ _ _) (grows_process_next env _)
  · exact grows_finish_body _ _ _

/-! ### C4: backpressure and resume -/

theorem size_t_sub_eq (a c : Nat) (ha : a < size_t_mod) (hc : c ≤ a) :
    size_t_sub a c = a - c := by
  have hm : size_t_mod = 18446744073709551616 := by decide
  unfold size_t_sub
  rw [hm] at ha ⊢
  omega

theorem deliver_attached (env : Env P Q R H) (st : connection P Q H) (b e id : Nat) (hd : H)
    (hatt : st.m_handler = some (id, hd)) (hpos : min st.m_content_length (e - b) ≠ 0) :
    deliver env st b e =
      (min st.m_content_length (e - b),
        (env.on_data hd (slice st.m_buffer b (b + min st.m_content_length (e - b)))).1,
        { st with
          m_handler := some (id,
            (env.on_data hd (slice st.m_buffer b (b + min st.m_content_length (e - b)))).2)
          log := st.log ++
            [Effect.on_data id (slice st.m_buffer b (b + min st.m_content_length (e - b)))
              (env.on_data hd (slice st.m_buffer b (b + min st.m_content_length (e - b)))).1]
          m_content_length := size_t_sub st.m_content_length
            (env.on_data hd (slice st.m_buffer b (b + min st.m_content_length (e - b)))).1 }) := by
  unfold deliver
  simp only [hatt, hpos, ne_eq, not_false_eq_true, if_true]

theorem slice_take_append (buf : List Byte) (b c o o1 : Nat) (hc : c ≤ o) :
    (slice buf b (b + o)).take c ++ slice buf (b + c) (b + c + o1) = slice buf b (b + c + o1) := by
  unfold slice
  have e1 : b + o - b = o := by omega
  have e2 : b + c + o1 - (b + c) = o1 := by omega
  have e3 : b + c + o1 - b = c + o1 := by omega
  rw [e1, e2, e3, List.take_take, min_eq_left hc, ← List.drop_drop, List.take_add]

theorem slice_length (buf : List Byte) (b e : Nat) (h : e ≤ buf.length) :
    (slice buf b e).length = e - b := by
  unfold slice
  simp
  omega

theorem slice_read_done (st : connection P Q H) (c : List Byte) (n : Nat) (hn : n ≤ c.length) :
    slice (read_done st c).m_buffer 0 n = c.take n := by
  show slice (c ++ st.m_buffer.drop c.length) 0 n = c.take n
  unfold slice
  simp [List.take_append_of_le_length hn]

/-- A body-reading step `process_data(begin, end)` in which `on_data`
returns `consumed < offered` (offered = min(body_remaining, end - begin))
decreases `m_content_length` by `consumed`, stores `[begin + consumed, end)` as
the unprocessed range, keeps the state word and `m_at_read`, and adds exactly
one effect, the `on_data` call (no read, no further `on_data`).  The next
`want_more_impl` re-enters `process_data` on `[begin + consumed, end)`, and the
first thing it does is call `on_data` with the bytes that start at
`begin + consumed`, so the bytes consumed before and the bytes offered now are
consecutive bytes of the buffer. -/
theorem backpressure_step (env : Env P Q R H) (st : connection P Q H)
    (b e id : Nat) (hd : H)
    (h1 : st.m_state &&& read_headers = 0) (h2 : st.m_state &&& read_data ≠ 0)
    (hatt : st.m_handler = some (id, hd))
    (hsz : st.m_content_length < size_t_mod)
    (hback : (env.on_data hd (slice st.m_buffer b (b + min st.m_content_length (e - b)))).1
      < min st.m_content_length (e - b)) :
    let offered := min st.m_content_length (e - b)
    let consumed := (env.on_data hd (slice st.m_buffer b (b + offered))).1
    let st1 := process_data env st b e
    let offered1 := min (st.m_content_length - consumed) (e - (b + consumed))
    st1.m_content_length = st.m_content_length - consumed
    ∧ st1.m_unprocessed_begin = b + consumed
    ∧ st1.m_unprocessed_end = e
    ∧ st1.m_state = st.m_state
    ∧ st1.m_at_read = st.m_at_read
    ∧ effects_since st st1 = [Effect.on_data id (slice st.m_buffer b (b + offered)) consumed]
    ∧ want_more_impl env st1 = process_data env st1 (b + consumed) e
    ∧ 0 < offered1
    ∧ (∃ rest, effects_since st1 (want_more_impl env st1)
        = Effect.on_data id (slice st.m_buffer (b + consumed) (b + consumed + offered1))
            (env.on_data (env.on_data hd (slice st.m_buffer b (b + offered))).2
              (slice st.m_buffer (b + consumed) (b + consumed + offered1))).1 :: rest)
    ∧ (slice st.m_buffer b (b + offered)).take consumed
        ++ slice st.m_buffer (b + consumed) (b + consumed + offered1)
        = slice st.m_buffer b (b + consumed + offered1) := by
  intro offered consumed st1 offered1
  have hpos : min st.m_content_length (e - b) ≠ 0 := by omega
  have hdel := deliver_attached env st b e id hd hatt hpos
  have hne : (deliver env st b e).1 ≠ (deliver env st b e).2.1 := by
    rw [hdel]; exact (Nat.ne_of_lt hback).symm
  have hst1 : st1 = { (deliver env st b e).2.2 with
      m_unprocessed_begin := b + (deliver env st b e).2.1, m_unprocessed_end := e } := by
    show process_data env st b e = _
    rw [process_data_reading_body env st b e h1 h2, if_pos hne]
  rw [hdel] at hst1
  have hco : consumed < offered := hback
  have hol : offered ≤ st.m_content_length := min_le_left _ _
  have hor : offered ≤ e - b := min_le_right _ _
  have hcl : st1.m_content_length = st.m_content_length - consumed := by
    rw [hst1]; exact size_t_sub_eq _ _ hsz (by omega)
  have hbeg : st1.m_unprocessed_begin = b + consumed := by rw [hst1]
  have hend : st1.m_unprocessed_end = e := by rw [hst1]
  have hstate : st1.m_state = st.m_state := by rw [hst1]
  have hbuf : st1.m_buffer = st.m_buffer := by rw [hst1]
  have hlog : st1.log
      = st.log ++ [Effect.on_data id (slice st.m_buffer b (b + offered)) consumed] := by
    rw [hst1]
  have hwm : want_more_impl env st1 = process_data env st1 (b + consumed) e := by
    unfold want_more_impl
    rw [hbeg, hend, if_pos (by omega)]
  have hpos1 : 0 < offered1 := by
    show 0 < min (st.m_content_length - consumed) (e - (b + consumed))
    have : 0 < st.m_content_length - consumed := by omega
    have : 0 < e - (b + consumed) := by omega
    exact lt_min (by omega) (by omega)
  have hatt1 : st1.m_handler = some (id, (env.on_data hd (slice st.m_buffer b (b + offered))).2) := by
    rw [hst1]
  have hmin1 : min st1.m_content_length (e - (b + consumed)) = offered1 := by rw [hcl]
  refine ⟨hcl, hbeg, hend, hstate, by rw [hst1], effects_since_append _ _ _ hlog, hwm,
    hpos1, ?_, slice_take_append _ _ _ _ _ (le_of_lt hco)⟩
  obtain ⟨rest, hrest⟩ := process_data_reading_body_grows env st1 (b + consumed) e
    (by rw [hstate]; exact h1) (by rw [hstate]; exact h2)
  have hdel1 := deliver_attached env st1 (b + consumed) e id _ hatt1
    (by rw [hmin1]; omega)
  rw [hdel1] at hrest
  dsimp only at hrest
  rw [hmin1, hbuf] at hrest
  refine ⟨rest, ?_⟩
  rw [hwm]
  apply effects_since_append
  rw [hrest, List.append_assoc]
  rfl

theorem process_data_body_step (env : Env P Q R H) (s : connection P Q H) (b e id : Nat) (hd : H)
    (hstate : s.m_state = read_data) (hatt : s.m_handler = some (id, hd))
    (hsz : s.m_content_length < size_t_mod)
    (ho : min s.m_content_length (e - b) ≠ 0)
    (hk : (env.on_data hd (slice s.m_buffer b (b + min s.m_content_length (e - b)))).1
      ≤ min s.m_content_length (e - b)) :
    process_data env s b e =
      if (env.on_data hd (slice s.m_buffer b (b + min s.m_content_length (e - b)))).1
          < min s.m_content_length (e - b) then
        { s with
          m_handler := some (id,
            (env.on_data hd (slice s.m_buffer b (b + min s.m_content_length (e - b)))).2)
          log := s.log ++ [Effect.on_data id
            (slice s.m_buffer b (b + min s.m_content_length (e - b)))
            (env.on_data hd (slice s.m_buffer b (b + min s.m_content_length (e - b)))).1]
          m_content_length := s.m_content_length
            - (env.on_data hd (slice s.m_buffer b (b + min s.m_content_length (e - b)))).1
          m_unprocessed_begin :=
            b + (env.on_data hd (slice s.m_buffer b (b + min s.m_content_length (e - b)))).1
          m_unprocessed_end := e }
      else if 0 < s.m_content_length
          - (env.on_data hd (slice s.m_buffer b (b + min s.m_content_length (e - b)))).1 then
        async_read { s with
          m_handler := some (id,
            (env.on_data hd (slice s.m_buffer b (b + min s.m_content_length (e - b)))).2)
          log := s.log ++ [Effect.on_data id
            (slice s.m_buffer b (b + min s.m_content_length (e - b)))
            (env.on_data hd (slice s.m_buffer b (b + min s.m_content_length (e - b)))).1]
          m_content_length := s.m_content_length
            - (env.on_data hd (slice s.m_buffer b (b + min s.m_content_length (e - b)))).1 }
      else
        { s with
          m_handler := some (id,
            (env.on_data hd (slice s.m_buffer b (b + min s.m_content_length (e - b)))).2)
          log := s.log ++ [Effect.on_data id
            (slice s.m_buffer b (b + min s.m_content_length (e - b)))
            (env.on_data hd (slice s.m_buffer b (b + min s.m_content_length (e - b)))).1,
            Effect.on_close id 0]
          m_content_length := 0
          m_state := processing_request
          m_unprocessed_begin :=
            b + (env.on_data hd (slice s.m_buffer b (b + min s.m_content_length (e - b)))).1
          m_unprocessed_end := e } := by
  have e1 : read_data &&& bit_not read_data = processing_request := by decide
  have hol : min s.m_content_length (e - b) ≤ s.m_content_length := min_le_left _ _
  rw [process_data_reading_body _ _ _ _ (by rw [hstate]; decide) (by rw [hstate]; decide)]
  rw [deliver_attached env s b e id hd hatt ho]
  generalize hkk : (env.on_data hd (slice s.m_buffer b (b + min s.m_content_length (e - b)))).1
    = k at hk ⊢
  generalize min s.m_content_length (e - b) = o at *
  dsimp only
  rw [size_t_sub_eq _ _ hsz (le_trans hk hol)]
  by_cases h1 : k < o
  · rw [if_pos (by omega), if_pos h1]
  · have hko : k = o := by omega
    rw [if_neg (by omega), if_neg h1]
    by_cases h2 : 0 < s.m_content_length - k
    · rw [if_pos h2, if_pos h2]
    · rw [if_neg h2, if_neg h2]
      have h3 : s.m_content_length - k = 0 := by omega
      simp [finish_body, hstate, emit, e1, h3]
      intro h
      exact absurd (by decide : processing_request &&& request_processed = 0) h

theorem consumed_bytes_append (l1 l2 : List Effect) :
    consumed_bytes (l1 ++ l2) = consumed_bytes l1 ++ consumed_bytes l2 := by
  simp [consumed_bytes, List.filterMap_append]

theorem slice_take (buf : List Byte) (b e o : Nat) (h : b + o ≤ e) :
    slice buf b (b + o) = (slice buf b e).take o := by
  unfold slice
  rw [List.take_take]
  congr 1
  omega

theorem slice_drop (buf : List Byte) (b e k : Nat) :
    slice buf (b + k) e = (slice buf b e).drop k := by
  unfold slice
  rw [List.drop_take, List.drop_drop]
  congr 1
  omega

theorem body_inv_process (env : Env P Q R H)
    (hcontract : ∀ h bytes, (env.on_data h bytes).1 ≤ bytes.length)
    (L : Nat) (D : List Byte) (id : Nat) (log0 : List Effect) (s : connection P Q H) (b e : Nat)
    (hL : L < size_t_mod)
    (hatt : ∃ hd, s.m_handler = some (id, hd)) (hstate : s.m_state = read_data)
    (hread : s.m_at_read = false)
    (hcl : 0 < s.m_content_length) (hle : s.m_content_length ≤ L)
    (hDlen : L - s.m_content_length ≤ D.length)
    (heff : ∃ eff, s.log = log0 ++ eff ∧ consumed_bytes eff = D.take (L - s.m_content_length))
    (hbe : b ≤ e) (hbuf : e ≤ s.m_buffer.length)
    (hpend : slice s.m_buffer b e = D.drop (L - s.m_content_length)) :
    body_inv L D id log0 (process_data env s b e) := by
  obtain ⟨hd, hatt⟩ := hatt
  obtain ⟨eff, heff1, heff2⟩ := heff
  have hsz : s.m_content_length < size_t_mod := by omega
  have hplen : (D.drop (L - s.m_content_length)).length = e - b := by
    rw [← hpend, slice_length _ _ _ hbuf]
  rw [List.length_drop] at hplen
  by_cases ho : min s.m_content_length (e - b) = 0
  · -- nothing to offer: the range is empty
    have hbe2 : e - b = 0 := by
      rcases Nat.min_eq_zero_iff.mp ho with h | h
      · omega
      · exact h
    have hdel : deliver env s b e = (0, 0, { s with m_content_length := s.m_content_length }) := by
      have e3 : size_t_sub s.m_content_length 0 = s.m_content_length := by
        rw [size_t_sub_eq _ _ hsz (Nat.zero_le _)]; rfl
      unfold deliver
      simp [hatt, ho, e3]
    rw [process_data_reading_body _ _ _ _ (by rw [hstate]; decide) (by rw [hstate]; decide), hdel]
    simp only [ne_eq, not_true_eq_false, if_false]
    rw [if_pos (by show s.m_content_length > 0; exact hcl)]
    refine ⟨⟨hd, by simp [async_read, hread, emit, hatt]⟩, by simp [async_read, hread, emit, hle],
      by simp [async_read, hread, emit, hDlen],
      ⟨eff ++ [Effect.async_read_some], by simp [async_read, hread, emit, heff1], ?_⟩, Or.inl ?_⟩
    · rw [consumed_bytes_append, heff2]
      simp [async_read, hread, emit, consumed_bytes]
    · simp [async_read, hread, emit, hstate, hcl]
      omega
  · have hol : min s.m_content_length (e - b) ≤ s.m_content_length := min_le_left _ _
    have hor : min s.m_content_length (e - b) ≤ e - b := min_le_right _ _
    have hbl : (slice s.m_buffer b (b + min s.m_content_length (e - b))).length
        = min s.m_content_length (e - b) := by
      rw [slice_length _ _ _ (by omega)]; omega
    have hk : (env.on_data hd (slice s.m_buffer b (b + min s.m_content_length (e - b)))).1
        ≤ min s.m_content_length (e - b) := by
      have := hcontract hd (slice s.m_buffer b (b + min s.m_content_length (e - b)))
      rw [hbl] at this
      exact this
    have hbytes : ∀ k, k ≤ min s.m_content_length (e - b) →
        (slice s.m_buffer b (b + min s.m_content_length (e - b))).take k
          = (D.drop (L - s.m_content_length)).take k := by
      intro k hk1
      rw [slice_take _ _ e _ (by omega), hpend, List.take_take, min_eq_left hk1]
    rw [process_data_body_step env s b e id hd hstate hatt hsz ho hk]
    generalize hkk : (env.on_data hd (slice s.m_buffer b (b + min s.m_content_length (e - b)))).1
      = k at hk ⊢
    generalize hhd : (env.on_data hd (slice s.m_buffer b (b + min s.m_content_length (e - b)))).2
      = hd1
    generalize hbb : slice s.m_buffer b (b + min s.m_content_length (e - b)) = bytes at hbytes ⊢
    generalize hoo : min s.m_content_length (e - b) = o at *
    have hcons : consumed_bytes (eff ++ [Effect.on_data id bytes k])
        = D.take (L - (s.m_content_length - k)) := by
      rw [consumed_bytes_append, heff2]
      have : consumed_bytes [Effect.on_data id bytes k] = bytes.take k := by
        simp [consumed_bytes]
      rw [this, hbytes k hk, ← List.take_add]
      congr 1
      omega
    by_cases h1 : k < o
    · rw [if_pos h1]
      refine ⟨⟨hd1, rfl⟩, by show s.m_content_length - k ≤ L; omega,
        by show L - (s.m_content_length - k) ≤ D.length; omega,
        ⟨eff ++ [Effect.on_data id bytes k], by simp [heff1], hcons⟩, Or.inr (Or.inl ?_)⟩
      refine ⟨hstate, hread, by show 0 < s.m_content_length - k; omega,
        by show b + k < e; omega, hbuf, ?_⟩
      show slice s.m_buffer (b + k) e = D.drop (L - (s.m_content_length - k))
      rw [slice_drop, hpend, List.drop_drop]
      congr 1
      omega
    · rw [if_neg h1]
      have hko : k = o := by omega
      by_cases h2 : 0 < s.m_content_length - k
      · rw [if_pos h2]
        have hoe : o = e - b := by
          rcases Nat.le_total s.m_content_length (e - b) with h | h
          · rw [min_eq_left h] at hoo; omega
          · rw [min_eq_right h] at hoo; omega
        refine ⟨⟨hd1, by simp [async_read, hread, emit]⟩,
          by simp [async_read, hread, emit]; omega,
          by simp [async_read, hread, emit]; omega,
          ⟨eff ++ [Effect.on_data id bytes k] ++ [Effect.async_read_some],
            by simp [async_read, hread, emit, heff1], ?_⟩, Or.inl ?_⟩
        · rw [consumed_bytes_append, hcons]
          simp [async_read, hread, emit, consumed_bytes]
        · simp [async_read, hread, emit, hstate]
          omega
      · rw [if_neg h2]
        have hkc : k = s.m_content_length := by omega
        refine ⟨⟨hd1, rfl⟩, Nat.zero_le _, by show L - 0 ≤ D.length; omega,
          ⟨eff ++ [Effect.on_data id bytes k] ++ [Effect.on_close id 0], by simp [heff1], ?_⟩,
          Or.inr (Or.inr ⟨rfl, hread, rfl⟩)⟩
        rw [consumed_bytes_append, hcons]
        have : consumed_bytes [Effect.on_close id 0] = [] := by simp [consumed_bytes]
        rw [this, List.append_nil]
        show D.take (L - (s.m_content_length - k)) = D.take (L - 0)
        congr 1
        omega

theorem body_inv_read (env : Env P Q R H)
    (hcontract : ∀ h bytes, (env.on_data h bytes).1 ≤ bytes.length)
    (L : Nat) (D : List Byte) (id : Nat) (log0 : List Effect) (st : connection P Q H)
    (c : List Byte) (hL : L < size_t_mod)
    (hinv : body_inv L D id log0 st) (hread : st.m_at_read = true) :
    body_inv L (D ++ c) id log0 (handle_read env st 0 c) := by
  obtain ⟨hatt, hle, hDlen, ⟨eff, heff1, heff2⟩, hcase⟩ := hinv
  have h1 : st.m_state = read_data ∧ 0 < st.m_content_length
      ∧ D.length = L - st.m_content_length := by
    rcases hcase with ⟨a, _, b, c⟩ | ⟨_, a, _⟩ | ⟨_, a, _⟩
    · exact ⟨a, b, c⟩
    · rw [a] at hread; cases hread
    · rw [a] at hread; cases hread
  obtain ⟨hstate, hcl, hlen⟩ := h1
  unfold handle_read
  rw [if_neg (by simp)]
  refine body_inv_process env hcontract L (D ++ c) id log0 (read_done st c) 0 c.length hL
    hatt hstate rfl hcl hle ?_ ⟨eff, heff1, ?_⟩ (Nat.zero_le _) ?_ ?_
  · show L - st.m_content_length ≤ (D ++ c).length
    rw [List.length_append]; omega
  · show consumed_bytes eff = (D ++ c).take (L - st.m_content_length)
    rw [heff2, ← hlen, List.take_length, List.take_left]
  · show c.length ≤ (c ++ st.m_buffer.drop c.length).length
    simp
  · have := slice_read_done st c c.length (le_refl _)
    rw [List.take_length] at this
    rw [this]
    show c = (D ++ c).drop (L - st.m_content_length)
    rw [← hlen, List.drop_left]

theorem body_inv_resume (env : Env P Q R H)
    (hcontract : ∀ h bytes, (env.on_data h bytes).1 ≤ bytes.length)
    (L : Nat) (D : List Byte) (id : Nat) (log0 : List Effect) (st : connection P Q H)
    (hL : L < size_t_mod)
    (hinv : body_inv L D id log0 st) (hread : st.m_at_read = false)
    (hstate : st.m_state = read_data) :
    body_inv L D id log0 (want_more_impl env st) := by
  obtain ⟨hatt, hle, hDlen, heff, hcase⟩ := hinv
  have h1 : 0 < st.m_content_length ∧ st.m_unprocessed_begin < st.m_unprocessed_end
      ∧ st.m_unprocessed_end ≤ st.m_buffer.length
      ∧ slice st.m_buffer st.m_unprocessed_begin st.m_unprocessed_end
          = D.drop (L - st.m_content_length) := by
    rcases hcase with ⟨_, a, _⟩ | ⟨_, _, a, b, c, d⟩ | ⟨a, _⟩
    · rw [a] at hread; cases hread
    · exact ⟨a, b, c, d⟩
    · rw [a] at hstate; exact absurd hstate (by decide)
  obtain ⟨hcl, hlt, hbuf, hpend⟩ := h1
  unfold want_more_impl
  rw [if_pos (Nat.ne_of_lt hlt)]
  exact body_inv_process env hcontract L D id log0 st _ _ hL hatt hstate hread hcl hle hDlen
    heff (le_of_lt hlt) hbuf hpend

theorem body_inv_run (env : Env P Q R H)
    (hcontract : ∀ h bytes, (env.on_data h bytes).1 ≤ bytes.length)
    (L : Nat) (id : Nat) (log0 : List Effect) (hL : L < size_t_mod) :
    ∀ (script : List body_step) (st : connection P Q H) (D : List Byte),
      body_inv L D id log0 st → body_steps_ok env st script →
      body_inv L (D ++ bytes_read script) id log0 (body_run env st script) := by
  intro script
  induction script with
  | nil => intro st D hinv _; simpa [bytes_read, body_run] using hinv
  | cons x rest ih =>
    intro st D hinv hok
    cases x with
    | read c =>
      obtain ⟨h1, h2⟩ := hok
      have := ih _ _ (body_inv_read env hcontract L D id log0 st c hL hinv h1) h2
      simpa [bytes_read, body_run, List.append_assoc] using this
    | resume =>
      obtain ⟨⟨h1, h2⟩, h3⟩ := hok
      have := ih _ _ (body_inv_resume env hcontract L D id log0 st hL hinv h1 h2) h3
      simpa [bytes_read, body_run] using this

/-- Across a whole body the handler consumes the body bytes in order, each
once: the connection is reading a body of `L = m_content_length > 0` bytes for
an attached handler and a read is outstanding; then reads complete and the
handler resumes after holding back, in any possible order, with `on_data`
returning any count up to what it was offered.  At every point the bytes
consumed so far are the first `L - m_content_length` of the bytes read, and
when the body is complete they are exactly the first `L`. -/
theorem body_consumed_in_order (env : Env P Q R H) (st : connection P Q H) (id : Nat) (hd : H)
    (script : List body_step)
    (hcontract : ∀ h bytes, (env.on_data h bytes).1 ≤ bytes.length)
    (hstate : st.m_state = read_data) (hatt : st.m_handler = some (id, hd))
    (hpos : 0 < st.m_content_length) (hsz : st.m_content_length < size_t_mod)
    (hread : st.m_at_read = true) (hok : body_steps_ok env st script) :
    consumed_bytes (effects_since st (body_run env st script))
        = (bytes_read script).take
            (st.m_content_length - (body_run env st script).m_content_length)
    ∧ (body_run env st script).m_content_length ≤ st.m_content_length
    ∧ ((body_run env st script).m_state = processing_request →
        (body_run env st script).m_content_length = 0
        ∧ consumed_bytes (effects_since st (body_run env st script))
            = (bytes_read script).take st.m_content_length) := by
  have h0 : body_inv st.m_content_length [] id st.log st :=
    ⟨⟨hd, hatt⟩, le_refl _, by simp, ⟨[], by simp, by simp [consumed_bytes]⟩,
      Or.inl ⟨hstate, hread, hpos, by simp⟩⟩
  have h := body_inv_run env hcontract st.m_content_length id st.log hsz script st [] h0 hok
  rw [List.nil_append] at h
  obtain ⟨_, hle, _, ⟨eff, heff1, heff2⟩, hcase⟩ := h
  have he := effects_since_append st _ _ heff1
  rw [he, heff2]
  refine ⟨rfl, hle, fun hdone => ?_⟩
  have hz : (body_run env st script).m_content_length = 0 := by
    rcases hcase with ⟨a, _⟩ | ⟨a, _⟩ | ⟨_, _, a⟩
    · rw [a] at hdone; exact absurd hdone (by decide)
    · rw [a] at hdone; exact absurd hdone (by decide)
    · exact a
  exact ⟨hz, by rw [hz]; rfl⟩

/-- Backpressure, as far as it holds.  A body-reading step
`process_data(begin, end)` in which `on_data` returns `consumed < offered` (offered = min(body_remaining, end - begin))
decreases `m_content_length` by `consumed`, stores `[begin + consumed, end)` as
the unprocessed range, keeps the state word and `m_at_read`, and adds exactly
one effect, the `on_data` call (no read, no further `on_data`).  The next
`want_more_impl` re-enters `process_data` on `[begin + consumed, end)` and the
first thing it does is call `on_data` with the bytes that start at
`begin + consumed`.  And across a whole body, with reads completing and the
handler resuming only while it holds back (`body_steps_ok`), the bytes
consumed by the handler are the first bytes of the stream, in order, each
once: the first `L - m_content_length` of them at every point and the first
`L` when the body is complete. -/
theorem backpressure_then_resume (env : Env P Q R H) (st : connection P Q H)
    (b e id : Nat) (hd : H)
    (h1 : st.m_state &&& read_headers = 0) (h2 : st.m_state &&& read_data ≠ 0)
    (hatt : st.m_handler = some (id, hd))
    (hsz : st.m_content_length < size_t_mod)
    (hback : (env.on_data hd (slice st.m_buffer b (b + min st.m_content_length (e - b)))).1
      < min st.m_content_length (e - b)) :
    (
    let offered := min st.m_content_length (e - b)
    let consumed := (env.on_data hd (slice st.m_buffer b (b + offered))).1
    let st1 := process_data env st b e
    let offered1 := min (st.m_content_length - consumed) (e - (b + consumed))
    st1.m_content_length = st.m_content_length - consumed
    ∧ st1.m_unprocessed_begin = b + consumed
    ∧ st1.m_unprocessed_end = e
    ∧ st1.m_state = st.m_state
    ∧ st1.m_at_read = st.m_at_read
    ∧ effects_since st st1 = [Effect.on_data id (slice st.m_buffer b (b + offered)) consumed]
    ∧ want_more_impl env st1 = process_data env st1 (b + consumed) e
    ∧ 0 < offered1
    ∧ (∃ rest, effects_since st1 (want_more_impl env st1)
        = Effect.on_data id (slice st.m_buffer (b + consumed) (b + consumed + offered1))
            (env.on_data (env.on_data hd (slice st.m_buffer b (b + offered))).2
              (slice st.m_buffer (b + consumed) (b + consumed + offered1))).1 :: rest)
    ∧ (slice st.m_buffer b (b + offered)).take consumed
        ++ slice st.m_buffer (b + consumed) (b + consumed + offered1)
        = slice st.m_buffer b (b + consumed + offered1))
    ∧ (∀ (s : connection P Q H) (i : Nat) (hd0 : H) (script : List body_step),
        (∀ h bytes, (env.on_data h bytes).1 ≤ bytes.length) →
        s.m_state = read_data → s.m_handler = some (i, hd0) →
        0 < s.m_content_length → s.m_content_length < size_t_mod →
        s.m_at_read = true → body_steps_ok env s script →
        consumed_bytes (effects_since s (body_run env s script))
            = (bytes_read script).take
                (s.m_content_length - (body_run env s script).m_content_length)
        ∧ (body_run env s script).m_content_length ≤ s.m_content_length
        ∧ ((body_run env s script).m_state = processing_request →
            (body_run env s script).m_content_length = 0
            ∧ consumed_bytes (effects_since s (body_run env s script))
                = (bytes_read script).take s.m_content_length)) :=
  ⟨backpressure_step env st b e id hd h1 h2 hatt hsz hback,
    fun s i hd0 script hc hs ha hp hz hr hok =>
      body_consumed_in_order env s i hd0 script hc hs ha hp hz hr hok⟩

/-- Scenario D: body of 10 bytes, first read of 4 bytes, the handler
consumes 2, resumes, and the rest arrives in a second read. -/
theorem backpressure_then_resume_scenario_D :
    (scenario_D.m_state = read_data ∧ scenario_D.m_content_length = 10
      ∧ scenario_D.m_handler = some (0, [2]))
    ∧ ((process_data (demo_env [2]) scenario_D 0 4).m_content_length = 10 - 2
      ∧ (process_data (demo_env [2]) scenario_D 0 4).m_unprocessed_begin = 0 + 2
      ∧ (process_data (demo_env [2]) scenario_D 0 4).m_unprocessed_end = 4
      ∧ (process_data (demo_env [2]) scenario_D 0 4).m_state = read_data
      ∧ (process_data (demo_env [2]) scenario_D 0 4).m_at_read = false
      ∧ effects_since scenario_D (process_data (demo_env [2]) scenario_D 0 4)
          = [Effect.on_data 0 [1, 2, 3, 4] 2]
      ∧ want_more_impl (demo_env [2]) (process_data (demo_env [2]) scenario_D 0 4)
          = process_data (demo_env [2]) (process_data (demo_env [2]) scenario_D 0 4) 2 4
      ∧ 0 < 2
      ∧ (∃ rest, effects_since (process_data (demo_env [2]) scenario_D 0 4)
            (want_more_impl (demo_env [2]) (process_data (demo_env [2]) scenario_D 0 4))
          = Effect.on_data 0 [3, 4] 2 :: rest)
      ∧ [1, 2] ++ [3, 4] = [1, 2, 3, 4])
    ∧ (effects_since (handle_read (demo_env [2]) (started [2] 64) 0 post_root_request)
          (body_run (demo_env [2])
            (handle_read (demo_env [2]) (started [2] 64) 0 post_root_request)
            [body_step.read [1, 2, 3, 4], body_step.resume,
             body_step.read [5, 6, 7, 8, 9, 10]])
        = [Effect.on_data 0 [1, 2, 3, 4] 2, Effect.on_data 0 [3, 4] 2, Effect.async_read_some,
           Effect.on_data 0 [5, 6, 7, 8, 9, 10] 6, Effect.on_close 0 0]
      ∧ consumed_bytes (effects_since
          (handle_read (demo_env [2]) (started [2] 64) 0 post_root_request)
          (body_run (demo_env [2])
            (handle_read (demo_env [2]) (started [2] 64) 0 post_root_request)
            [body_step.read [1, 2, 3, 4], body_step.resume,
             body_step.read [5, 6, 7, 8, 9, 10]]))
        = [1, 2, 3, 4, 5, 6, 7, 8, 9, 10]) :=
  ⟨by decide,
    (backpressure_then_resume (demo_env [2]) scenario_D 0 4 0 [2]
      (by decide) (by decide) (by decide) (by decide) (by decide)).1,
    by decide,
    (((backpressure_then_resume (demo_env [2]) scenario_D 0 4 0 [2]
      (by decide) (by decide) (by decide) (by decide) (by decide)).2
      (handle_read (demo_env [2]) (started [2] 64) 0 post_root_request) 0 [2]
      [body_step.read [1, 2, 3, 4], body_step.resume, body_step.read [5, 6, 7, 8, 9, 10]]
      (fun _ _ => Nat.min_le_right _ _) (by decide) (by decide) (by decide) (by decide)
      (by decide) ⟨by decide, ⟨by decide, by decide⟩, by decide, trivial⟩).2.2
      (by decide)).2⟩

/-! ### A completed read while headers are being read -/

theorem parse_headers_read_done (env : Env P Q R H) (st : connection P Q H) (data : List Byte) :
    parse_headers env (read_done st data) 0 data.length =
      ((env.parse st.m_request_parser_state st.m_request data).1,
       (env.parse st.m_request_parser_state st.m_request data).2.1,
       after_parse env st data) := by
  have hsl := slice_read_done st data data.length (le_refl _)
  rw [List.take_length] at hsl
  unfold parse_headers
  rw [hsl]
  rfl

theorem handle_read_incomplete (env : Env P Q R H) (st : connection P Q H) (data : List Byte)
    (hstate : st.m_state = read_headers)
    (hinc : (env.parse st.m_request_parser_state st.m_request data).1
      = tribool.indeterminate_value) :
    handle_read env st 0 data =
      { after_parse env st data with
        m_at_read := true
        log := st.log ++ [Effect.parse data, Effect.async_read_some] } := by
  unfold handle_read
  rw [if_neg (by simp),
    process_data_reading_headers _ _ _ _ (by show st.m_state &&& _ ≠ 0; rw [hstate]; decide),
    parse_headers_read_done, hinc]
  simp [async_read, emit, read_done, after_parse]

theorem handle_read_found (env : Env P Q R H) (st : connection P Q H) (data : List Byte) (h : H)
    (hstate : st.m_state = read_headers)
    (hdone : (env.parse st.m_request_parser_state st.m_request data).1 = tribool.true_value)
    (hfac : env.get_factory (env.parse st.m_request_parser_state st.m_request data).2.2.2
      = some h) :
    handle_read env st 0 data =
      process_data env (attach_handler env (after_parse env st data) h)
        (0 + (env.parse st.m_request_parser_state st.m_request data).2.1) data.length := by
  have hfac1 : env.get_factory (after_parse env st data).m_request = some h := hfac
  unfold handle_read
  rw [if_neg (by simp),
    process_data_reading_headers _ _ _ _ (by show st.m_state &&& _ ≠ 0; rw [hstate]; decide),
    parse_headers_read_done, hdone]
  simp only [hfac1]

/-! ### C5: a body delivered in several reads -/

theorem body_piece (env : Env P Q R H)
    (hall : ∀ h bytes, (env.on_data h bytes).1 = bytes.length)
    (s : connection P Q H) (b e id : Nat) (hd : H)
    (hstate : s.m_state = read_data) (hatt : s.m_handler = some (id, hd))
    (hcl : 0 < s.m_content_length) (hsz : s.m_content_length < size_t_mod)
    (hread : s.m_at_read = false) (hbe : b ≤ e) (hbuf : e ≤ s.m_buffer.length) :
    (process_data env s b e).log
        = s.log ++
          ((if min s.m_content_length (e - b) = 0 then []
            else [Effect.on_data id ((slice s.m_buffer b e).take (min s.m_content_length (e - b)))
              (min s.m_content_length (e - b))])
          ++ (if s.m_content_length - min s.m_content_length (e - b) > 0 then
              [Effect.async_read_some] else [Effect.on_close id 0]))
    ∧ (∃ hd1, (process_data env s b e).m_handler = some (id, hd1))
    ∧ (process_data env s b e).m_content_length
        = s.m_content_length - min s.m_content_length (e - b)
    ∧ (s.m_content_length - min s.m_content_length (e - b) > 0 →
        (process_data env s b e).m_state = read_data
        ∧ (process_data env s b e).m_at_read = true)
    ∧ (¬ s.m_content_length - min s.m_content_length (e - b) > 0 →
        (process_data env s b e).m_state = processing_request
        ∧ (process_data env s b e).m_at_read = false) := by
  by_cases ho : min s.m_content_length (e - b) = 0
  · have hdel : deliver env s b e = (0, 0, { s with m_content_length := s.m_content_length }) := by
      have e3 : size_t_sub s.m_content_length 0 = s.m_content_length := by
        rw [size_t_sub_eq _ _ hsz (Nat.zero_le _)]; rfl
      unfold deliver
      simp [hatt, ho, e3]
    rw [process_data_reading_body _ _ _ _ (by rw [hstate]; decide) (by rw [hstate]; decide), hdel]
    simp only [ne_eq, not_true_eq_false, if_false]
    rw [if_pos (by show s.m_content_length > 0; exact hcl), ho]
    simp [async_read, hread, emit, hatt, hstate, hcl]
  · have hol : min s.m_content_length (e - b) ≤ s.m_content_length := min_le_left _ _
    have hor : min s.m_content_length (e - b) ≤ e - b := min_le_right _ _
    have hbl : (slice s.m_buffer b (b + min s.m_content_length (e - b))).length
        = min s.m_content_length (e - b) := by
      rw [slice_length _ _ _ (by omega)]; omega
    have hk : (env.on_data hd (slice s.m_buffer b (b + min s.m_content_length (e - b)))).1
        = min s.m_content_length (e - b) := by rw [hall, hbl]
    rw [process_data_body_step env s b e id hd hstate hatt hsz ho (le_of_eq hk), hk,
      if_neg (lt_irrefl _), slice_take _ _ e _ (by omega), if_neg ho]
    by_cases h2 : 0 < s.m_content_length - min s.m_content_length (e - b)
    · rw [if_pos h2, if_pos h2]
      simp [async_read, hread, emit, hstate, h2]
    · rw [if_neg h2, if_neg h2]
      have h3 : s.m_content_length - min s.m_content_length (e - b) = 0 := by omega
      simp [h3, hread]

theorem deliver_reads_request_read (env : Env P Q R H) :
    ∀ (cs : List (List Byte)) (st : connection P Q H),
      st.m_state = processing_request → st.m_at_read = false →
      (deliver_reads env st cs).log = st.log
      ∧ (deliver_reads env st cs).m_state = processing_request
      ∧ (deliver_reads env st cs).m_content_length = st.m_content_length
      ∧ (deliver_reads env st cs).m_at_read = false := by
  intro cs
  induction cs with
  | nil => intro st h1 h2; exact ⟨rfl, h1, rfl, h2⟩
  | cons c cs ih =>
    intro st h1 h2
    have hstep : handle_read env st 0 c = read_done st c := by
      unfold handle_read
      rw [if_neg (by simp)]
      exact process_data_request_read env _ _ _ (by show st.m_state &&& _ = 0; rw [h1]; decide)
        (by show st.m_state &&& _ = 0; rw [h1]; decide)
    simp only [deliver_reads, hstep]
    exact ih (read_done st c) h1 rfl

theorem offered_bytes_body_effects (id : Nat) :
    ∀ (chunks : List (List Byte)) (remaining : Nat),
      offered_bytes (body_effects id remaining chunks) = (chunks.flatten).take remaining := by
  intro chunks
  induction chunks with
  | nil => intro remaining; simp [body_effects, offered_bytes]
  | cons c cs ih =>
    intro remaining
    have ih1 := ih (remaining - min remaining c.length)
    simp only [offered_bytes] at ih1 ⊢
    simp only [body_effects, List.filterMap_append, List.flatten_append, List.flatten_cons]
    have hhead : (List.filterMap (fun x =>
        match x with
        | Effect.on_data _ bytes _ => some bytes
        | _ => none)
        (if min remaining c.length = 0 then []
          else [Effect.on_data id (c.take (min remaining c.length))
            (min remaining c.length)])).flatten = c.take (min remaining c.length) := by
      by_cases h0 : min remaining c.length = 0
      · rw [if_pos h0, h0]; simp
      · rw [if_neg h0]; simp
    rw [hhead]
    by_cases h : remaining - min remaining c.length > 0
    · have hlt : c.length < remaining := by omega
      rw [if_pos h]
      simp only [List.filterMap_cons, List.flatten_cons]
      rw [ih1, min_eq_right (le_of_lt hlt), List.take_length, List.take_append_eq_append_take,
        List.take_of_length_le (le_of_lt hlt)]
    · have hle : remaining ≤ c.length := by omega
      rw [if_neg h, min_eq_left hle]
      simp [List.take_append_of_le_length hle]

theorem closes_body_effects (id : Nat) :
    ∀ (chunks : List (List Byte)) (remaining : Nat), 0 < remaining →
      (remaining ≤ (chunks.flatten).length →
        ∃ front, body_effects id remaining chunks = front ++ [Effect.on_close id 0]
          ∧ closes id front = [])
      ∧ ((chunks.flatten).length < remaining →
        closes id (body_effects id remaining chunks) = []) := by
  intro chunks
  induction chunks with
  | nil =>
    intro remaining hpos
    refine ⟨fun h => ?_, fun _ => by simp [body_effects, closes]⟩
    simp at h; omega
  | cons c cs ih =>
    intro remaining hpos
    simp only [body_effects, List.flatten_cons, List.length_append]
    have hhead : closes id (if min remaining c.length = 0 then []
        else [Effect.on_data id (c.take (min remaining c.length))
          (min remaining c.length)]) = [] := by
      split_ifs <;> simp [closes]
    by_cases h : remaining - min remaining c.length > 0
    · have hlt : c.length < remaining := by omega
      have ih1 := ih (remaining - min remaining c.length) h
      rw [if_pos h]
      refine ⟨fun hle => ?_, fun hl => ?_⟩
      · obtain ⟨front, e1, e2⟩ := ih1.1 (by rw [min_eq_right (le_of_lt hlt)]; omega)
        refine ⟨(if min remaining c.length = 0 then []
          else [Effect.on_data id (c.take (min remaining c.length))
            (min remaining c.length)]) ++ Effect.async_read_some :: front, ?_, ?_⟩
        · rw [e1]; simp
        · have : closes id (Effect.async_read_some :: front) = closes id front := by
            simp [closes]
          rw [closes_append, hhead, this, e2]
          rfl
      · have e1 := ih1.2 (by rw [min_eq_right (le_of_lt hlt)]; omega)
        have : closes id (Effect.async_read_some ::
            body_effects id (remaining - min remaining c.length) cs)
            = closes id (body_effects id (remaining - min remaining c.length) cs) := by
          simp [closes]
        rw [closes_append, hhead, this, e1]
        rfl
    · have hle : remaining ≤ c.length := by omega
      rw [if_neg h]
      refine ⟨fun _ => ⟨_, rfl, hhead⟩, fun hl => by omega⟩

theorem deliver_reads_piece (env : Env P Q R H)
    (hall : ∀ h bytes, (env.on_data h bytes).1 = bytes.length) (id : Nat) :
    ∀ (cs : List (List Byte)) (s : connection P Q H) (b e : Nat) (hd : H),
      s.m_state = read_data → s.m_handler = some (id, hd) →
      0 < s.m_content_length → s.m_content_length < size_t_mod →
      s.m_at_read = false → b ≤ e → e ≤ s.m_buffer.length →
      (deliver_reads env (process_data env s b e) cs).log
          = s.log ++ body_effects id s.m_content_length (slice s.m_buffer b e :: cs)
      ∧ (s.m_content_length ≤ (e - b) + (cs.flatten).length →
          (deliver_reads env (process_data env s b e) cs).m_state = processing_request
          ∧ (deliver_reads env (process_data env s b e) cs).m_content_length = 0
          ∧ (deliver_reads env (process_data env s b e) cs).m_at_read = false)
      ∧ ((e - b) + (cs.flatten).length < s.m_content_length →
          (deliver_reads env (process_data env s b e) cs).m_state = read_data
          ∧ (deliver_reads env (process_data env s b e) cs).m_content_length
              = s.m_content_length - ((e - b) + (cs.flatten).length)
          ∧ (deliver_reads env (process_data env s b e) cs).m_at_read = true) := by
  intro cs
  induction cs with
  | nil =>
    intro s b e hd hstate hatt hcl hsz hread hbe hbuf
    obtain ⟨p1, _, p3, p4, p5⟩ := body_piece env hall s b e id hd hstate hatt hcl hsz hread hbe hbuf
    have hlen := slice_length s.m_buffer b e hbuf
    simp only [deliver_reads, body_effects, hlen, List.flatten_nil, List.length_nil,
      Nat.add_zero]
    refine ⟨?_, fun h => ?_, fun h => ?_⟩
    · rw [p1]
    · have h2 : ¬ s.m_content_length - min s.m_content_length (e - b) > 0 := by
        rw [min_eq_left h]; omega
      exact ⟨(p5 h2).1, by rw [p3]; omega, (p5 h2).2⟩
    · have h2 : s.m_content_length - min s.m_content_length (e - b) > 0 := by
        rw [min_eq_right (le_of_lt h)]; omega
      exact ⟨(p4 h2).1, by rw [p3, min_eq_right (le_of_lt h)], (p4 h2).2⟩
  | cons c cs ih =>
    intro s b e hd hstate hatt hcl hsz hread hbe hbuf
    obtain ⟨p1, ⟨hd1, p2⟩, p3, p4, p5⟩ :=
      body_piece env hall s b e id hd hstate hatt hcl hsz hread hbe hbuf
    have hlen := slice_length s.m_buffer b e hbuf
    simp only [deliver_reads, List.flatten_cons, List.length_append]
    rw [body_effects, hlen]
    by_cases h2 : s.m_content_length - min s.m_content_length (e - b) > 0
    · have hlt : e - b < s.m_content_length := by
        rcases Nat.le_total s.m_content_length (e - b) with h | h
        · rw [min_eq_left h] at h2; omega
        · rw [min_eq_right h] at h2; omega
      have hmin : min s.m_content_length (e - b) = e - b := min_eq_right (le_of_lt hlt)
      obtain ⟨q1, q2⟩ := p4 h2
      have hrd : handle_read env (process_data env s b e) 0 c
          = process_data env (read_done (process_data env s b e) c) 0 c.length := by
        unfold handle_read
        rw [if_neg (by simp)]
      have hsl := slice_read_done (process_data env s b e) c c.length (le_refl _)
      rw [List.take_length] at hsl
      obtain ⟨i1, i2, i3⟩ := ih (read_done (process_data env s b e) c) 0 c.length hd1
        q1 p2 (by show 0 < (process_data env s b e).m_content_length; rw [p3]; exact h2)
        (by show (process_data env s b e).m_content_length < size_t_mod; rw [p3]; omega)
        rfl (Nat.zero_le _)
        (by show c.length ≤ (c ++ (process_data env s b e).m_buffer.drop c.length).length; simp)
      have hcl1 : (read_done (process_data env s b e) c).m_content_length
          = s.m_content_length - (e - b) := by
        show (process_data env s b e).m_content_length = _
        rw [p3, hmin]
      rw [hsl, hcl1] at i1
      rw [hcl1] at i2 i3
      have h2' : s.m_content_length - (e - b) > 0 := by rw [hmin] at h2; exact h2
      rw [hrd]
      rw [if_pos h2, hmin]
      rw [hmin, if_pos h2'] at p1
      refine ⟨?_, fun h => i2 (by simp at h ⊢; omega), fun h => ?_⟩
      · rw [i1]
        show (process_data env s b e).log ++ _ = _
        rw [p1]
        simp
      · obtain ⟨j1, j2, j3⟩ := i3 (by simp at h ⊢; omega)
        refine ⟨j1, ?_, j3⟩
        rw [j2]; simp; omega
    · have hle : s.m_content_length ≤ e - b := by
        rcases Nat.le_total s.m_content_length (e - b) with h | h
        · exact h
        · rw [min_eq_right h] at h2; omega
      obtain ⟨q1, q2⟩ := p5 h2
      obtain ⟨i1, i2, i3, i4⟩ :=
        deliver_reads_request_read env cs (handle_read env (process_data env s b e) 0 c)
          (by
            have := deliver_reads_request_read env [c] (process_data env s b e) q1 q2
            exact this.2.1)
          (by
            have := deliver_reads_request_read env [c] (process_data env s b e) q1 q2
            exact this.2.2.2)
      have k1 := deliver_reads_request_read env [c] (process_data env s b e) q1 q2
      simp only [deliver_reads] at k1
      rw [if_neg h2]
      refine ⟨?_, fun _ => ⟨i2, ?_, i4⟩, fun h => by omega⟩
      · rw [i1, k1.1, p1, if_neg h2]
      · rw [i3, k1.2.2.1, p3]; omega

theorem deliver_reads_after_header (env : Env P Q R H)
    (hall : ∀ h bytes, (env.on_data h bytes).1 = bytes.length)
    (st : connection P Q H) (id : Nat) (hd : H) (chunks : List (List Byte))
    (hstate : st.m_state = read_data) (hatt : st.m_handler = some (id, hd))
    (hpos : 0 < st.m_content_length) (hsz : st.m_content_length < size_t_mod)
    (hread : st.m_at_read = true) :
    (deliver_reads env st chunks).log = st.log ++ body_effects id st.m_content_length chunks
    ∧ (st.m_content_length ≤ (chunks.flatten).length →
        (deliver_reads env st chunks).m_state = processing_request
        ∧ (deliver_reads env st chunks).m_content_length = 0
        ∧ (deliver_reads env st chunks).m_at_read = false)
    ∧ ((chunks.flatten).length < st.m_content_length →
        (deliver_reads env st chunks).m_state = read_data
        ∧ (deliver_reads env st chunks).m_content_length
            = st.m_content_length - (chunks.flatten).length
        ∧ (deliver_reads env st chunks).m_at_read = true) := by
  cases chunks with
  | nil =>
    refine ⟨by simp [deliver_reads, body_effects], fun h => ?_,
      fun _ => ⟨hstate, by simp [deliver_reads], hread⟩⟩
    simp at h; omega
  | cons c cs =>
    have hrd : handle_read env st 0 c = process_data env (read_done st c) 0 c.length := by
      unfold handle_read
      rw [if_neg (by simp)]
    have hsl := slice_read_done st c c.length (le_refl _)
    rw [List.take_length] at hsl
    have h := deliver_reads_piece env hall id cs (read_done st c) 0 c.length hd hstate hatt hpos
      hsz rfl (Nat.zero_le _)
      (by show c.length ≤ (c ++ st.m_buffer.drop c.length).length; simp)
    rw [hsl] at h
    simp only [deliver_reads, hrd, List.flatten_cons, List.length_append]
    exact h

/-- C5: with handlers that consume everything they are offered, a body of
`L > 0` bytes that arrives in several reads is delivered as follows.  When the
connection is reading the body (`L = m_content_length`) and a read is
outstanding, the read completions add to the log, per chunk that carries
bytes, one `on_data` offering min(body_remaining, chunk length) bytes, followed
by a new read while bytes remain and by `on_close` with success when none
remain; nothing is added for chunks after that.  The bytes offered are the
first `L` bytes of the stream; if the chunks hold at least `L` bytes,
`on_close` is the last effect and the only `on_close` of the handler.  The
same holds when the body starts in the read that completes the header: the
effects are the parser call, the creation of the handler and `on_headers`,
followed by the delivery of the bytes after the header boundary. -/
theorem C5_body_delivered_in_reads (env : Env P Q R H)
    (hall : ∀ h bytes, (env.on_data h bytes).1 = bytes.length) :
    (∀ (st : connection P Q H) (id : Nat) (hd : H) (chunks : List (List Byte)),
      st.m_state = read_data → st.m_handler = some (id, hd) →
      0 < st.m_content_length → st.m_content_length < size_t_mod → st.m_at_read = true →
      effects_since st (deliver_reads env st chunks)
          = body_effects id st.m_content_length chunks
      ∧ offered_bytes (effects_since st (deliver_reads env st chunks))
          = (chunks.flatten).take st.m_content_length
      ∧ (st.m_content_length ≤ (chunks.flatten).length →
          (∃ front, effects_since st (deliver_reads env st chunks)
              = front ++ [Effect.on_close id 0] ∧ closes id front = [])
          ∧ (deliver_reads env st chunks).m_state = processing_request
          ∧ (deliver_reads env st chunks).m_content_length = 0
          ∧ (deliver_reads env st chunks).m_at_read = false)
      ∧ ((chunks.flatten).length < st.m_content_length →
          closes id (effects_since st (deliver_reads env st chunks)) = []
          ∧ (deliver_reads env st chunks).m_state = read_data
          ∧ (deliver_reads env st chunks).m_content_length
              = st.m_content_length - (chunks.flatten).length
          ∧ (deliver_reads env st chunks).m_at_read = true))
    ∧ (∀ (st : connection P Q H) (c0 : List Byte) (chunks : List (List Byte)) (h : H) (L : Nat),
      st.m_state = read_headers →
      (env.parse st.m_request_parser_state st.m_request c0).1 = tribool.true_value →
      (env.parse st.m_request_parser_state st.m_request c0).2.1 ≤ c0.length →
      env.get_factory (env.parse st.m_request_parser_state st.m_request c0).2.2.2 = some h →
      env.content_length (env.parse st.m_request_parser_state st.m_request c0).2.2.2 = some L →
      0 < L → L < size_t_mod →
      effects_since st (deliver_reads env st (c0 :: chunks))
          = Effect.parse c0 :: Effect.create st.handlers_created
            :: Effect.on_headers st.handlers_created
            :: body_effects st.handlers_created L
                (c0.drop (env.parse st.m_request_parser_state st.m_request c0).2.1 :: chunks)
      ∧ offered_bytes (effects_since st (deliver_reads env st (c0 :: chunks)))
          = (c0.drop (env.parse st.m_request_parser_state st.m_request c0).2.1
              ++ chunks.flatten).take L
      ∧ (L ≤ (c0.drop (env.parse st.m_request_parser_state st.m_request c0).2.1
            ++ chunks.flatten).length →
          (∃ front, effects_since st (deliver_reads env st (c0 :: chunks))
              = front ++ [Effect.on_close st.handlers_created 0]
            ∧ closes st.handlers_created front = [])
          ∧ (deliver_reads env st (c0 :: chunks)).m_state = processing_request)) := by
  refine ⟨?_, ?_⟩
  · intro st id hd chunks hstate hatt hpos hsz hread
    obtain ⟨h1, h2, h3⟩ := deliver_reads_after_header env hall st id hd chunks hstate hatt hpos
      hsz hread
    have he := effects_since_append st _ _ h1
    obtain ⟨c1, c2⟩ := closes_body_effects id chunks st.m_content_length hpos
    rw [he]
    exact ⟨rfl, offered_bytes_body_effects id chunks _, fun h => ⟨c1 h, h2 h⟩,
      fun h => ⟨c2 h, h3 h⟩⟩
  · intro st c0 chunks h L hstate hdone hk hfac hlen hpos hsz
    have hfound := handle_read_found env st c0 h hstate hdone hfac
    generalize hkk : (env.parse st.m_request_parser_state st.m_request c0).2.1 = k at *
    have hs1state : (attach_handler env (after_parse env st c0) h).m_state = read_data := by
      show (st.m_state &&& bit_not read_headers) ||| read_data = read_data
      rw [hstate]; decide
    have hs1cl : (attach_handler env (after_parse env st c0) h).m_content_length = L := by
      show ((env.content_length
        (env.parse st.m_request_parser_state st.m_request c0).2.2.2).getD 0) % size_t_mod = L
      rw [hlen]
      exact Nat.mod_eq_of_lt hsz
    have hs1log : (attach_handler env (after_parse env st c0) h).log
        = st.log ++ [Effect.parse c0, Effect.create st.handlers_created,
            Effect.on_headers st.handlers_created] := by
      simp [attach_handler, after_parse, read_done]
    have hs1buf : (attach_handler env (after_parse env st c0) h).m_buffer
        = (read_done st c0).m_buffer := rfl
    have hsl : slice (attach_handler env (after_parse env st c0) h).m_buffer (0 + k) c0.length
        = c0.drop k := by
      rw [hs1buf, slice_drop, slice_read_done st c0 c0.length (le_refl _), List.take_length]
    obtain ⟨p1, p2, _⟩ := deliver_reads_piece env hall st.handlers_created chunks
      (attach_handler env (after_parse env st c0) h) (0 + k) c0.length h hs1state rfl
      (by rw [hs1cl]; exact hpos) (by rw [hs1cl]; exact hsz) rfl (by omega)
      (by rw [hs1buf]; show c0.length ≤ (c0 ++ st.m_buffer.drop c0.length).length; simp)
    rw [hsl, hs1cl, hs1log] at p1
    rw [hs1cl] at p2
    have hlog : (deliver_reads env st (c0 :: chunks)).log
        = st.log ++ (Effect.parse c0 :: Effect.create st.handlers_created
            :: Effect.on_headers st.handlers_created
            :: body_effects st.handlers_created L (c0.drop k :: chunks)) := by
      simp only [deliver_reads]
      rw [hfound, p1]
      simp
    have he := effects_since_append st _ _ hlog
    rw [he]
    refine ⟨rfl, ?_, fun hcov => ⟨?_, ?_⟩⟩
    · have := offered_bytes_body_effects st.handlers_created (c0.drop k :: chunks) L
      simp only [offered_bytes, List.flatten_cons] at this ⊢
      simpa using this
    · obtain ⟨front, f1, f2⟩ :=
        (closes_body_effects st.handlers_created (c0.drop k :: chunks) L hpos).1
          (by rw [List.flatten_cons]; exact hcov)
      refine ⟨Effect.parse c0 :: Effect.create st.handlers_created
        :: Effect.on_headers st.handlers_created :: front, by rw [f1]; rfl, ?_⟩
      have : closes st.handlers_created (Effect.parse c0 :: Effect.create st.handlers_created
          :: Effect.on_headers st.handlers_created :: front)
          = closes st.handlers_created front := by
        simp [closes]
      rw [this, f2]
    · simp only [deliver_reads]
      rw [hfound]
      refine (p2 ?_).1
      rw [List.length_append, List.length_drop] at hcov
      omega

/-- C5 at scenario C: body of 10 bytes delivered as reads of 4 and 6 bytes, and
the same body when the first 4 bytes arrive with the header. -/
theorem C5_body_delivered_in_reads_witness :
    ((scenario_C.m_state = read_data ∧ scenario_C.m_handler = some (0, [])
      ∧ scenario_C.m_content_length = 10 ∧ scenario_C.m_at_read = true)
    ∧ effects_since scenario_C
        (deliver_reads greedy_env scenario_C [[1, 2, 3, 4], [5, 6, 7, 8, 9, 10]])
        = [Effect.on_data 0 [1, 2, 3, 4] 4, Effect.async_read_some,
           Effect.on_data 0 [5, 6, 7, 8, 9, 10] 6, Effect.on_close 0 0]
    ∧ offered_bytes (effects_since scenario_C
        (deliver_reads greedy_env scenario_C [[1, 2, 3, 4], [5, 6, 7, 8, 9, 10]]))
        = [1, 2, 3, 4, 5, 6, 7, 8, 9, 10]
    ∧ (deliver_reads greedy_env scenario_C [[1, 2, 3, 4], [5, 6, 7, 8, 9, 10]]).m_state
        = processing_request)
    ∧ (effects_since (start (connection.init greedy_env 64))
        (deliver_reads greedy_env (start (connection.init greedy_env 64))
          [post_root_request ++ [1, 2, 3, 4], [5, 6, 7, 8, 9, 10, 11, 12]])
        = [Effect.parse (post_root_request ++ [1, 2, 3, 4]), Effect.create 0,
           Effect.on_headers 0, Effect.on_data 0 [1, 2, 3, 4] 4, Effect.async_read_some,
           Effect.on_data 0 [5, 6, 7, 8, 9, 10] 6, Effect.on_close 0 0]
      ∧ offered_bytes (effects_since (start (connection.init greedy_env 64))
          (deliver_reads greedy_env (start (connection.init greedy_env 64))
            [post_root_request ++ [1, 2, 3, 4], [5, 6, 7, 8, 9, 10, 11, 12]]))
        = [1, 2, 3, 4, 5, 6, 7, 8, 9, 10]) :=
  ⟨⟨by decide,
    ((C5_body_delivered_in_reads greedy_env (fun _ _ => rfl)).1 scenario_C 0 []
      [[1, 2, 3, 4], [5, 6, 7, 8, 9, 10]] (by decide) (by decide) (by decide) (by decide)
      (by decide)).1,
    ((C5_body_delivered_in_reads greedy_env (fun _ _ => rfl)).1 scenario_C 0 []
      [[1, 2, 3, 4], [5, 6, 7, 8, 9, 10]] (by decide) (by decide) (by decide) (by decide)
      (by decide)).2.1,
    (((C5_body_delivered_in_reads greedy_env (fun _ _ => rfl)).1 scenario_C 0 []
      [[1, 2, 3, 4], [5, 6, 7, 8, 9, 10]] (by decide) (by decide) (by decide) (by decide)
      (by decide)).2.2.1 (by decide)).2.1⟩,
    ((C5_body_delivered_in_reads greedy_env (fun _ _ => rfl)).2
      (start (connection.init greedy_env 64)) (post_root_request ++ [1, 2, 3, 4])
      [[5, 6, 7, 8, 9, 10, 11, 12]] [] 10 (by decide) (by decide) (by decide) (by decide)
      (by decide) (by decide) (by decide)).1,
    ((C5_body_delivered_in_reads greedy_env (fun _ _ => rfl)).2
      (start (connection.init greedy_env 64)) (post_root_request ++ [1, 2, 3, 4])
      [[5, 6, 7, 8, 9, 10, 11, 12]] [] 10 (by decide) (by decide) (by decide) (by decide)
      (by decide) (by decide) (by decide)).2.1⟩

/-! ### C6: the response is closed before the body is read -/

theorem deliver_detached (env : Env P Q R H) (st : connection P Q H) (b e : Nat)
    (hatt : st.m_handler = none) :
    deliver env st b e =
      (min st.m_content_length (e - b), min st.m_content_length (e - b),
        { st with m_content_length :=
            size_t_sub st.m_content_length (min st.m_content_length (e - b)) }) := by
  unfold deliver
  simp only [hatt]

theorem drain_more (env : Env P Q R H) (s : connection P Q H) (b e : Nat)
    (hstate : s.m_state = read_data ||| request_processed) (hatt : s.m_handler = none)
    (hsz : s.m_content_length < size_t_mod) (hlt : e - b < s.m_content_length) :
    process_data env s b e
      = async_read { s with m_content_length := s.m_content_length - (e - b) } := by
  have hmin : min s.m_content_length (e - b) = e - b := min_eq_right (le_of_lt hlt)
  rw [process_data_reading_body _ _ _ _ (by rw [hstate]; decide) (by rw [hstate]; decide)]
  rw [deliver_detached env s b e hatt]
  simp only [hmin, ne_eq, not_true_eq_false, if_false]
  rw [size_t_sub_eq _ _ hsz (le_of_lt hlt)]
  rw [if_pos (by show s.m_content_length - (e - b) > 0; omega)]

theorem drain_last (env : Env P Q R H) (s : connection P Q H) (b e : Nat)
    (hstate : s.m_state = read_data ||| request_processed) (hatt : s.m_handler = none)
    (hsz : s.m_content_length < size_t_mod) (hge : s.m_content_length ≤ e - b) :
    process_data env s b e
      = process_next env { s with
          m_content_length := 0
          m_state := request_processed
          m_unprocessed_begin := b + s.m_content_length
          m_unprocessed_end := e } := by
  have hmin : min s.m_content_length (e - b) = s.m_content_length := min_eq_left hge
  have e1 : (read_data ||| request_processed) &&& bit_not read_data = request_processed := by
    decide
  rw [process_data_reading_body _ _ _ _ (by rw [hstate]; decide) (by rw [hstate]; decide)]
  rw [deliver_detached env s b e hatt]
  simp only [hmin, ne_eq, not_true_eq_false, if_false]
  rw [size_t_sub_eq _ _ hsz (le_refl _)]
  simp only [Nat.sub_self, gt_iff_lt, lt_self_iff_false, if_false]
  have hfb : finish_body { s with m_content_length := 0 } (b + s.m_content_length) e
      = { s with
          m_content_length := 0
          m_state := request_processed
          m_unprocessed_begin := b + s.m_content_length
          m_unprocessed_end := e } := by
    simp [finish_body, hatt, hstate, e1]
  rw [hfb]
  exact if_pos (show request_processed &&& request_processed ≠ 0 by decide)

/-- C6: when `close_impl` is applied without error while the body is being
read, it neither shuts the socket down nor resets the connection: it adds no
effect, drops the handler and sets the response-already-closed flag.  From
then on a read completion that leaves body bytes to come only drains (one new
read, same state word, parser untouched), and the read completion with which
`m_content_length` reaches zero resets the connection: it continues from the
fresh reading-headers state `drained_reset` (state word `read_headers`, parser
and request fresh, no handler), on the bytes that follow the body if there are
any and with a new read otherwise.  This holds whatever `m_keep_alive` is. -/
theorem C6_early_close_then_drain (env : Env P Q R H) (st : connection P Q H)
    (hbody : st.m_state = read_data) :
    ((close_impl env st 0).m_state = read_data ||| request_processed
      ∧ effects_since st (close_impl env st 0) = []
      ∧ (close_impl env st 0).m_handler = none
      ∧ (close_impl env st 0).m_content_length = st.m_content_length
      ∧ (close_impl env st 0).m_request_parser_state = st.m_request_parser_state)
    ∧ (∀ (s : connection P Q H) (data : List Byte),
        s.m_state = read_data ||| request_processed → s.m_handler = none →
        s.m_content_length < size_t_mod → data.length < s.m_content_length →
        effects_since s (handle_read env s 0 data) = [Effect.async_read_some]
        ∧ (handle_read env s 0 data).m_state = read_data ||| request_processed
        ∧ (handle_read env s 0 data).m_handler = none
        ∧ (handle_read env s 0 data).m_content_length = s.m_content_length - data.length
        ∧ (handle_read env s 0 data).m_request_parser_state = s.m_request_parser_state)
    ∧ (∀ (s : connection P Q H) (data : List Byte),
        s.m_state = read_data ||| request_processed → s.m_handler = none →
        s.m_content_length < size_t_mod → s.m_content_length ≤ data.length →
        (drained_reset env s data).m_state = read_headers
        ∧ (drained_reset env s data).m_request_parser_state = env.parser_initial
        ∧ (drained_reset env s data).m_handler = none
        ∧ Effect.shutdown ∉ effects_since s (drained_reset env s data)
        ∧ (s.m_content_length < data.length →
            handle_read env s 0 data
              = process_data env (drained_reset env s data) s.m_content_length data.length)
        ∧ (s.m_content_length = data.length →
            handle_read env s 0 data = async_read (drained_reset env s data)
            ∧ (handle_read env s 0 data).m_state = read_headers
            ∧ effects_since s (handle_read env s 0 data)
                = [Effect.parser_reset, Effect.async_read_some])) := by
  refine ⟨?_, ?_, ?_⟩
  · have hne : (drop_handler st).m_state ≠ processing_request := by
      show st.m_state ≠ processing_request
      rw [hbody]; decide
    unfold close_impl
    rw [if_neg (by simp), if_pos hne]
    refine ⟨?_, ?_, rfl, rfl, rfl⟩
    · show st.m_state ||| request_processed = _
      rw [hbody]
    · exact effects_since_append _ _ [] (by simp [drop_handler])
  · intro s data hstate hatt hs hlt
    have h := drain_more env (read_done s data) 0 data.length hstate hatt hs (by simpa using hlt)
    unfold handle_read
    rw [if_neg (by simp), h]
    refine ⟨effects_since_append _ _ _ ?_, ?_, ?_, ?_, ?_⟩ <;>
      simp [async_read, read_done, emit, hstate, hatt]
  · intro s data hstate hatt hs hge
    have h := drain_last env (read_done s data) 0 data.length hstate hatt hs (by simpa using hge)
    have hcl : (read_done s data).m_content_length = s.m_content_length := rfl
    rw [hcl, Nat.zero_add] at h
    refine ⟨rfl, rfl, hatt, ?_, fun hlt => ?_, fun heq => ?_⟩
    · rw [effects_since_append s _ [Effect.parser_reset] rfl]
      simp
    · unfold handle_read
      rw [if_neg (by simp), h, process_next_unfold, if_pos (by simpa using Nat.ne_of_lt hlt)]
      rfl
    · have hr : handle_read env s 0 data = async_read (drained_reset env s data) := by
        unfold handle_read
        rw [if_neg (by simp), h, process_next_unfold, if_neg (by simpa using heq)]
        rfl
      rw [hr]
      refine ⟨rfl, ?_, effects_since_append _ _ _ ?_⟩ <;>
        simp [async_read, drained_reset, read_done, emit]

/-- C6 at a request with a body of 10 bytes whose handler closes right after
the header: reads of 4 and 6 bytes drain the body and reset the connection. -/
theorem C6_early_close_then_drain_witness :
    post_header_read.m_state = read_data
    ∧ ((close_impl (demo_env []) post_header_read 0).m_state = read_data ||| request_processed
      ∧ effects_since post_header_read (close_impl (demo_env []) post_header_read 0) = []
      ∧ (close_impl (demo_env []) post_header_read 0).m_handler = none
      ∧ (close_impl (demo_env []) post_header_read 0).m_content_length = 10
      ∧ (close_impl (demo_env []) post_header_read 0).m_request_parser_state
          = post_header_read.m_request_parser_state)
    ∧ (effects_since (close_impl (demo_env []) post_header_read 0)
          (handle_read (demo_env []) (close_impl (demo_env []) post_header_read 0) 0 [1, 2, 3, 4])
        = [Effect.async_read_some]
      ∧ (handle_read (demo_env []) (close_impl (demo_env []) post_header_read 0) 0
          [1, 2, 3, 4]).m_state = read_data ||| request_processed
      ∧ (handle_read (demo_env []) (close_impl (demo_env []) post_header_read 0) 0
          [1, 2, 3, 4]).m_handler = none
      ∧ (handle_read (demo_env []) (close_impl (demo_env []) post_header_read 0) 0
          [1, 2, 3, 4]).m_content_length = 10 - 4
      ∧ (handle_read (demo_env []) (close_impl (demo_env []) post_header_read 0) 0
          [1, 2, 3, 4]).m_request_parser_state
          = (close_impl (demo_env []) post_header_read 0).m_request_parser_state)
    ∧ (handle_read (demo_env [])
        (handle_read (demo_env []) (close_impl (demo_env []) post_header_read 0) 0 [1, 2, 3, 4])
        0 [5, 6, 7, 8, 9, 10]).m_state = read_headers :=
  ⟨by decide,
    (C6_early_close_then_drain (demo_env []) post_header_read (by decide)).1,
    (C6_early_close_then_drain (demo_env []) post_header_read (by decide)).2.1
      (close_impl (demo_env []) post_header_read 0) [1, 2, 3, 4]
      (by decide) (by decide) (by decide) (by decide),
    (((C6_early_close_then_drain (demo_env []) post_header_read (by decide)).2.2
      (handle_read (demo_env []) (close_impl (demo_env []) post_header_read 0) 0 [1, 2, 3, 4])
      [5, 6, 7, 8, 9, 10] (by decide) (by decide) (by decide) (by decide)).2.2.2.2.2
      (by decide)).2.1⟩

/-! ### C7 and C8: what happens after a stock reply is flushed -/

/-- C7 (fails on the code): a request for a target without handler factory is
answered with the not-found stock reply and no handler is created, but when
that reply has been flushed its completion, `close_impl` without error, finds
the state word still at `read_headers`: it only sets the
response-already-closed flag.  Neither is the socket shut down
(`m_keep_alive` false, first case) nor is the connection reset for the next
request (`m_keep_alive` true, second case); no read is outstanding
afterwards. -/
theorem C7_not_found_flush_neither_shutdown_nor_reset :
    ((run (demo_env []) (started [] 64)
        [Event.handle_read 0 get_missing_request]).log
        = [Effect.async_read_some, Effect.parse get_missing_request,
           Effect.async_write_some [[52, 48, 52], []]]
      ∧ (run (demo_env []) (started [] 64)
          [Event.handle_read 0 get_missing_request]).m_keep_alive = false
      ∧ effects_since
          (run (demo_env []) (started [] 64) [Event.handle_read 0 get_missing_request])
          (run (demo_env []) (started [] 64)
            [Event.handle_read 0 get_missing_request, Event.write_finished 0 3])
          = [Effect.invoke handler_fn.close_impl 0]
      ∧ (run (demo_env []) (started [] 64)
          [Event.handle_read 0 get_missing_request, Event.write_finished 0 3]).m_state
          = read_headers ||| request_processed
      ∧ (run (demo_env []) (started [] 64)
          [Event.handle_read 0 get_missing_request, Event.write_finished 0 3]).m_at_read
          = false)
    ∧ ((run (demo_env []) (started [] 64)
          [Event.handle_read 0 get_root_request, Event.close_impl 0,
           Event.handle_read 0 get_missing_request]).m_keep_alive = true
      ∧ effects_since
          (run (demo_env []) (started [] 64)
            [Event.handle_read 0 get_root_request, Event.close_impl 0])
          (run (demo_env []) (started [] 64)
            [Event.handle_read 0 get_root_request, Event.close_impl 0,
             Event.handle_read 0 get_missing_request])
          = [Effect.parse get_missing_request,
             Effect.async_write_some [[52, 48, 52], [75, 65], []]]
      ∧ effects_since
          (run (demo_env []) (started [] 64)
            [Event.handle_read 0 get_root_request, Event.close_impl 0,
             Event.handle_read 0 get_missing_request])
          (run (demo_env []) (started [] 64)
            [Event.handle_read 0 get_root_request, Event.close_impl 0,
             Event.handle_read 0 get_missing_request, Event.write_finished 0 5])
          = [Effect.invoke handler_fn.close_impl 0]
      ∧ (run (demo_env []) (started [] 64)
          [Event.handle_read 0 get_root_request, Event.close_impl 0,
           Event.handle_read 0 get_missing_request, Event.write_finished 0 5]).m_state
          = read_headers ||| request_processed
      ∧ (run (demo_env []) (started [] 64)
          [Event.handle_read 0 get_root_request, Event.close_impl 0,
           Event.handle_read 0 get_missing_request, Event.write_finished 0 5]).m_at_read
          = false) := by
  decide

/-- C8 (fails as stated): bytes the parser rejects are answered with the
bad-request stock reply; no handler is created, nothing is delivered and no
read is issued.  When the reply has been flushed, its completion, `close_impl`
without error, finds the state word at `read_headers` and only sets the
response-already-closed flag: the completion does not shut the socket down.
The socket is closed when the connection object is destroyed, which is all
that destruction does here. -/
theorem C8_bad_request_flush_no_shutdown :
    effects_since (started [] 64)
        (run (demo_env []) (started [] 64) [Event.handle_read 0 [33, 13, 10]])
        = [Effect.parse [33, 13, 10], Effect.async_write_some [[52, 48, 48], []]]
    ∧ (run (demo_env []) (started [] 64) [Event.handle_read 0 [33, 13, 10]]).m_handler = none
    ∧ (run (demo_env []) (started [] 64) [Event.handle_read 0 [33, 13, 10]]).m_at_read = false
    ∧ effects_since
        (run (demo_env []) (started [] 64) [Event.handle_read 0 [33, 13, 10]])
        (run (demo_env []) (started [] 64)
          [Event.handle_read 0 [33, 13, 10], Event.write_finished 0 3])
        = [Effect.invoke handler_fn.close_impl 0]
    ∧ Effect.shutdown ∉
        (run (demo_env []) (started [] 64)
          [Event.handle_read 0 [33, 13, 10], Event.write_finished 0 3]).log
    ∧ (run (demo_env []) (started [] 64)
        [Event.handle_read 0 [33, 13, 10], Event.write_finished 0 3]).m_state
        = read_headers ||| request_processed
    ∧ effects_since
        (run (demo_env []) (started [] 64)
          [Event.handle_read 0 [33, 13, 10], Event.write_finished 0 3])
        (destroy (run (demo_env []) (started [] 64)
          [Event.handle_read 0 [33, 13, 10], Event.write_finished 0 3]))
        = [Effect.socket_closed] := by
  decide

/-! ### C9 and C10: reading the header block -/

theorem deliver_reads_append (env : Env P Q R H) :
    ∀ (cs : List (List Byte)) (st : connection P Q H) (c : List Byte),
      deliver_reads env st (cs ++ [c]) = handle_read env (deliver_reads env st cs) 0 c := by
  intro cs
  induction cs with
  | nil => intro st c; rfl
  | cons x xs ih => intro st c; exact ih (handle_read env st 0 x) c

theorem deliver_reads_incomplete (env : Env P Q R H) :
    ∀ (cs : List (List Byte)) (st : connection P Q H),
      st.m_state = read_headers →
      all_incomplete env (st.m_request_parser_state, st.m_request) cs →
      (deliver_reads env st cs).log
          = st.log ++ (cs.map (fun x => [Effect.parse x, Effect.async_read_some])).flatten
      ∧ (deliver_reads env st cs).m_state = read_headers
      ∧ (deliver_reads env st cs).m_handler = st.m_handler
      ∧ (deliver_reads env st cs).m_content_length = st.m_content_length
      ∧ (deliver_reads env st cs).handlers_created = st.handlers_created
      ∧ ((deliver_reads env st cs).m_request_parser_state, (deliver_reads env st cs).m_request)
          = fed env (st.m_request_parser_state, st.m_request) cs := by
  intro cs
  induction cs with
  | nil => intro st hstate _; exact ⟨by simp [deliver_reads], hstate, rfl, rfl, rfl, rfl⟩
  | cons c cs ih =>
    intro st hstate hinc
    obtain ⟨h1, h2⟩ := hinc
    have hstep := handle_read_incomplete env st c hstate h1
    have f1 : (handle_read env st 0 c).log
        = st.log ++ [Effect.parse c, Effect.async_read_some] := by rw [hstep]
    have f2 : (handle_read env st 0 c).m_state = read_headers := by rw [hstep]; exact hstate
    have f3 : (handle_read env st 0 c).m_handler = st.m_handler := by rw [hstep]; rfl
    have f4 : (handle_read env st 0 c).m_content_length = st.m_content_length := by
      rw [hstep]; rfl
    have f5 : (handle_read env st 0 c).handlers_created = st.handlers_created := by
      rw [hstep]; rfl
    have f6 : ((handle_read env st 0 c).m_request_parser_state,
        (handle_read env st 0 c).m_request)
        = (env.parse st.m_request_parser_state st.m_request c).2.2 := by
      rw [hstep]; rfl
    simp only [deliver_reads, fed]
    obtain ⟨i1, i2, i3, i4, i5, i6⟩ := ih (handle_read env st 0 c) f2 (by rw [f6]; exact h2)
    refine ⟨?_, i2, by rw [i3, f3], by rw [i4, f4], by rw [i5, f5], by rw [i6, f6]⟩
    rw [i1, f1]
    simp

theorem process_data_body_quiet (env : Env P Q R H) (s : connection P Q H) (b e : Nat)
    (hstate : s.m_state = read_data) :
    ∃ new, (process_data env s b e).log = s.log ++ new
      ∧ parsed_chunks new = [] ∧ headers_calls new = [] := by
  have hd : ∃ d, (deliver env s b e).2.2.log = s.log ++ d
      ∧ parsed_chunks d = [] ∧ headers_calls d = [] := by
    unfold deliver
    dsimp only
    split
    · split_ifs
      · exact ⟨[_], rfl, rfl, rfl⟩
      · exact ⟨[], by simp, rfl, rfl⟩
    · exact ⟨[], by simp, rfl, rfl⟩
  obtain ⟨d, hd1, hd2, hd3⟩ := hd
  have hfin : ∀ nb, ∃ f, (finish_body (deliver env s b e).2.2 nb e).log
      = (deliver env s b e).2.2.log ++ f ∧ parsed_chunks f = [] ∧ headers_calls f = [] := by
    intro nb
    unfold finish_body
    dsimp only
    split
    · exact ⟨[_], rfl, rfl, rfl⟩
    · exact ⟨[], by simp, rfl, rfl⟩
  have hflag : (finish_body (deliver env s b e).2.2 (b + (deliver env s b e).2.1) e).m_state
      &&& request_processed = 0 := by
    rw [finish_body_state, deliver_state, hstate]; decide
  rw [process_data_reading_body _ _ _ _ (by rw [hstate]; decide) (by rw [hstate]; decide)]
  split_ifs with h1 h2 h3
  · exact ⟨d, hd1, hd2, hd3⟩
  · unfold async_read
    split_ifs
    · exact ⟨d, hd1, hd2, hd3⟩
    · refine ⟨d ++ [Effect.async_read_some], ?_, ?_, ?_⟩
      · show (deliver env s b e).2.2.log ++ [Effect.async_read_some] = _
        rw [hd1, List.append_assoc]
      · simp only [parsed_chunks] at hd2 ⊢
        simp [List.filterMap_append, hd2]
      · simp only [headers_calls] at hd3 ⊢
        simp [List.filterMap_append, hd3]
  · exact absurd hflag h3
  · obtain ⟨f, f1, f2, f3⟩ := hfin (b + (deliver env s b e).2.1)
    refine ⟨d ++ f, ?_, ?_, ?_⟩
    · rw [f1, hd1, List.append_assoc]
    · simp only [parsed_chunks] at hd2 f2 ⊢
      simp [List.filterMap_append, hd2, f2]
    · simp only [headers_calls] at hd3 f3 ⊢
      simp [List.filterMap_append, hd3, f3]

theorem parsed_chunks_incomplete (cs : List (List Byte)) :
    parsed_chunks ((cs.map (fun x => [Effect.parse x, Effect.async_read_some])).flatten) = cs
    ∧ headers_calls ((cs.map (fun x => [Effect.parse x, Effect.async_read_some])).flatten)
        = [] := by
  induction cs with
  | nil => exact ⟨rfl, rfl⟩
  | cons c cs ih =>
    obtain ⟨i1, i2⟩ := ih
    simp only [parsed_chunks, headers_calls] at i1 i2 ⊢
    simp [i1, i2]

/-- C9: a connection is reading headers; successive reads deliver chunks on
which the parser reports "incomplete", then a chunk on which it reports
success for a target that has a handler factory.  The parser is fed exactly
those chunks, in order and once each; each incomplete chunk is followed by
exactly one new read and leaves state word, handler and body length as they
were; `on_headers` is delivered exactly once, to the handler created at the
chunk on which the parser reports success. -/
theorem C9_header_in_chunks (env : Env P Q R H) (st : connection P Q H)
    (cs : List (List Byte)) (c : List Byte) (h : H)
    (hstate : st.m_state = read_headers)
    (hinc : all_incomplete env (st.m_request_parser_state, st.m_request) cs)
    (hdone : (env.parse (fed env (st.m_request_parser_state, st.m_request) cs).1
        (fed env (st.m_request_parser_state, st.m_request) cs).2 c).1 = tribool.true_value)
    (hfac : env.get_factory
        (env.parse (fed env (st.m_request_parser_state, st.m_request) cs).1
          (fed env (st.m_request_parser_state, st.m_request) cs).2 c).2.2.2 = some h) :
    effects_since st (deliver_reads env st cs)
        = (cs.map (fun x => [Effect.parse x, Effect.async_read_some])).flatten
    ∧ (deliver_reads env st cs).m_state = read_headers
    ∧ (deliver_reads env st cs).m_handler = st.m_handler
    ∧ (deliver_reads env st cs).m_content_length = st.m_content_length
    ∧ parsed_chunks (effects_since st (deliver_reads env st (cs ++ [c]))) = cs ++ [c]
    ∧ headers_calls (effects_since st (deliver_reads env st (cs ++ [c])))
        = [st.handlers_created]
    ∧ (∃ rest, effects_since (deliver_reads env st cs) (deliver_reads env st (cs ++ [c]))
        = Effect.parse c :: Effect.create st.handlers_created
            :: Effect.on_headers st.handlers_created :: rest) := by
  obtain ⟨m1, m2, m3, m4, m5, m6⟩ := deliver_reads_incomplete env cs st hstate hinc
  have hp : (deliver_reads env st cs).m_request_parser_state
      = (fed env (st.m_request_parser_state, st.m_request) cs).1 := by rw [← m6]
  have hq : (deliver_reads env st cs).m_request
      = (fed env (st.m_request_parser_state, st.m_request) cs).2 := by rw [← m6]
  have hfound := handle_read_found env (deliver_reads env st cs) c h m2
    (by rw [hp, hq]; exact hdone) (by rw [hp, hq]; exact hfac)
  have hs1 : (attach_handler env (after_parse env (deliver_reads env st cs) c) h).m_state
      = read_data := by
    show ((deliver_reads env st cs).m_state &&& bit_not read_headers) ||| read_data = read_data
    rw [m2]; decide
  obtain ⟨new, n1, n2, n3⟩ := process_data_body_quiet env
    (attach_handler env (after_parse env (deliver_reads env st cs) c) h)
    (0 + (env.parse (deliver_reads env st cs).m_request_parser_state
      (deliver_reads env st cs).m_request c).2.1) c.length hs1
  have hlog1 : (attach_handler env (after_parse env (deliver_reads env st cs) c) h).log
      = (deliver_reads env st cs).log ++ [Effect.parse c, Effect.create st.handlers_created,
          Effect.on_headers st.handlers_created] := by
    simp [attach_handler, after_parse, read_done, m5]
  have hfin : (deliver_reads env st (cs ++ [c])).log
      = (deliver_reads env st cs).log ++ (Effect.parse c :: Effect.create st.handlers_created
          :: Effect.on_headers st.handlers_created :: new) := by
    rw [deliver_reads_append, hfound, n1, hlog1]; simp
  obtain ⟨q1, q2⟩ := parsed_chunks_incomplete cs
  have hall : (deliver_reads env st (cs ++ [c])).log
      = st.log ++ ((cs.map (fun x => [Effect.parse x, Effect.async_read_some])).flatten
          ++ (Effect.parse c :: Effect.create st.handlers_created
            :: Effect.on_headers st.handlers_created :: new)) := by
    rw [hfin, m1, List.append_assoc]
  refine ⟨effects_since_append _ _ _ m1, m2, m3, m4, ?_, ?_,
    ⟨new, effects_since_append _ _ _ hfin⟩⟩
  · rw [effects_since_append _ _ _ hall]
    simp only [parsed_chunks] at q1 n2 ⊢
    simp [List.filterMap_append, q1, n2]
  · rw [effects_since_append _ _ _ hall]
    simp only [headers_calls] at q2 n3 ⊢
    simp [List.filterMap_append, q2, n3]

/-- C9 at `GET / HTTP/1.1\r\nHost: h\r\n\r\n` split into three chunks. -/
theorem C9_header_in_chunks_witness :
    ((started [] 64).m_state = read_headers
      ∧ all_incomplete (demo_env []) ([], ⟨[], none, false⟩)
          [[71, 69, 84, 32, 47], [32, 72, 84, 84, 80, 47, 49, 46, 49, 13, 10]]
      ∧ [71, 69, 84, 32, 47] ++ [32, 72, 84, 84, 80, 47, 49, 46, 49, 13, 10]
          ++ [72, 111, 115, 116, 58, 32, 104, 13, 10, 13, 10] = get_root_request)
    ∧ (effects_since (started [] 64)
          (deliver_reads (demo_env []) (started [] 64)
            [[71, 69, 84, 32, 47], [32, 72, 84, 84, 80, 47, 49, 46, 49, 13, 10]])
        = [Effect.parse [71, 69, 84, 32, 47], Effect.async_read_some,
           Effect.parse [32, 72, 84, 84, 80, 47, 49, 46, 49, 13, 10], Effect.async_read_some]
      ∧ (deliver_reads (demo_env []) (started [] 64)
            [[71, 69, 84, 32, 47], [32, 72, 84, 84, 80, 47, 49, 46, 49, 13, 10]]).m_state
          = read_headers
      ∧ (deliver_reads (demo_env []) (started [] 64)
            [[71, 69, 84, 32, 47], [32, 72, 84, 84, 80, 47, 49, 46, 49, 13, 10]]).m_handler
          = none
      ∧ (deliver_reads (demo_env []) (started [] 64)
            [[71, 69, 84, 32, 47],
             [32, 72, 84, 84, 80, 47, 49, 46, 49, 13, 10]]).m_content_length = 0
      ∧ parsed_chunks (effects_since (started [] 64)
          (deliver_reads (demo_env []) (started [] 64)
            ([[71, 69, 84, 32, 47], [32, 72, 84, 84, 80, 47, 49, 46, 49, 13, 10]]
              ++ [[72, 111, 115, 116, 58, 32, 104, 13, 10, 13, 10]])))
          = [[71, 69, 84, 32, 47], [32, 72, 84, 84, 80, 47, 49, 46, 49, 13, 10]]
              ++ [[72, 111, 115, 116, 58, 32, 104, 13, 10, 13, 10]]
      ∧ headers_calls (effects_since (started [] 64)
          (deliver_reads (demo_env []) (started [] 64)
            ([[71, 69, 84, 32, 47], [32, 72, 84, 84, 80, 47, 49, 46, 49, 13, 10]]
              ++ [[72, 111, 115, 116, 58, 32, 104, 13, 10, 13, 10]]))) = [0]
      ∧ (∃ rest, effects_since
          (deliver_reads (demo_env []) (started [] 64)
            [[71, 69, 84, 32, 47], [32, 72, 84, 84, 80, 47, 49, 46, 49, 13, 10]])
          (deliver_reads (demo_env []) (started [] 64)
            ([[71, 69, 84, 32, 47], [32, 72, 84, 84, 80, 47, 49, 46, 49, 13, 10]]
              ++ [[72, 111, 115, 116, 58, 32, 104, 13, 10, 13, 10]]))
          = Effect.parse [72, 111, 115, 116, 58, 32, 104, 13, 10, 13, 10]
              :: Effect.create 0 :: Effect.on_headers 0 :: rest)) :=
  ⟨⟨by decide, ⟨by decide, by decide, trivial⟩, by decide⟩,
    C9_header_in_chunks (demo_env []) (started [] 64)
      [[71, 69, 84, 32, 47], [32, 72, 84, 84, 80, 47, 49, 46, 49, 13, 10]]
      [72, 111, 115, 116, 58, 32, 104, 13, 10, 13, 10] []
      (by decide) ⟨by decide, by decide, trivial⟩ (by decide) (by decide)⟩

/-- A request without body on a connection whose state word is exactly
`read_headers`: a connection that is reading headers receives, in one read, bytes on
which the parser reports success, for a target with a handler factory and a
request without body (`Content-Length` absent or 0).  Then the effects are
exactly: the parser call, the creation of the handler, `on_headers`, and
`on_close` with success; `on_data` is not called and no read is issued.  The
reading-body state is entered (state word `read_data` after `on_headers`) and
left in the same call: at the end the state word is `processing_request`,
`m_content_length` is 0 and the unprocessed range is the bytes after the
header boundary. -/
theorem request_without_body_unflagged (env : Env P Q R H) (st : connection P Q H)
    (data : List Byte) (h : H)
    (hstate : st.m_state = read_headers)
    (hdone : (env.parse st.m_request_parser_state st.m_request data).1 = tribool.true_value)
    (hfac : env.get_factory (env.parse st.m_request_parser_state st.m_request data).2.2.2
      = some h)
    (hlen : (env.content_length
        (env.parse st.m_request_parser_state st.m_request data).2.2.2).getD 0 = 0) :
    effects_since st (handle_read env st 0 data)
        = [Effect.parse data, Effect.create st.handlers_created,
           Effect.on_headers st.handlers_created, Effect.on_close st.handlers_created 0]
    ∧ (attach_handler env (after_parse env st data) h).m_state = read_data
    ∧ handle_read env st 0 data
        = process_data env (attach_handler env (after_parse env st data) h)
            (0 + (env.parse st.m_request_parser_state st.m_request data).2.1) data.length
    ∧ (handle_read env st 0 data).m_state = processing_request
    ∧ (handle_read env st 0 data).m_content_length = 0
    ∧ (handle_read env st 0 data).m_unprocessed_begin
        = (env.parse st.m_request_parser_state st.m_request data).2.1
    ∧ (handle_read env st 0 data).m_unprocessed_end = data.length
    ∧ (handle_read env st 0 data).m_at_read = false
    ∧ (handle_read env st 0 data).m_handler = some (st.handlers_created, h) := by
  have e1 : (read_headers &&& bit_not read_headers) ||| read_data = read_data := by decide
  have e2 : read_data &&& bit_not read_data = processing_request := by decide
  have e3 : size_t_sub 0 0 = 0 := by decide
  have e4 : (0 : Nat) % size_t_mod = 0 := by decide
  have hfound := handle_read_found env st data h hstate hdone hfac
  rw [hfound]
  generalize hk : (env.parse st.m_request_parser_state st.m_request data).2.1 = k
  have hs1state : (attach_handler env (after_parse env st data) h).m_state = read_data := by
    show (st.m_state &&& bit_not read_headers) ||| read_data = read_data
    rw [hstate, e1]
  have hs1cl : (attach_handler env (after_parse env st data) h).m_content_length = 0 := by
    show ((env.content_length
      (env.parse st.m_request_parser_state st.m_request data).2.2.2).getD 0) % size_t_mod = 0
    rw [hlen, e4]
  have hs1att : (attach_handler env (after_parse env st data) h).m_handler
      = some (st.handlers_created, h) := rfl
  have hs1log : (attach_handler env (after_parse env st data) h).log
      = st.log ++ [Effect.parse data, Effect.create st.handlers_created,
          Effect.on_headers st.handlers_created] := by
    simp [attach_handler, after_parse, read_done]
  have hs1read : (attach_handler env (after_parse env st data) h).m_at_read = false := rfl
  generalize attach_handler env (after_parse env st data) h = s1 at *
  have hdel : deliver env s1 (0 + k) data.length
      = (0, 0, { s1 with m_content_length := 0 }) := by
    unfold deliver
    simp [hs1att, hs1cl, e3]
  rw [process_data_reading_body _ _ _ _ (by rw [hs1state]; decide) (by rw [hs1state]; decide),
    hdel]
  simp only [ne_eq, not_true_eq_false, if_false, gt_iff_lt, lt_self_iff_false]
  have hfb : finish_body { s1 with m_content_length := 0 } (0 + k + 0) data.length
      = { s1 with
          m_content_length := 0
          m_state := processing_request
          m_unprocessed_begin := k
          m_unprocessed_end := data.length
          log := s1.log ++ [Effect.on_close st.handlers_created 0] } := by
    simp [finish_body, hs1att, hs1state, e2, emit]
  rw [hfb, if_neg (by show ¬ (processing_request &&& request_processed ≠ 0); decide)]
  refine ⟨effects_since_append _ _ _ ?_, hs1state, trivial, rfl, rfl, rfl, rfl, hs1read, hs1att⟩
  show s1.log ++ _ = _
  rw [hs1log]; simp

/-- Scenario A: `GET / HTTP/1.1\r\nHost: h\r\n\r\n` in one read. -/
theorem request_without_body_scenario_A :
    ((started [] 64).m_state = read_headers
      ∧ ((demo_env []).parse [] ⟨[], none, false⟩ get_root_request).1 = tribool.true_value)
    ∧ (effects_since (started [] 64) (handle_read (demo_env []) (started [] 64) 0 get_root_request)
        = [Effect.parse get_root_request, Effect.create 0, Effect.on_headers 0,
           Effect.on_close 0 0]
      ∧ (attach_handler (demo_env []) (after_parse (demo_env []) (started [] 64) get_root_request)
          []).m_state = read_data
      ∧ handle_read (demo_env []) (started [] 64) 0 get_root_request
          = process_data (demo_env [])
              (attach_handler (demo_env [])
                (after_parse (demo_env []) (started [] 64) get_root_request) []) 27 27
      ∧ (handle_read (demo_env []) (started [] 64) 0 get_root_request).m_state
          = processing_request
      ∧ (handle_read (demo_env []) (started [] 64) 0 get_root_request).m_content_length = 0
      ∧ (handle_read (demo_env []) (started [] 64) 0 get_root_request).m_unprocessed_begin = 27
      ∧ (handle_read (demo_env []) (started [] 64) 0 get_root_request).m_unprocessed_end = 27
      ∧ (handle_read (demo_env []) (started [] 64) 0 get_root_request).m_at_read = false
      ∧ (handle_read (demo_env []) (started [] 64) 0 get_root_request).m_handler
          = some (0, [])) :=
  ⟨by decide,
    request_without_body_unflagged (demo_env []) (started [] 64) get_root_request []
      (by decide) (by decide) (by decide) (by decide)⟩

/-! ### C11: close without error once the request is fully read -/

theorem grows_send_error (env : Env P Q R H) (st : connection P Q H) (t : status_type) :
    grows st (send_error env st t) := by
  unfold send_error send_headers
  exact grows_send_impl _ _

theorem process_data_parses_first (env : Env P Q R H) (st : connection P Q H) (b e : Nat)
    (h1 : st.m_state &&& read_headers ≠ 0) :
    ∃ rest, (process_data env st b e).log
      = st.log ++ Effect.parse (slice st.m_buffer b e) :: rest := by
  have hp : (parse_headers env st b e).2.2.log = st.log ++ [Effect.parse (slice st.m_buffer b e)] :=
    rfl
  have key : grows (parse_headers env st b e).2.2 (process_data env st b e) := by
    rw [process_data_reading_headers env st b e h1]
    split
    · rename_i k st1 heq
      rw [heq]
      exact grows_send_error env _ _
    · rename_i k st1 heq
      rw [heq]
      split
      · exact grows_send_error env _ _
      · exact grows_trans ⟨[_, _], rfl⟩ (grows_process_data env _ _ _)
    · rename_i k st1 heq
      rw [heq]
      exact grows_async_read _
  obtain ⟨rest, hrest⟩ := key
  exact ⟨rest, by rw [hrest, hp, List.append_assoc]; rfl⟩

theorem close_impl_request_read (env : Env P Q R H) (st : connection P Q H)
    (h0 : st.m_state = processing_request) :
    close_impl env st 0 =
      if st.m_keep_alive then process_next env (drop_handler st)
      else emit (drop_handler st) Effect.shutdown := by
  unfold close_impl
  have h1 : (drop_handler st).m_state = processing_request := h0
  have h2 : (drop_handler st).m_keep_alive = st.m_keep_alive := rfl
  rw [if_neg (by simp), if_neg (by simp [h1]), h2]
  cases st.m_keep_alive <;> simp

/-- C11 (fails as stated): the request `GET /` has been read (all-zero state,
keep-alive, unprocessed range empty), the handler has called `want_more`, so a
read is outstanding, and then closes without error: the connection is reset
and no read is issued by the step. -/
theorem C11_no_read_issued_while_one_is_outstanding :
    (want_more_impl (demo_env [])
        (handle_read (demo_env []) (started [] 64) 0 get_root_request)).m_state
      = processing_request
    ∧ (want_more_impl (demo_env [])
        (handle_read (demo_env []) (started [] 64) 0 get_root_request)).m_keep_alive = true
    ∧ (want_more_impl (demo_env [])
        (handle_read (demo_env []) (started [] 64) 0 get_root_request)).m_unprocessed_begin
      = (want_more_impl (demo_env [])
        (handle_read (demo_env []) (started [] 64) 0 get_root_request)).m_unprocessed_end
    ∧ effects_since
        (want_more_impl (demo_env [])
          (handle_read (demo_env []) (started [] 64) 0 get_root_request))
        (close_impl (demo_env [])
          (want_more_impl (demo_env [])
            (handle_read (demo_env []) (started [] 64) 0 get_root_request)) 0)
      = [Effect.parser_reset] := by
  decide

/-- C11 (amended): in the all-zero state, `close_impl` without error drops the
handler and then: without keep-alive it shuts the socket down and resets
nothing; with keep-alive it sets the state to reading headers, resets the
parser and the request, and then either (unprocessed range non-empty) calls
`process_data` on exactly that range, whose first effect after the reset is the
parser call on those bytes, so no read precedes it, or (range empty) calls
`async_read`, which issues a read unless one is already outstanding; a read is
outstanding afterwards in both cases of the guard. -/
theorem C11_close_after_request_read (env : Env P Q R H) (st : connection P Q H)
    (h0 : st.m_state = processing_request) :
    (st.m_keep_alive = false →
      close_impl env st 0 = emit (drop_handler st) Effect.shutdown
      ∧ (close_impl env st 0).m_handler = none
      ∧ effects_since st (close_impl env st 0) = [Effect.shutdown])
    ∧ (st.m_keep_alive = true →
      (next_request env (drop_handler st)).m_handler = none
      ∧ (next_request env (drop_handler st)).m_state = read_headers
      ∧ (next_request env (drop_handler st)).m_request_parser_state = env.parser_initial
      ∧ (st.m_unprocessed_begin ≠ st.m_unprocessed_end →
          close_impl env st 0
            = process_data env (next_request env (drop_handler st))
                st.m_unprocessed_begin st.m_unprocessed_end
          ∧ ∃ rest, effects_since st (close_impl env st 0)
              = Effect.parser_reset
                :: Effect.parse (slice st.m_buffer st.m_unprocessed_begin st.m_unprocessed_end)
                :: rest)
      ∧ (st.m_unprocessed_begin = st.m_unprocessed_end →
          close_impl env st 0 = async_read (next_request env (drop_handler st))
          ∧ (close_impl env st 0).m_at_read = true
          ∧ (close_impl env st 0).m_state = read_headers
          ∧ (close_impl env st 0).m_handler = none
          ∧ effects_since st (close_impl env st 0)
              = if st.m_at_read then [Effect.parser_reset]
                else [Effect.parser_reset, Effect.async_read_some])) := by
  have hc := close_impl_request_read env st h0
  refine ⟨fun hk => ?_, fun hk => ⟨rfl, rfl, rfl, fun hne => ?_, fun heq => ?_⟩⟩
  · rw [hk] at hc
    simp only [Bool.false_eq_true, if_false] at hc
    rw [hc]
    exact ⟨rfl, rfl, effects_since_append _ _ _ rfl⟩
  · rw [hk] at hc
    simp only [if_true] at hc
    have hn : process_next env (drop_handler st)
        = process_data env (next_request env (drop_handler st))
            st.m_unprocessed_begin st.m_unprocessed_end := by
      rw [process_next_unfold]
      exact if_pos hne
    rw [hc, hn]
    refine ⟨rfl, ?_⟩
    obtain ⟨rest, hrest⟩ := process_data_parses_first env (next_request env (drop_handler st))
      st.m_unprocessed_begin st.m_unprocessed_end
      (by
        have hs : (next_request env (drop_handler st)).m_state = read_headers := rfl
        rw [hs]
        decide)
    refine ⟨rest, effects_since_append _ _ _ ?_⟩
    rw [hrest]
    show (st.log ++ [Effect.parser_reset]) ++ _ = _
    rw [List.append_assoc]
    rfl
  · rw [hk] at hc
    simp only [if_true] at hc
    have hn : process_next env (drop_handler st)
        = async_read (next_request env (drop_handler st)) := by
      rw [process_next_unfold]
      exact if_neg (not_not.mpr heq)
    rw [hc, hn]
    refine ⟨rfl, ?_⟩
    unfold async_read
    have hr : (next_request env (drop_handler st)).m_at_read = st.m_at_read := rfl
    rw [hr]
    cases hat : st.m_at_read
    · simp only [Bool.false_eq_true, if_false]
      exact ⟨rfl, rfl, rfl, effects_since_append _ _ _
        (List.append_assoc st.log [Effect.parser_reset] [Effect.async_read_some])⟩
    · simp only [if_true]
      exact ⟨hr.trans hat, rfl, rfl, effects_since_append _ _ _ rfl⟩

theorem C11_close_after_request_read_witness :
    (handle_read (demo_env []) (started [] 64) 0 get_root_request).m_state = processing_request
    ∧ effects_since (handle_read (demo_env []) (started [] 64) 0 get_root_request)
        (close_impl (demo_env []) (handle_read (demo_env []) (started [] 64) 0 get_root_request) 0)
      = [Effect.parser_reset, Effect.async_read_some] :=
  ⟨by decide,
    by
      have h := ((C11_close_after_request_read (demo_env [])
        (handle_read (demo_env []) (started [] 64) 0 get_root_request) (by decide)).2
          (by decide)).2.2.2.2 (by decide)
      rw [h.2.2.2.2]
      decide⟩

/-! ### C12: transport errors -/

theorem invoke_keeps_handler (env : Env P Q R H) (st : connection P Q H) (f : handler_fn)
    (err : error_code) (hf : f ≠ handler_fn.close_impl) :
    (invoke env st f err).m_handler = st.m_handler := by
  cases f with
  | empty => rfl
  | user id => rfl
  | close_impl => exact absurd rfl hf

theorem invoke_all_keeps_handler (env : Env P Q R H) (err : error_code) :
    ∀ (items : List buffer_info) (st : connection P Q H),
      (∀ it ∈ items, it.handler ≠ handler_fn.close_impl) →
      (items.foldl (fun s it => invoke env s it.handler err) st).m_handler = st.m_handler := by
  intro items
  induction items with
  | nil => intro st _; rfl
  | cons it rest ih =>
    intro st h
    simp only [List.foldl_cons]
    rw [ih _ (fun x hx => h x (List.mem_cons_of_mem _ hx)),
      invoke_keeps_handler env st it.handler err (h it (List.mem_cons_self _ _))]

theorem closes_invoke_logs (id : Nat) (err : error_code) (items : List buffer_info) :
    closes id ((items.map (fun it => invoke_log it.handler err)).flatten) = [] := by
  induction items with
  | nil => rfl
  | cons it rest ih =>
    simp only [List.map_cons, List.flatten_cons, closes_append, ih, List.append_nil]
    cases it.handler <;> simp [invoke_log, closes]

/-- The log of `write_finished` on an error: the completions of the current
and of the pending items, the notification of the handler still attached
after them, the shutdown. -/
theorem write_finished_error_steps (env : Env P Q R H) (st : connection P Q H)
    (err : error_code) (n : Nat) (herr : err ≠ 0) :
    (write_finished env st err n).m_handler = none
    ∧ ∃ h3 : Option (Nat × H),
        (write_finished env st err n).log
            = st.log
              ++ (((st.m_outgoing_info :: st.m_outgoing).map
                    (fun it => invoke_log it.handler err)).flatten
                  ++ notify_log h3 err ++ [Effect.shutdown])
        ∧ ((∀ it ∈ st.m_outgoing_info :: st.m_outgoing, it.handler ≠ handler_fn.close_impl) →
            h3 = st.m_handler) := by
  unfold write_finished
  simp only [herr, ne_eq, not_false_eq_true, if_true]
  have h1 := invoke_error env { st with m_outgoing := [] } st.m_outgoing_info.handler err herr
  have h2 := invoke_all_error env err herr st.m_outgoing
    (invoke env { st with m_outgoing := [] } st.m_outgoing_info.handler err)
  have hk : (∀ it ∈ st.m_outgoing_info :: st.m_outgoing, it.handler ≠ handler_fn.close_impl) →
      (st.m_outgoing.foldl (fun s it => invoke env s it.handler err)
        (invoke env { st with m_outgoing := [] } st.m_outgoing_info.handler err)).m_handler
        = st.m_handler := by
    intro h
    rw [invoke_all_keeps_handler env err _ _ (fun x hx => h x (List.mem_cons_of_mem _ hx)),
      invoke_keeps_handler env _ _ err (h _ (List.mem_cons_self _ _))]
  generalize hst3 : (st.m_outgoing.foldl (fun s it => invoke env s it.handler err)
      (invoke env { st with m_outgoing := [] } st.m_outgoing_info.handler err)) = st3 at h2 hk
  have hlog3 : st3.log = st.log ++ ((st.m_outgoing_info :: st.m_outgoing).map
      (fun it => invoke_log it.handler err)).flatten := by
    rw [h2.1, h1.1]; simp
  refine ⟨(close_impl_error env _ err herr).2.2.2, st3.m_handler, ?_, hk⟩
  rw [(close_impl_error env _ err herr).1]
  cases hh : st3.m_handler with
  | none => simp [notify_log, hlog3]
  | some p =>
    obtain ⟨id, hd⟩ := p
    simp [notify_log, emit, hlog3]

theorem handle_read_error (env : Env P Q R H) (st : connection P Q H) (err : error_code)
    (data : List Byte) (herr : err ≠ 0) :
    (handle_read env st err data).m_handler = none
    ∧ (handle_read env st err data).log = st.log ++ notify_log st.m_handler err
    ∧ (handle_read env st err data).m_at_read = false
    ∧ (handle_read env st err data).m_sending = st.m_sending := by
  unfold handle_read
  rw [if_pos herr]
  have hh : (read_done st data).m_handler = st.m_handler := rfl
  rw [hh]
  cases h : st.m_handler with
  | none => simp [notify_log, read_done]
  | some p =>
    obtain ⟨id, hd⟩ := p
    simp [notify_log, emit, read_done]

/-- C12 (fails as stated): a request with a body has been read up to its
header and its handler is attached; the outstanding read completes with error
5.  The handler is told and dropped, but the socket is not shut down. -/
theorem C12_read_error_without_shutdown :
    effects_since post_header_read (handle_read (demo_env []) post_header_read 5 [])
      = [Effect.on_close 0 5]
    ∧ Effect.shutdown ∉ (handle_read (demo_env []) post_header_read 5 []).log := by
  decide

/-- C12 (amended): on a read error `handle_read` tells the attached handler
(if any) the error and drops it, and does nothing else: no shutdown, no read,
no write.  On a write error `write_finished` runs the queued completions,
drops the handler, shuts the socket down as its last effect and issues no read
and no write; the handler attached before the step is told the error, once,
when none of the queued completions is the bound `close_impl` of a stock
reply. -/
theorem C12_transport_error (env : Env P Q R H) (st : connection P Q H) (err : error_code)
    (herr : err ≠ 0) :
    (∀ data,
      (handle_read env st err data).m_handler = none
      ∧ effects_since st (handle_read env st err data) = notify_log st.m_handler err)
    ∧ (∀ n,
      (write_finished env st err n).m_handler = none
      ∧ (∃ before, effects_since st (write_finished env st err n) = before ++ [Effect.shutdown])
      ∧ (∀ bufs, Effect.async_write_some bufs ∉ effects_since st (write_finished env st err n))
      ∧ Effect.async_read_some ∉ effects_since st (write_finished env st err n)
      ∧ (∀ id hd, st.m_handler = some (id, hd) →
          (∀ it ∈ st.m_outgoing_info :: st.m_outgoing, it.handler ≠ handler_fn.close_impl) →
          closes id (effects_since st (write_finished env st err n)) = [err])) := by
  refine ⟨fun data => ?_, fun n => ?_⟩
  · obtain ⟨h1, h2, _, _⟩ := handle_read_error env st err data herr
    exact ⟨h1, effects_since_append _ _ _ h2⟩
  · obtain ⟨hnone, h3, hlog, hk⟩ := write_finished_error_steps env st err n herr
    rw [effects_since_append st _ _ hlog]
    have hno : ∀ (f : handler_fn) (x : Effect), x ∈ invoke_log f err →
        (∃ g, x = Effect.invoke g err) ∨ x = Effect.shutdown := by
      intro f x hx
      cases f <;> simp [invoke_log] at hx
      · exact Or.inl ⟨_, hx⟩
      · rcases hx with hx | hx
        · exact Or.inl ⟨_, hx⟩
        · exact Or.inr hx
    have hmem : ∀ x, x ∈ ((st.m_outgoing_info :: st.m_outgoing).map
        (fun it => invoke_log it.handler err)).flatten ++ notify_log h3 err ++ [Effect.shutdown] →
        (∃ g, x = Effect.invoke g err) ∨ x = Effect.shutdown
          ∨ ∃ id, x = Effect.on_close id err := by
      intro x hx
      simp only [List.mem_append, List.mem_flatten, List.mem_map, List.mem_singleton] at hx
      rcases hx with (⟨l, ⟨it, _, rfl⟩, hx⟩ | hx) | hx
      · rcases hno _ _ hx with h | h
        · exact Or.inl h
        · exact Or.inr (Or.inl h)
      · cases h3 with
        | none => simp [notify_log] at hx
        | some p =>
          obtain ⟨id, hd⟩ := p
          simp [notify_log] at hx
          exact Or.inr (Or.inr ⟨id, hx⟩)
      · exact Or.inr (Or.inl hx)
    refine ⟨hnone, ⟨_, rfl⟩, fun bufs hin => ?_, fun hin => ?_, fun id hd hatt hq => ?_⟩
    · rcases hmem _ hin with ⟨g, h⟩ | h | ⟨id, h⟩ <;> cases h
    · rcases hmem _ hin with ⟨g, h⟩ | h | ⟨id, h⟩ <;> cases h
    · rw [hk hq, hatt, closes_append, closes_append, closes_invoke_logs]
      simp [notify_log, closes]

theorem C12_transport_error_witness :
    (5 : error_code) ≠ 0
    ∧ effects_since post_header_read (handle_read (demo_env []) post_header_read 5 [1])
        = [Effect.on_close 0 5]
    ∧ (write_finished (demo_env []) busy_queue 5 0).m_handler = none :=
  ⟨by decide,
    ((C12_transport_error (demo_env []) post_header_read 5 (by decide)).1 [1]).2.trans
      (by decide),
    ((C12_transport_error (demo_env []) busy_queue 5 (by decide)).2 0).1⟩

/-! ### C13: advancing the current item after a partial write -/

/-- C13 (fails on the code): the current item has the ranges `[1,2]` and
`[3,4]` (4 bytes) and the write completes with success and `n = 1`.  The loop
of `write_finished` takes one byte off each range: the ranges become `[2]` and
`[4]`, the second range is changed although the first is not fully covered,
the concatenation is `2 4` instead of `2 3 4`, and the total size went from 4
to 2 instead of 3.  The next write is issued on these ranges. -/
theorem C13_partial_write_advances_every_range :
    split_item.m_outgoing_info.buffer = [[1, 2], [3, 4]]
    ∧ 1 ≤ buffer_size split_item.m_outgoing_info.buffer
    ∧ (write_finished (demo_env []) split_item 0 1).m_outgoing_info.buffer = [[2], [4]]
    ∧ (write_finished (demo_env []) split_item 0 1).m_outgoing_info.buffer.flatten
        ≠ (split_item.m_outgoing_info.buffer.flatten).drop 1
    ∧ buffer_size (write_finished (demo_env []) split_item 0 1).m_outgoing_info.buffer
        ≠ buffer_size split_item.m_outgoing_info.buffer - 1
    ∧ effects_since split_item (write_finished (demo_env []) split_item 0 1)
        = [Effect.async_write_some [[2], [4]]] := by
  decide

/-! ### C14: one read and one write at a time -/

theorem reads_issued_append (a b : List Effect) :
    reads_issued (a ++ b) = reads_issued a + reads_issued b := by
  simp [reads_issued, List.filter_append]

theorem writes_issued_append (a b : List Effect) :
    writes_issued (a ++ b) = writes_issued a + writes_issued b := by
  simp [writes_issued, List.filter_append]

theorem balanced_refl (st : connection P Q H) : balanced st st :=
  ⟨rfl, fun h => h, rfl, fun h => h⟩

theorem balanced_trans {a b c : connection P Q H} (h1 : balanced a b) (h2 : balanced b c) :
    balanced a c := by
  obtain ⟨r1, f1, w1, g1⟩ := h1
  obtain ⟨r2, f2, w2, g2⟩ := h2
  exact ⟨by omega, fun h => f2 (f1 h), by omega, fun h => g2 (g1 h)⟩

/-- A step that issues nothing and leaves both flags alone. -/
theorem balanced_quiet {st st1 : connection P Q H} (new : List Effect)
    (hlog : st1.log = st.log ++ new) (hr : reads_issued new = 0) (hw : writes_issued new = 0)
    (h1 : st1.m_at_read = st.m_at_read) (h2 : st1.m_sending = st.m_sending) :
    balanced st st1 := by
  refine ⟨?_, fun h => by rw [h1]; exact h, ?_, fun h => by rw [h2]; exact h⟩
  · rw [hlog, reads_issued_append, hr, h1]; omega
  · rw [hlog, writes_issued_append, hw, h2]; omega

theorem balanced_async_read (st : connection P Q H) : balanced st (async_read st) := by
  unfold async_read
  split_ifs with h
  · exact balanced_refl st
  · have h0 : st.m_at_read = false := by simpa using h
    refine ⟨?_, fun h1 => rfl, ?_, fun h1 => h1⟩
    · show reads_issued (st.log ++ [Effect.async_read_some]) + _ = _
      rw [reads_issued_append, h0]
      simp [reads_issued, emit]
    · show writes_issued (st.log ++ [Effect.async_read_some]) + _ = _
      rw [writes_issued_append]
      simp [writes_issued, emit]

theorem balanced_send_impl (st : connection P Q H) (info : buffer_info) :
    balanced st (send_impl st info) := by
  unfold send_impl
  split_ifs with h
  · exact balanced_quiet [] (by simp) rfl rfl rfl rfl
  · have h0 : st.m_sending = false := by simpa using h
    refine ⟨?_, fun h1 => h1, ?_, fun h1 => rfl⟩
    · show reads_issued (st.log ++ [Effect.async_write_some info.buffer]) + _ = _
      rw [reads_issued_append]
      simp [reads_issued, emit]
    · show writes_issued (st.log ++ [Effect.async_write_some info.buffer]) + _ = _
      rw [writes_issued_append, h0]
      simp [writes_issued, emit]

theorem balanced_send_error (env : Env P Q R H) (st : connection P Q H) (t : status_type) :
    balanced st (send_error env st t) := by
  unfold send_error send_headers
  exact balanced_send_impl _ _

theorem balanced_parse_headers (env : Env P Q R H) (st : connection P Q H) (b e : Nat) :
    balanced st (parse_headers env st b e).2.2 :=
  balanced_quiet [Effect.parse (slice st.m_buffer b e)] rfl rfl rfl rfl rfl

theorem balanced_attach_handler (env : Env P Q R H) (st : connection P Q H) (h : H) :
    balanced st (attach_handler env st h) :=
  balanced_quiet [Effect.create st.handlers_created, Effect.on_headers st.handlers_created]
    rfl rfl rfl rfl rfl

theorem balanced_deliver (env : Env P Q R H) (st : connection P Q H) (b e : Nat) :
    balanced st (deliver env st b e).2.2 := by
  unfold deliver
  dsimp only
  split
  · split_ifs
    · exact balanced_quiet [_] rfl rfl rfl rfl rfl
    · exact balanced_quiet [] (by simp) rfl rfl rfl rfl
  · exact balanced_quiet [] (by simp) rfl rfl rfl rfl

theorem balanced_finish_body (st : connection P Q H) (nb e : Nat) :
    balanced st (finish_body st nb e) := by
  unfold finish_body
  dsimp only
  split
  · exact balanced_quiet [_] rfl rfl rfl rfl rfl
  · exact balanced_quiet [] (by simp) rfl rfl rfl rfl

theorem balanced_process_next_with (env : Env P Q R H)
    (self : connection P Q H → Nat → Nat → Option (connection P Q H))
    (hself : ∀ s b e r, self s b e = some r → balanced s r)
    (st r : connection P Q H) (h : process_next_with env self st = some r) : balanced st r := by
  unfold process_next_with at h
  dsimp only at h
  have h0 : balanced st
      { (emit { st with m_state := read_headers, m_request_parser_state := env.parser_initial }
          Effect.parser_reset) with m_request := env.new_request } :=
    balanced_quiet [Effect.parser_reset] rfl rfl rfl rfl rfl
  split_ifs at h
  · exact balanced_trans h0 (hself _ _ _ _ h)
  · cases h
    exact balanced_trans h0 (balanced_async_read _)

theorem balanced_process_data_body (env : Env P Q R H)
    (self : connection P Q H → Nat → Nat → Option (connection P Q H))
    (hself : ∀ s b e r, self s b e = some r → balanced s r)
    (st : connection P Q H) (b e : Nat) (r : connection P Q H)
    (h : process_data_body env self st b e = some r) : balanced st r := by
  unfold process_data_body at h
  split_ifs at h with h1 h2
  · have hp := balanced_parse_headers env st b e
    split at h
    · rename_i k st1 heq
      rw [heq] at hp
      cases h
      exact balanced_trans hp (balanced_send_error env _ _)
    · rename_i k st1 heq
      rw [heq] at hp
      split at h
      · cases h
        exact balanced_trans hp (balanced_send_error env _ _)
      · exact balanced_trans hp
          (balanced_trans (balanced_attach_handler env _ _) (hself _ _ _ _ h))
    · rename_i k st1 heq
      rw [heq] at hp
      cases h
      exact balanced_trans hp (balanced_async_read _)
  · dsimp only at h
    have hd := balanced_deliver env st b e
    split_ifs at h with h3 h4 h5
    · cases h
      exact balanced_trans hd (balanced_quiet [] (by simp) rfl rfl rfl rfl)
    · cases h
      exact balanced_trans hd (balanced_async_read _)
    · exact balanced_trans hd (balanced_trans (balanced_finish_body _ _ _)
        (balanced_process_next_with env self hself _ _ h))
    · cases h
      exact balanced_trans hd (balanced_finish_body _ _ _)
  · cases h
    exact balanced_refl st

theorem balanced_process_data_fuel (env : Env P Q R H) :
    ∀ (n : Nat) (st : connection P Q H) (b e : Nat) (r : connection P Q H),
      process_data_fuel env n st b e = some r → balanced st r := by
  intro n
  induction n with
  | zero => intro st b e r h; simp [process_data_fuel] at h
  | succ n ih =>
    intro st b e r h
    exact balanced_process_data_body env _ ih st b e r h

theorem balanced_process_data (env : Env P Q R H) (st : connection P Q H) (b e : Nat) :
    balanced st (process_data env st b e) :=
  balanced_process_data_fuel env _ st b e _ (process_data_fuel_total env _ (le_refl _) st b e)

theorem balanced_process_next (env : Env P Q R H) (st : connection P Q H) :
    balanced st (process_next env st) :=
  balanced_process_next_with env _
    (fun s b e r h => by cases h; exact balanced_process_data env s b e)
    st _ (process_next_eq env st)

theorem balanced_close_impl (env : Env P Q R H) (st : connection P Q H) (err : error_code) :
    balanced st (close_impl env st err) := by
  have hd : balanced st (drop_handler st) := balanced_quiet [] (by simp [drop_handler]) rfl rfl rfl rfl
  unfold close_impl
  split_ifs
  · exact balanced_trans hd (balanced_quiet [Effect.shutdown] rfl rfl rfl rfl rfl)
  · exact balanced_trans hd (balanced_quiet [] (by simp) rfl rfl rfl rfl)
  · exact balanced_trans hd (balanced_quiet [Effect.shutdown] rfl rfl rfl rfl rfl)
  · exact balanced_trans hd (balanced_process_next env _)

theorem balanced_want_more_impl (env : Env P Q R H) (st : connection P Q H) :
    balanced st (want_more_impl env st) := by
  unfold want_more_impl
  split_ifs
  · exact balanced_process_data env _ _ _
  · exact balanced_async_read _

theorem balanced_send_all (items : List buffer_info) :
    ∀ st : connection P Q H, balanced st (items.foldl send_impl st) := by
  induction items with
  | nil => intro st; exact balanced_refl st
  | cons it rest ih =>
    intro st
    exact balanced_trans (balanced_send_impl st it) (ih _)

theorem balanced_invoke_cb (env : Env P Q R H) (sends : connection P Q H → Nat → error_code → List buffer_info)
    (st : connection P Q H) (f : handler_fn) (err : error_code) :
    balanced st (invoke_cb env sends st f err) := by
  cases f with
  | empty => exact balanced_refl st
  | user id =>
    have h1 : balanced st (emit st (Effect.invoke (handler_fn.user id) err)) :=
      balanced_quiet [Effect.invoke (handler_fn.user id) err] rfl rfl rfl rfl rfl
    exact balanced_trans h1 (balanced_send_all (sends st id err) _)
  | close_impl =>
    have h1 : balanced st (emit st (Effect.invoke handler_fn.close_impl err)) :=
      balanced_quiet [Effect.invoke handler_fn.close_impl err] rfl rfl rfl rfl rfl
    exact balanced_trans h1 (balanced_close_impl env _ err)

theorem balanced_invoke_cb_all (env : Env P Q R H) (sends : connection P Q H → Nat → error_code → List buffer_info)
    (err : error_code) :
    ∀ (items : List buffer_info) (st : connection P Q H),
      balanced st (items.foldl (fun s it => invoke_cb env sends s it.handler err) st) := by
  intro items
  induction items with
  | nil => intro st; exact balanced_refl st
  | cons it rest ih =>
    intro st
    exact balanced_trans (balanced_invoke_cb env sends st it.handler err) (ih _)

theorem invoke_cb_nothing (env : Env P Q R H) (st : connection P Q H) (f : handler_fn)
    (err : error_code) : invoke_cb env (fun _ _ _ => []) st f err = invoke env st f err := by
  cases f <;> rfl

/-- With callbacks that enqueue nothing, `write_finished_cb` is `write_finished`. -/
theorem write_finished_cb_nothing (env : Env P Q R H) (st : connection P Q H) (err : error_code)
    (n : Nat) : write_finished_cb env (fun _ _ _ => []) st err n = write_finished env st err n := by
  have hi : invoke_cb env (fun _ _ _ => []) = invoke env := by
    funext s f e
    exact invoke_cb_nothing env s f e
  unfold write_finished_cb write_finished
  rw [hi]

theorem balanced_sending {st r : connection P Q H} (h : balanced st r)
    (hs : st.m_sending = true) :
    writes_issued r.log = writes_issued st.log ∧ r.m_sending = true := by
  obtain ⟨_, _, w, g⟩ := h
  have hr := g hs
  rw [hr, hs] at w
  exact ⟨by simpa using w, hr⟩

theorem write_completion_of {st mid r : connection P Q H} (new : List Effect)
    (hs : st.m_sending = true) (hb : balanced st mid)
    (hat : r.m_at_read = mid.m_at_read) (hlog : r.log = mid.log ++ new)
    (hr : reads_issued new = 0)
    (hw : writes_issued new = 0 ∨ (writes_issued new = 1 ∧ r.m_sending = true)) :
    reads_issued r.log + (if st.m_at_read then 1 else 0)
        = reads_issued st.log + (if r.m_at_read then 1 else 0)
    ∧ writes_issued st.log ≤ writes_issued r.log
    ∧ writes_issued r.log ≤ writes_issued st.log + (if r.m_sending then 1 else 0) := by
  obtain ⟨hw1, _⟩ := balanced_sending hb hs
  obtain ⟨hr1, _, _, _⟩ := hb
  rw [hlog, reads_issued_append, writes_issued_append, hr, hat, hw1]
  refine ⟨by omega, by omega, ?_⟩
  rcases hw with hw | ⟨hw, hsend⟩
  · rw [hw]; omega
  · rw [hw, hsend]; simp

/-- A write completion, delivered while `m_sending` is set, issues at most one
write, and none when it leaves `m_sending` cleared. -/
theorem write_finished_cb_issues (env : Env P Q R H)
    (sends : connection P Q H → Nat → error_code → List buffer_info) (st : connection P Q H) (err : error_code)
    (n : Nat) (hs : st.m_sending = true) :
    reads_issued (write_finished_cb env sends st err n).log + (if st.m_at_read then 1 else 0)
        = reads_issued st.log
          + (if (write_finished_cb env sends st err n).m_at_read then 1 else 0)
    ∧ writes_issued st.log ≤ writes_issued (write_finished_cb env sends st err n).log
    ∧ writes_issued (write_finished_cb env sends st err n).log
        ≤ writes_issued st.log
          + (if (write_finished_cb env sends st err n).m_sending then 1 else 0) := by
  generalize hr : write_finished_cb env sends st err n = r
  unfold write_finished_cb at hr
  dsimp only at hr
  split_ifs at hr with herr hsize
  · rw [← hr]
    refine write_completion_of [] hs ?_ rfl (by simp) rfl (Or.inl rfl)
    have h1 : balanced st { st with m_outgoing := [] } :=
      balanced_quiet [] (by simp) rfl rfl rfl rfl
    have h2 := balanced_invoke_cb env sends { st with m_outgoing := [] }
      st.m_outgoing_info.handler err
    have h3 := balanced_invoke_cb_all env sends err st.m_outgoing
      (invoke_cb env sends { st with m_outgoing := [] } st.m_outgoing_info.handler err)
    refine balanced_trans (balanced_trans h1 (balanced_trans h2 h3))
      (balanced_trans ?_ (balanced_close_impl env _ err))
    split
    · exact balanced_quiet [_] rfl rfl rfl rfl rfl
    · exact balanced_refl _
  · rw [← hr]
    exact write_completion_of [Effect.async_write_some (advance n st.m_outgoing_info.buffer)]
      hs (balanced_refl st) rfl rfl rfl (Or.inr ⟨rfl, hs⟩)
  · have h1 : balanced st { st with m_outgoing_info :=
        { st.m_outgoing_info with buffer := advance n st.m_outgoing_info.buffer } } :=
      balanced_quiet [] (by simp) rfl rfl rfl rfl
    have h2 := balanced_trans h1 (balanced_invoke_cb env sends _ st.m_outgoing_info.handler err)
    split at hr
    · rw [← hr]
      exact write_completion_of [] hs h2 rfl (by simp) rfl (Or.inl rfl)
    · rename_i front rest heq
      rw [← hr]
      exact write_completion_of [Effect.async_write_some front.buffer] hs h2 rfl rfl rfl
        (Or.inr ⟨rfl, (balanced_sending h2 hs).2⟩)

theorem handle_read_issues (env : Env P Q R H) (st : connection P Q H) (err : error_code)
    (data : List Byte) :
    reads_issued (handle_read env st err data).log
        = reads_issued st.log + (if (handle_read env st err data).m_at_read then 1 else 0)
    ∧ writes_issued (handle_read env st err data).log + (if st.m_sending then 1 else 0)
        = writes_issued st.log + (if (handle_read env st err data).m_sending then 1 else 0)
    ∧ (st.m_sending = true → (handle_read env st err data).m_sending = true) := by
  by_cases herr : err = 0
  · have hv : handle_read env st err data = process_data env (read_done st data) 0 data.length := by
      unfold handle_read
      rw [if_neg (not_not.mpr herr)]
    rw [hv]
    obtain ⟨r, _, w, g⟩ := balanced_process_data env (read_done st data) 0 data.length
    have h1 : (read_done st data).log = st.log := rfl
    have h2 : (read_done st data).m_at_read = false := rfl
    have h3 : (read_done st data).m_sending = st.m_sending := rfl
    rw [h1, h2] at r
    rw [h1, h3] at w
    rw [h3] at g
    exact ⟨by simpa using r, w, g⟩
  · obtain ⟨_, hlog, hat, hsend⟩ := handle_read_error env st err data herr
    have hn : reads_issued (notify_log st.m_handler err) = 0
        ∧ writes_issued (notify_log st.m_handler err) = 0 := by
      cases st.m_handler with
      | none => exact ⟨rfl, rfl⟩
      | some p => exact ⟨rfl, rfl⟩
    rw [hlog, hat, hsend, reads_issued_append, writes_issued_append, hn.1, hn.2]
    exact ⟨by simp, rfl, fun h => h⟩

theorem flag_le_one (b : Bool) : (if b = true then 1 else 0) ≤ 1 := by
  cases b <;> simp

theorem wire_inv_balanced {st st1 : connection P Q H} {rc wc : Nat}
    (hinv : wire_inv ⟨st, rc, wc⟩) (hb : balanced st st1) : wire_inv ⟨st1, rc, wc⟩ := by
  obtain ⟨i1, i2, i3⟩ := hinv
  obtain ⟨r, f, w, g⟩ := hb
  dsimp only at i1 i2 i3
  refine ⟨?_, ?_, ?_⟩
  · show reads_issued st1.log = rc + (if st1.m_at_read then 1 else 0)
    omega
  · show wc ≤ writes_issued st1.log
    by_cases hs : st.m_sending = true
    · rw [g hs, hs] at w
      omega
    · have h0 : st.m_sending = false := by simpa using hs
      rw [h0] at w
      simp only [Bool.false_eq_true, if_false] at w
      omega
  · show writes_issued st1.log ≤ wc + (if st1.m_sending then 1 else 0)
    omega

theorem wire_inv_step (env : Env P Q R H) (sends : connection P Q H → Nat → error_code → List buffer_info)
    (w w1 : wire P Q H) (ev : Event R) (hinv : wire_inv w)
    (h : wire_step env sends w ev = some w1) : wire_inv w1 := by
  obtain ⟨st, rc, wc⟩ := w
  cases ev with
  | handle_read err data =>
    simp only [wire_step] at h
    split_ifs at h with h0
    cases h
    obtain ⟨i1, i2, i3⟩ := hinv
    dsimp only [reads_outstanding] at i1 i2 i3 h0
    obtain ⟨r, w, g⟩ := handle_read_issues env st err data
    have hat : st.m_at_read = true := by
      by_contra hc
      have h1 : st.m_at_read = false := by simpa using hc
      rw [h1] at i1
      simp at i1
      omega
    rw [hat] at i1
    simp only [if_true] at i1
    refine ⟨?_, ?_, ?_⟩
    · show reads_issued (handle_read env st err data).log
        = rc + 1 + (if (handle_read env st err data).m_at_read then 1 else 0)
      omega
    · show wc ≤ writes_issued (handle_read env st err data).log
      by_cases hs : st.m_sending = true
      · rw [g hs, hs] at w
        omega
      · have h0 : st.m_sending = false := by simpa using hs
        rw [h0] at w
        simp only [Bool.false_eq_true, if_false] at w
        omega
    · show writes_issued (handle_read env st err data).log
        ≤ wc + (if (handle_read env st err data).m_sending then 1 else 0)
      omega
  | write_finished err n =>
    simp only [wire_step] at h
    split_ifs at h with h0
    cases h
    obtain ⟨i1, i2, i3⟩ := hinv
    dsimp only [writes_outstanding] at i1 i2 i3 h0
    have hs : st.m_sending = true := by
      by_contra hc
      have h1 : st.m_sending = false := by simpa using hc
      rw [h1] at i3
      simp at i3
      omega
    obtain ⟨r, w1, w2⟩ := write_finished_cb_issues env sends st err n hs
    rw [hs] at i3
    simp only [if_true] at i3
    refine ⟨?_, ?_, ?_⟩
    · show reads_issued (write_finished_cb env sends st err n).log
        = rc + (if (write_finished_cb env sends st err n).m_at_read then 1 else 0)
      omega
    · show wc + 1 ≤ writes_issued (write_finished_cb env sends st err n).log
      omega
    · show writes_issued (write_finished_cb env sends st err n).log
        ≤ wc + 1 + (if (write_finished_cb env sends st err n).m_sending then 1 else 0)
      omega
  | send_headers rep content handler =>
    simp only [wire_step] at h
    cases h
    exact wire_inv_balanced hinv (by unfold send_headers; exact balanced_send_impl _ _)
  | send_data buffer handler =>
    simp only [wire_step] at h
    cases h
    exact wire_inv_balanced hinv (by unfold send_data; exact balanced_send_impl _ _)
  | want_more_impl =>
    simp only [wire_step] at h
    cases h
    exact wire_inv_balanced hinv (balanced_want_more_impl env _)
  | close_impl err =>
    simp only [wire_step] at h
    cases h
    exact wire_inv_balanced hinv (balanced_close_impl env _ err)

theorem wire_inv_run (env : Env P Q R H) (sends : connection P Q H → Nat → error_code → List buffer_info) :
    ∀ (evs : List (Event R)) (w w1 : wire P Q H), wire_inv w →
      wire_run env sends w evs = some w1 → wire_inv w1 := by
  intro evs
  induction evs with
  | nil =>
    intro w w1 hinv h
    simp only [wire_run] at h
    cases h
    exact hinv
  | cons ev rest ih =>
    intro w w1 hinv h
    simp only [wire_run] at h
    cases hstep : wire_step env sends w ev with
    | none => rw [hstep] at h; simp at h
    | some w2 =>
      rw [hstep] at h
      exact ih w2 w1 (wire_inv_step env sends w w2 ev hinv hstep) h

theorem wire_inv_start (env : Env P Q R H) (size : Nat) :
    wire_inv (⟨start (connection.init env size), 0, 0⟩ : wire P Q H) := by
  refine ⟨?_, ?_, ?_⟩ <;> simp [start, async_read, connection.init, emit, reads_issued, writes_issued]

/-- C14: start a connection and let it take any sequence of steps on its
transport: read and write completions (delivered only while the transport owes
one), enqueues, enqueues made by application callbacks from inside a write
completion, deferred `want_more` and `close` calls.  After every step at most
one read and at most one write are outstanding; a read is outstanding exactly
while `m_at_read` is set and a write only while `m_sending` is set.  Within a
step the count of outstanding operations only grows after the completion that
starts it, so the bound holds during the steps as well.  `async_read` issues
nothing while `m_at_read` is set, and `send_impl` issues nothing while
`m_sending` is set. -/
theorem C14_one_read_and_one_write (env : Env P Q R H)
    (sends : connection P Q H → Nat → error_code → List buffer_info) (size : Nat) (evs : List (Event R))
    (w : wire P Q H)
    (h : wire_run env sends ⟨start (connection.init env size), 0, 0⟩ evs = some w) :
    reads_outstanding w ≤ 1
    ∧ writes_outstanding w ≤ 1
    ∧ (reads_outstanding w = 1 ↔ w.conn.m_at_read = true)
    ∧ (writes_outstanding w = 1 → w.conn.m_sending = true)
    ∧ (∀ st : connection P Q H, st.m_at_read = true → async_read st = st)
    ∧ (∀ (st : connection P Q H) (info : buffer_info), st.m_sending = true →
        effects_since st (send_impl st info) = []) := by
  obtain ⟨i1, i2, i3⟩ := wire_inv_run env sends evs _ w (wire_inv_start env size) h
  have b1 := flag_le_one w.conn.m_at_read
  have b2 := flag_le_one w.conn.m_sending
  refine ⟨?_, ?_, ?_, ?_, ?_, ?_⟩
  · unfold reads_outstanding; omega
  · unfold writes_outstanding; omega
  · unfold reads_outstanding
    cases hat : w.conn.m_at_read
    · rw [hat] at i1
      simp only [Bool.false_eq_true, if_false] at i1
      constructor
      · intro hc; omega
      · intro hc; cases hc
    · rw [hat] at i1
      simp only [if_true] at i1
      constructor
      · intro _; rfl
      · intro _; omega
  · unfold writes_outstanding
    intro hc
    by_contra hs
    have h0 : w.conn.m_sending = false := by simpa using hs
    rw [h0] at i3
    simp only [Bool.false_eq_true, if_false] at i3
    omega
  · intro st hat
    unfold async_read
    rw [if_pos hat]
  · intro st info hs
    unfold send_impl
    rw [if_pos hs]
    exact effects_since_append _ _ _ (by simp)

theorem C14_one_read_and_one_write_witness :
    reads_outstanding
        (⟨write_finished_cb (demo_env []) (fun _ _ _ => [])
            (send_data
              (send_data (handle_read (demo_env []) (started [] 64) 0 get_root_request)
                [1, 2] (handler_fn.user 0))
              [3] (handler_fn.user 1)) 0 2, 1, 1⟩ :
          wire (List Byte) demo_request (List Nat)) ≤ 1
    ∧ writes_outstanding
        (⟨write_finished_cb (demo_env []) (fun _ _ _ => [])
            (send_data
              (send_data (handle_read (demo_env []) (started [] 64) 0 get_root_request)
                [1, 2] (handler_fn.user 0))
              [3] (handler_fn.user 1)) 0 2, 1, 1⟩ :
          wire (List Byte) demo_request (List Nat)) = 1 :=
  ⟨(C14_one_read_and_one_write (demo_env []) (fun _ _ _ => []) 64
      [Event.handle_read 0 get_root_request, Event.send_data [1, 2] (handler_fn.user 0),
        Event.send_data [3] (handler_fn.user 1), Event.write_finished 0 2] _ (by decide)).1,
    by decide⟩

/-! ### C15: the unprocessed range after the buffer is refilled -/

/-- C15 (fails on the code): after the resume has consumed the held-back bytes
and issued a new read, the unprocessed range is still the non-empty range
`[41, 43)` of the bytes `3 4` already consumed; the read that delivers `5 6 7`
at the start of the buffer leaves it there as well, outside the 3 bytes newly
delivered.  A further `want_more` then re-enters `process_data` on that range:
the handler is handed `3 4` a second time and the body count goes down by 2
for bytes that never arrived. -/
theorem C15_resume_on_consumed_bytes :
    (resumed_body.m_at_read = true
      ∧ resumed_body.m_unprocessed_begin = 41 ∧ resumed_body.m_unprocessed_end = 43
      ∧ consumed_bytes resumed_body.log = [1, 2, 3, 4])
    ∧ (refilled_body.m_at_read = true
      ∧ refilled_body.m_unprocessed_begin = 41 ∧ refilled_body.m_unprocessed_end = 43
      ∧ refilled_body.m_content_length = 3
      ∧ consumed_bytes refilled_body.log = [1, 2, 3, 4, 5, 6, 7])
    ∧ effects_since refilled_body (want_more_impl (demo_env [2]) refilled_body)
        = [Effect.on_data 0 [3, 4] 2]
    ∧ (want_more_impl (demo_env [2]) refilled_body).m_content_length = 1
    ∧ consumed_bytes (want_more_impl (demo_env [2]) refilled_body).log
        = [1, 2, 3, 4, 5, 6, 7, 3, 4] := by
  decide

/-! ### C16: when the connection is reset for the next request -/

theorem marks_append (a b : List Effect) : marks (a ++ b) = marks a ++ marks b := by
  simp [marks, List.filterMap_append]

theorem scan_append (a b : List mark) :
    ∀ g, scan g (a ++ b) = (scan g a).bind (fun g1 => scan g1 b) := by
  induction a with
  | nil => intro g; rfl
  | cons m rest ih =>
    intro g
    cases m with
    | closed => simp only [List.cons_append, scan]; exact ih true
    | reset =>
      simp only [List.cons_append, scan]
      cases g
      · rfl
      · simp only [if_true]; exact ih false

theorem unmarked_refl (st : connection P Q H) : unmarked st st := ⟨[], by simp, rfl, rfl⟩

theorem unmarked_trans {a b c : connection P Q H} (h1 : unmarked a b) (h2 : unmarked b c) :
    unmarked a c := by
  obtain ⟨n1, l1, m1, s1⟩ := h1
  obtain ⟨n2, l2, m2, s2⟩ := h2
  exact ⟨n1 ++ n2, by rw [l2, l1, List.append_assoc], by rw [marks_append, m1, m2]; rfl,
    s2.trans s1⟩

theorem quiet_of_unmarked {a b : connection P Q H} (h : unmarked a b) : quiet_or_reset a b := by
  obtain ⟨n, l, m, s⟩ := h
  exact ⟨n, l, Or.inl ⟨m, fun hb => by rw [← s]; exact hb⟩⟩

theorem quiet_or_reset_trans {a b c : connection P Q H} (h1 : quiet_or_reset a b)
    (h2 : quiet_or_reset b c) : quiet_or_reset a c := by
  obtain ⟨n1, l1, c1⟩ := h1
  obtain ⟨n2, l2, c2⟩ := h2
  refine ⟨n1 ++ n2, by rw [l2, l1, List.append_assoc], ?_⟩
  rw [marks_append]
  rcases c1 with ⟨m1, f1⟩ | ⟨m1, f1, g1⟩ <;> rcases c2 with ⟨m2, f2⟩ | ⟨m2, f2, g2⟩
  · exact Or.inl ⟨by rw [m1, m2]; rfl, fun h => f1 (f2 h)⟩
  · exact Or.inr ⟨by rw [m1, m2]; rfl, f1 f2, g2⟩
  · refine Or.inr ⟨by rw [m1, m2]; rfl, f1, ?_⟩
    by_contra hc
    exact f2 hc g1
  · exact absurd g1 f2

theorem follows_refl (st : connection P Q H) : follows st st :=
  ⟨[], by simp, fun g hg => ⟨g, rfl, hg⟩⟩

theorem follows_trans {a b c : connection P Q H} (h1 : follows a b) (h2 : follows b c) :
    follows a c := by
  obtain ⟨n1, l1, c1⟩ := h1
  obtain ⟨n2, l2, c2⟩ := h2
  refine ⟨n1 ++ n2, by rw [l2, l1, List.append_assoc], fun g hg => ?_⟩
  obtain ⟨g1, s1, k1⟩ := c1 g hg
  obtain ⟨g2, s2, k2⟩ := c2 g1 k1
  exact ⟨g2, by rw [marks_append, scan_append, s1]; exact s2, k2⟩

theorem follows_of_quiet {a b : connection P Q H} (h : quiet_or_reset a b) : follows a b := by
  obtain ⟨n, l, c⟩ := h
  refine ⟨n, l, fun g hg => ?_⟩
  rcases c with ⟨m, f⟩ | ⟨m, f, k⟩
  · exact ⟨g, by rw [m]; rfl, fun hb => hg (f hb)⟩
  · refine ⟨false, ?_, fun hb => absurd k hb⟩
    rw [m, hg f]
    rfl

/-- A step that adds unmarked effects and leaves the state word alone. -/
theorem unmarked_quiet {st st1 : connection P Q H} (new : List Effect)
    (hlog : st1.log = st.log ++ new) (hm : marks new = []) (hs : st1.m_state = st.m_state) :
    unmarked st st1 :=
  ⟨new, hlog, hm, by rw [hs]⟩

theorem unmarked_async_read (st : connection P Q H) : unmarked st (async_read st) := by
  unfold async_read
  split_ifs
  · exact unmarked_refl st
  · exact unmarked_quiet [Effect.async_read_some] rfl rfl rfl

theorem unmarked_send_impl (st : connection P Q H) (info : buffer_info) :
    unmarked st (send_impl st info) := by
  unfold send_impl
  split_ifs
  · exact unmarked_quiet [] (by simp) rfl rfl
  · exact unmarked_quiet [Effect.async_write_some info.buffer] rfl rfl rfl

theorem unmarked_send_error (env : Env P Q R H) (st : connection P Q H) (t : status_type) :
    unmarked st (send_error env st t) := by
  unfold send_error send_headers
  exact unmarked_send_impl _ _

theorem unmarked_parse_headers (env : Env P Q R H) (st : connection P Q H) (b e : Nat) :
    unmarked st (parse_headers env st b e).2.2 :=
  unmarked_quiet [Effect.parse (slice st.m_buffer b e)] rfl rfl rfl

theorem unmarked_attach_handler (env : Env P Q R H) (st : connection P Q H) (h : H) :
    unmarked st (attach_handler env st h) :=
  ⟨[Effect.create st.handlers_created, Effect.on_headers st.handlers_created], rfl, rfl,
    headers_done_request_processed st.m_state⟩

theorem unmarked_deliver (env : Env P Q R H) (st : connection P Q H) (b e : Nat) :
    unmarked st (deliver env st b e).2.2 := by
  unfold deliver
  dsimp only
  split
  · split_ifs
    · exact unmarked_quiet [_] rfl rfl rfl
    · exact unmarked_quiet [] (by simp) rfl rfl
  · exact unmarked_quiet [] (by simp) rfl rfl

theorem unmarked_finish_body (st : connection P Q H) (nb e : Nat) :
    unmarked st (finish_body st nb e) := by
  unfold finish_body
  dsimp only
  split
  · exact ⟨[_], rfl, rfl, body_done_request_processed st.m_state⟩
  · exact ⟨[], by simp, rfl, body_done_request_processed st.m_state⟩

/-- What `process_next` adds: the reset, then nothing marked, and the
response-already-closed bit is clear afterwards. -/
theorem process_next_with_marks (env : Env P Q R H)
    (self : connection P Q H → Nat → Nat → Option (connection P Q H))
    (hself : ∀ s b e r, self s b e = some r → quiet_or_reset s r)
    (st r : connection P Q H) (h : process_next_with env self st = some r) :
    ∃ rest, r.log = st.log ++ Effect.parser_reset :: rest ∧ marks rest = []
      ∧ r.m_state &&& request_processed = 0 := by
  unfold process_next_with at h
  dsimp only at h
  have key : ∀ r1 : connection P Q H,
      quiet_or_reset (next_request env st) r1 →
      ∃ rest, r1.log = st.log ++ Effect.parser_reset :: rest ∧ marks rest = []
        ∧ r1.m_state &&& request_processed = 0 := by
    intro r1 hq
    obtain ⟨new, hlog, c⟩ := hq
    have h0 : read_headers &&& request_processed = 0 := by decide
    rcases c with ⟨m, f⟩ | ⟨m, f, k⟩
    · refine ⟨new, ?_, m, ?_⟩
      · rw [hlog]
        show (st.log ++ [Effect.parser_reset]) ++ new = _
        rw [List.append_assoc]
        rfl
      · by_contra hc
        exact f hc h0
    · exact absurd h0 f
  split_ifs at h
  · exact key r (hself _ _ _ _ h)
  · cases h
    exact key _ (quiet_of_unmarked (unmarked_async_read _))

theorem quiet_or_reset_process_data_body (env : Env P Q R H)
    (self : connection P Q H → Nat → Nat → Option (connection P Q H))
    (hself : ∀ s b e r, self s b e = some r → quiet_or_reset s r)
    (st : connection P Q H) (b e : Nat) (r : connection P Q H)
    (h : process_data_body env self st b e = some r) : quiet_or_reset st r := by
  unfold process_data_body at h
  split_ifs at h with h1 h2
  · have hp := unmarked_parse_headers env st b e
    split at h
    · rename_i k st1 heq
      rw [heq] at hp
      cases h
      exact quiet_of_unmarked (unmarked_trans hp (unmarked_send_error env _ _))
    · rename_i k st1 heq
      rw [heq] at hp
      split at h
      · cases h
        exact quiet_of_unmarked (unmarked_trans hp (unmarked_send_error env _ _))
      · exact quiet_or_reset_trans
          (quiet_of_unmarked (unmarked_trans hp (unmarked_attach_handler env _ _)))
          (hself _ _ _ _ h)
    · rename_i k st1 heq
      rw [heq] at hp
      cases h
      exact quiet_of_unmarked (unmarked_trans hp (unmarked_async_read _))
  · dsimp only at h
    have hd := unmarked_deliver env st b e
    split_ifs at h with h3 h4 h5
    · cases h
      exact quiet_of_unmarked (unmarked_trans hd (unmarked_quiet [] (by simp) rfl rfl))
    · cases h
      exact quiet_of_unmarked (unmarked_trans hd (unmarked_async_read _))
    · have hf := unmarked_trans hd (unmarked_finish_body (deliver env st b e).2.2
        (b + (deliver env st b e).2.1) e)
      obtain ⟨rest, hlog, hm, hz⟩ := process_next_with_marks env self hself _ _ h
      obtain ⟨n1, l1, m1, s1⟩ := hf
      refine ⟨n1 ++ Effect.parser_reset :: rest, ?_, Or.inr ⟨?_, ?_, hz⟩⟩
      · rw [hlog, l1, List.append_assoc]
      · rw [marks_append, m1]
        show marks ([Effect.parser_reset] ++ rest) = _
        rw [marks_append, hm]
        rfl
      · rw [← s1]
        exact h5
    · cases h
      exact quiet_of_unmarked (unmarked_trans hd (unmarked_finish_body _ _ _))
  · cases h
    exact quiet_of_unmarked (unmarked_refl st)

theorem quiet_or_reset_process_data_fuel (env : Env P Q R H) :
    ∀ (n : Nat) (st : connection P Q H) (b e : Nat) (r : connection P Q H),
      process_data_fuel env n st b e = some r → quiet_or_reset st r := by
  intro n
  induction n with
  | zero => intro st b e r h; simp [process_data_fuel] at h
  | succ n ih =>
    intro st b e r h
    exact quiet_or_reset_process_data_body env _ ih st b e r h

theorem quiet_or_reset_process_data (env : Env P Q R H) (st : connection P Q H) (b e : Nat) :
    quiet_or_reset st (process_data env st b e) :=
  quiet_or_reset_process_data_fuel env _ st b e _
    (process_data_fuel_total env _ (le_refl _) st b e)

theorem process_next_marks (env : Env P Q R H) (st : connection P Q H) :
    ∃ rest, (process_next env st).log = st.log ++ Effect.parser_reset :: rest ∧ marks rest = []
      ∧ (process_next env st).m_state &&& request_processed = 0 :=
  process_next_with_marks env _
    (fun s b e r h => by cases h; exact quiet_or_reset_process_data env s b e)
    st _ (process_next_eq env st)

theorem unmarked_close_impl_error (env : Env P Q R H) (st : connection P Q H) (err : error_code)
    (herr : err ≠ 0) : unmarked st (close_impl env st err) := by
  unfold close_impl
  rw [if_pos herr]
  exact unmarked_quiet [Effect.shutdown] rfl rfl rfl

/-- What `close_impl` without error adds, read after the close itself: the
marks are in order, and the flag covers the response-already-closed bit
afterwards. -/
theorem close_impl_marks (env : Env P Q R H) (st : connection P Q H) :
    ∃ new, (close_impl env st 0).log = st.log ++ new
      ∧ ∃ g1, scan true (marks new) = some g1
        ∧ ((close_impl env st 0).m_state &&& request_processed ≠ 0 → g1 = true) := by
  unfold close_impl
  rw [if_neg (by simp)]
  split_ifs with h1 h2
  · exact ⟨[], by simp [drop_handler], true, rfl, fun _ => rfl⟩
  · exact ⟨[Effect.shutdown], rfl, true, rfl, fun _ => rfl⟩
  · obtain ⟨rest, hlog, hm, hz⟩ := process_next_marks env (drop_handler st)
    refine ⟨Effect.parser_reset :: rest, hlog, false, ?_, fun hb => absurd hz hb⟩
    show scan true (marks ([Effect.parser_reset] ++ rest)) = _
    rw [marks_append, hm]
    rfl

theorem follows_invoke (env : Env P Q R H) (st : connection P Q H) (f : handler_fn)
    (err : error_code) : follows st (invoke env st f err) := by
  cases f with
  | empty => exact follows_refl st
  | user id =>
    exact follows_of_quiet (quiet_of_unmarked
      (unmarked_quiet [Effect.invoke (handler_fn.user id) err] rfl (by simp [marks]) rfl))
  | close_impl =>
    by_cases herr : err = 0
    · subst herr
      obtain ⟨new, hlog, g1, hs, hk⟩ :=
        close_impl_marks env (emit st (Effect.invoke handler_fn.close_impl 0))
      refine ⟨Effect.invoke handler_fn.close_impl 0 :: new, ?_, fun g _ => ⟨g1, ?_, hk⟩⟩
      · show (close_impl env (emit st (Effect.invoke handler_fn.close_impl 0)) 0).log = _
        rw [hlog]
        show (st.log ++ [Effect.invoke handler_fn.close_impl 0]) ++ new = _
        rw [List.append_assoc]
        rfl
      · show scan g (marks ([Effect.invoke handler_fn.close_impl 0] ++ new)) = _
        rw [marks_append]
        exact hs
    · have h1 : unmarked st (emit st (Effect.invoke handler_fn.close_impl err)) :=
        unmarked_quiet [Effect.invoke handler_fn.close_impl err] rfl (by simp [marks, herr]) rfl
      exact follows_of_quiet (quiet_of_unmarked
        (unmarked_trans h1 (unmarked_close_impl_error env _ err herr)))

theorem follows_invoke_all (env : Env P Q R H) (err : error_code) :
    ∀ (items : List buffer_info) (st : connection P Q H),
      follows st (items.foldl (fun s it => invoke env s it.handler err) st) := by
  intro items
  induction items with
  | nil => intro st; exact follows_refl st
  | cons it rest ih =>
    intro st
    exact follows_trans (follows_invoke env st it.handler err) (ih _)

theorem follows_unmarked {a b : connection P Q H} (h : unmarked a b) : follows a b :=
  follows_of_quiet (quiet_of_unmarked h)

theorem follows_write_finished (env : Env P Q R H) (st : connection P Q H) (err : error_code)
    (n : Nat) : follows st (write_finished env st err n) := by
  generalize hr : write_finished env st err n = r
  unfold write_finished at hr
  dsimp only at hr
  split_ifs at hr with herr hsize
  · rw [← hr]
    have h1 : follows st { st with m_outgoing := [] } :=
      follows_unmarked (unmarked_quiet [] (by simp) rfl rfl)
    have h2 := follows_invoke env { st with m_outgoing := [] } st.m_outgoing_info.handler err
    have h3 := follows_invoke_all env err st.m_outgoing
      (invoke env { st with m_outgoing := [] } st.m_outgoing_info.handler err)
    refine follows_trans (follows_trans h1 (follows_trans h2 h3))
      (follows_trans ?_ (follows_unmarked (unmarked_close_impl_error env _ err herr)))
    split
    · exact follows_unmarked (unmarked_quiet [_] rfl rfl rfl)
    · exact follows_refl _
  · rw [← hr]
    exact follows_unmarked
      (unmarked_quiet [Effect.async_write_some (advance n st.m_outgoing_info.buffer)] rfl rfl rfl)
  · have h1 : follows st { st with m_outgoing_info :=
        { st.m_outgoing_info with buffer := advance n st.m_outgoing_info.buffer } } :=
      follows_unmarked (unmarked_quiet [] (by simp) rfl rfl)
    have h2 := follows_trans h1 (follows_invoke env _ st.m_outgoing_info.handler err)
    split at hr
    · rw [← hr]
      exact follows_trans h2 (follows_unmarked (unmarked_quiet [] (by simp) rfl rfl))
    · rename_i front rest heq
      rw [← hr]
      exact follows_trans h2
        (follows_unmarked (unmarked_quiet [Effect.async_write_some front.buffer] rfl rfl rfl))

theorem follows_handle_read (env : Env P Q R H) (st : connection P Q H) (err : error_code)
    (data : List Byte) : follows st (handle_read env st err data) := by
  have h0 : unmarked st (read_done st data) := unmarked_quiet [] (by simp [read_done]) rfl rfl
  unfold handle_read
  split_ifs with herr
  · split
    · exact follows_unmarked (unmarked_trans h0 (unmarked_quiet [_] rfl rfl rfl))
    · exact follows_unmarked (unmarked_trans h0 (unmarked_quiet [] (by simp) rfl rfl))
  · exact follows_trans (follows_unmarked h0)
      (follows_of_quiet (quiet_or_reset_process_data env _ _ _))

theorem follows_want_more_impl (env : Env P Q R H) (st : connection P Q H) :
    follows st (want_more_impl env st) := by
  unfold want_more_impl
  split_ifs
  · exact follows_of_quiet (quiet_or_reset_process_data env _ _ _)
  · exact follows_unmarked (unmarked_async_read _)

/-- The marks of one step are in order, and the flag covers the
response-already-closed bit afterwards. -/
theorem step_scan (env : Env P Q R H) (st : connection P Q H) (ev : Event R) (g : Bool)
    (hg : st.m_state &&& request_processed ≠ 0 → g = true) :
    ∃ g1, scan g (step_marks env st ev) = some g1
      ∧ ((step env st ev).m_state &&& request_processed ≠ 0 → g1 = true) := by
  have plain : ∀ r : connection P Q H, follows st r →
      ∃ g1, scan g ([] ++ marks (effects_since st r)) = some g1
        ∧ (r.m_state &&& request_processed ≠ 0 → g1 = true) := by
    intro r hf
    obtain ⟨new, hlog, c⟩ := hf
    rw [effects_since_append st r new hlog]
    exact c g hg
  cases ev with
  | handle_read err data => exact plain _ (follows_handle_read env st err data)
  | write_finished err n => exact plain _ (follows_write_finished env st err n)
  | send_headers rep content handler =>
    exact plain _ (follows_unmarked (by
      show unmarked st (send_headers env st rep content handler)
      unfold send_headers
      exact unmarked_send_impl _ _))
  | send_data buffer handler =>
    exact plain _ (follows_unmarked (by
      show unmarked st (send_data st buffer handler)
      unfold send_data
      exact unmarked_send_impl _ _))
  | want_more_impl => exact plain _ (follows_want_more_impl env st)
  | close_impl err =>
    by_cases herr : err = 0
    · subst herr
      obtain ⟨new, hlog, g1, hs, hk⟩ := close_impl_marks env st
      refine ⟨g1, ?_, hk⟩
      show scan g ([mark.closed] ++ marks (effects_since st (close_impl env st 0))) = _
      rw [effects_since_append st _ new hlog]
      exact hs
    · have := plain _ (follows_unmarked (unmarked_close_impl_error env st err herr))
      simpa [step_marks, step, herr] using this

theorem run_scan (env : Env P Q R H) :
    ∀ (evs : List (Event R)) (st : connection P Q H) (g : Bool),
      (st.m_state &&& request_processed ≠ 0 → g = true) →
      ∃ g1, scan g (run_marks env st evs) = some g1 := by
  intro evs
  induction evs with
  | nil => intro st g _; exact ⟨g, rfl⟩
  | cons ev rest ih =>
    intro st g hg
    obtain ⟨g1, hs, hk⟩ := step_scan env st ev g hg
    obtain ⟨g2, hs2⟩ := ih (step env st ev) g1 hk
    refine ⟨g2, ?_⟩
    show scan g (step_marks env st ev ++ run_marks env (step env st ev) rest) = _
    rw [scan_append, hs]
    exact hs2

theorem body_count_frame {st st1 : connection P Q H} (hinv : body_count_inv st)
    (hs : st1.m_state = st.m_state) (hc : st1.m_content_length = st.m_content_length) :
    body_count_inv st1 := by
  intro h
  rw [hs] at h
  rw [hc]
  exact hinv h

theorem body_count_async_read {st : connection P Q H} (hinv : body_count_inv st) :
    body_count_inv (async_read st) := by
  unfold async_read
  split_ifs
  · exact hinv
  · exact body_count_frame hinv rfl rfl

theorem body_count_send_impl {st : connection P Q H} (hinv : body_count_inv st)
    (info : buffer_info) : body_count_inv (send_impl st info) := by
  unfold send_impl
  split_ifs
  · exact body_count_frame hinv rfl rfl
  · exact body_count_frame hinv rfl rfl

theorem body_count_send_error (env : Env P Q R H) {st : connection P Q H}
    (hinv : body_count_inv st) (t : status_type) : body_count_inv (send_error env st t) := by
  unfold send_error send_headers
  exact body_count_send_impl hinv _

theorem finish_body_content_length (st : connection P Q H) (nb e : Nat) :
    (finish_body st nb e).m_content_length = st.m_content_length := by
  unfold finish_body
  dsimp only
  split <;> rfl

theorem body_count_process_next_with (env : Env P Q R H)
    (self : connection P Q H → Nat → Nat → Option (connection P Q H))
    (hself : ∀ s b e r, self s b e = some r → body_count_inv s → body_count_inv r)
    (st r : connection P Q H) (h0 : st.m_content_length = 0)
    (h : process_next_with env self st = some r) : body_count_inv r := by
  unfold process_next_with at h
  dsimp only at h
  have hn : body_count_inv (next_request env st) := fun _ => h0
  split_ifs at h
  · exact hself _ _ _ _ h hn
  · cases h
    exact body_count_async_read hn

theorem body_count_process_data_body (env : Env P Q R H)
    (self : connection P Q H → Nat → Nat → Option (connection P Q H))
    (hself : ∀ s b e r, self s b e = some r → body_count_inv s → body_count_inv r)
    (st : connection P Q H) (b e : Nat) (r : connection P Q H) (hinv : body_count_inv st)
    (h : process_data_body env self st b e = some r) : body_count_inv r := by
  unfold process_data_body at h
  split_ifs at h with h1 h2
  · have hp : body_count_inv (parse_headers env st b e).2.2 := body_count_frame hinv rfl rfl
    split at h
    · rename_i k st1 heq
      rw [heq] at hp
      cases h
      exact body_count_send_error env hp _
    · rename_i k st1 heq
      rw [heq] at hp
      split at h
      · cases h
        exact body_count_send_error env hp _
      · rename_i hd hfac
        refine hself _ _ _ _ h (fun hb => ?_)
        have hbit := headers_done_read_data st1.m_state
        have hb1 : ((st1.m_state &&& bit_not read_headers) ||| read_data) &&& read_data = 0 := hb
        omega
    · rename_i k st1 heq
      rw [heq] at hp
      cases h
      exact body_count_async_read hp
  · dsimp only at h
    have hd : body_count_inv (deliver env st b e).2.2 := by
      intro hb
      rw [deliver_state] at hb
      exact absurd hb h2
    split_ifs at h with h3 h4 h5
    · cases h
      exact body_count_frame hd rfl rfl
    · cases h
      exact body_count_async_read hd
    · refine body_count_process_next_with env self hself _ _ ?_ h
      rw [finish_body_content_length]
      omega
    · cases h
      intro _
      rw [finish_body_content_length]
      omega
  · cases h
    exact hinv

theorem body_count_process_data_fuel (env : Env P Q R H) :
    ∀ (n : Nat) (st : connection P Q H) (b e : Nat) (r : connection P Q H),
      process_data_fuel env n st b e = some r → body_count_inv st → body_count_inv r := by
  intro n
  induction n with
  | zero => intro st b e r h; simp [process_data_fuel] at h
  | succ n ih =>
    intro st b e r h hinv
    exact body_count_process_data_body env _ ih st b e r hinv h

theorem body_count_process_data (env : Env P Q R H) {st : connection P Q H}
    (hinv : body_count_inv st) (b e : Nat) : body_count_inv (process_data env st b e) :=
  body_count_process_data_fuel env _ st b e _
    (process_data_fuel_total env _ (le_refl _) st b e) hinv

theorem body_count_process_next (env : Env P Q R H) (st : connection P Q H)
    (h0 : st.m_content_length = 0) : body_count_inv (process_next env st) :=
  body_count_process_next_with env _
    (fun s b e r h hinv => by cases h; exact body_count_process_data env hinv b e)
    st _ h0 (process_next_eq env st)

theorem body_count_close_impl (env : Env P Q R H) {st : connection P Q H}
    (hinv : body_count_inv st) (err : error_code) : body_count_inv (close_impl env st err) := by
  have hd : body_count_inv (drop_handler st) := body_count_frame hinv rfl rfl
  unfold close_impl
  split_ifs with h1 h2 h3
  · exact body_count_frame hd rfl rfl
  · intro hb
    have hb1 : ((drop_handler st).m_state ||| request_processed) &&& read_data = 0 := hb
    rw [closed_read_data] at hb1
    exact hd hb1
  · exact body_count_frame hd rfl rfl
  · refine body_count_process_next env _ (hd ?_)
    have hz : (drop_handler st).m_state = processing_request := not_not.mp h2
    rw [hz]
    decide

theorem body_count_invoke (env : Env P Q R H) {st : connection P Q H}
    (hinv : body_count_inv st) (f : handler_fn) (err : error_code) :
    body_count_inv (invoke env st f err) := by
  cases f with
  | empty => exact hinv
  | user id => exact body_count_frame hinv rfl rfl
  | close_impl =>
    have h1 : body_count_inv (emit st (Effect.invoke handler_fn.close_impl err)) :=
      body_count_frame hinv rfl rfl
    exact body_count_close_impl env h1 err

theorem body_count_invoke_all (env : Env P Q R H) (err : error_code) :
    ∀ (items : List buffer_info) (st : connection P Q H), body_count_inv st →
      body_count_inv (items.foldl (fun s it => invoke env s it.handler err) st) := by
  intro items
  induction items with
  | nil => intro st h; exact h
  | cons it rest ih =>
    intro st h
    exact ih _ (body_count_invoke env h it.handler err)

theorem body_count_write_finished (env : Env P Q R H) {st : connection P Q H}
    (hinv : body_count_inv st) (err : error_code) (n : Nat) :
    body_count_inv (write_finished env st err n) := by
  generalize hr : write_finished env st err n = r
  unfold write_finished at hr
  dsimp only at hr
  split_ifs at hr with herr hsize
  · rw [← hr]
    have h1 : body_count_inv ({ st with m_outgoing := [] } : connection P Q H) :=
      body_count_frame hinv rfl rfl
    have h3 := body_count_invoke_all env err st.m_outgoing _
      (body_count_invoke env h1 st.m_outgoing_info.handler err)
    refine body_count_close_impl env ?_ err
    split
    · exact body_count_frame h3 rfl rfl
    · exact h3
  · rw [← hr]
    exact body_count_frame hinv rfl rfl
  · have h1 : body_count_inv ({ st with m_outgoing_info :=
        { st.m_outgoing_info with buffer := advance n st.m_outgoing_info.buffer } } :
          connection P Q H) :=
      body_count_frame hinv rfl rfl
    have h2 := body_count_invoke env h1 st.m_outgoing_info.handler err
    split at hr
    · rw [← hr]
      exact body_count_frame h2 rfl rfl
    · rw [← hr]
      exact body_count_frame h2 rfl rfl

theorem body_count_handle_read (env : Env P Q R H) {st : connection P Q H}
    (hinv : body_count_inv st) (err : error_code) (data : List Byte) :
    body_count_inv (handle_read env st err data) := by
  have h0 : body_count_inv (read_done st data) := body_count_frame hinv rfl rfl
  unfold handle_read
  split_ifs with herr
  · split
    · exact body_count_frame h0 rfl rfl
    · exact body_count_frame h0 rfl rfl
  · exact body_count_process_data env h0 _ _

theorem body_count_step (env : Env P Q R H) {st : connection P Q H}
    (hinv : body_count_inv st) (ev : Event R) : body_count_inv (step env st ev) := by
  cases ev with
  | handle_read err data => exact body_count_handle_read env hinv err data
  | write_finished err n => exact body_count_write_finished env hinv err n
  | send_headers rep content handler =>
    show body_count_inv (send_headers env st rep content handler)
    unfold send_headers
    exact body_count_send_impl hinv _
  | send_data buffer handler =>
    show body_count_inv (send_data st buffer handler)
    unfold send_data
    exact body_count_send_impl hinv _
  | want_more_impl =>
    show body_count_inv (want_more_impl env st)
    unfold want_more_impl
    split_ifs
    · exact body_count_process_data env hinv _ _
    · exact body_count_async_read hinv
  | close_impl err => exact body_count_close_impl env hinv err

theorem body_count_run (env : Env P Q R H) (evs : List (Event R)) :
    ∀ st : connection P Q H, body_count_inv st → body_count_inv (run env st evs) := by
  induction evs with
  | nil => intro st h; exact h
  | cons ev rest ih => intro st h; exact ih _ (body_count_step env h ev)

theorem body_count_started (env : Env P Q R H) (size : Nat) :
    body_count_inv (start (connection.init env size)) := by
  unfold start
  exact body_count_async_read (fun _ => rfl)

theorem reset_mem_marks (l : List Effect) (h : Effect.parser_reset ∈ l) :
    mark.reset ∈ marks l := by
  unfold marks
  rw [List.mem_filterMap]
  exact ⟨_, h, rfl⟩

theorem no_reset_of_unmarked {st r : connection P Q H} (h : unmarked st r) :
    Effect.parser_reset ∉ effects_since st r := by
  obtain ⟨new, hlog, hm, _⟩ := h
  rw [effects_since_append st r new hlog]
  intro hin
  have := reset_mem_marks new hin
  rw [hm] at this
  cases this

/-- The reset made by `close_impl`: only without error, in the all-zero state
and with keep-alive. -/
theorem close_impl_resets (env : Env P Q R H) (st : connection P Q H) (err : error_code)
    (h : Effect.parser_reset ∈ effects_since st (close_impl env st err)) :
    err = 0 ∧ st.m_state = processing_request ∧ st.m_keep_alive = true := by
  have hd : unmarked st (drop_handler st) := unmarked_quiet [] (by simp [drop_handler]) rfl rfl
  unfold close_impl at h
  split_ifs at h with h1 h2 h3
  · exact absurd h (no_reset_of_unmarked
      (unmarked_trans hd (unmarked_quiet [Effect.shutdown] rfl rfl rfl)))
  · have he : effects_since st
        ({ (drop_handler st) with
            m_state := (drop_handler st).m_state ||| request_processed } : connection P Q H)
        = [] := effects_since_append _ _ _ (by simp [drop_handler])
    rw [he] at h
    cases h
  · exact absurd h (no_reset_of_unmarked
      (unmarked_trans hd (unmarked_quiet [Effect.shutdown] rfl rfl rfl)))
  · exact ⟨not_not.mp h1, not_not.mp h2, by simpa [drop_handler] using h3⟩

/-- The reset made by `process_data` while the body is read: only when the
body count has reached zero and the response is already closed. -/
theorem process_data_resets (env : Env P Q R H) (st : connection P Q H) (b e : Nat)
    (h1 : st.m_state &&& read_headers = 0) (h2 : st.m_state &&& read_data ≠ 0)
    (h : Effect.parser_reset ∈ effects_since st (process_data env st b e)) :
    (deliver env st b e).2.2.m_content_length = 0
      ∧ st.m_state &&& request_processed ≠ 0 := by
  have hd := unmarked_deliver env st b e
  rw [process_data_reading_body env st b e h1 h2] at h
  split_ifs at h with h3 h4 h5
  · exact absurd h (no_reset_of_unmarked
      (unmarked_trans hd (unmarked_quiet [] (by simp) rfl rfl)))
  · exact absurd h (no_reset_of_unmarked (unmarked_trans hd (unmarked_async_read _)))
  · rw [finish_body_state, deliver_state, body_done_request_processed] at h5
    exact ⟨by omega, h5⟩
  · exact absurd h (no_reset_of_unmarked (unmarked_trans hd (unmarked_finish_body _ _ _)))

theorem started_state (env : Env P Q R H) (size : Nat) :
    (start (connection.init env size)).m_state = read_headers := by
  unfold start async_read
  split_ifs <;> rfl

/-- C16 (fails as stated): the handler of a first request closes its response
twice.  The first close resets the connection, the second finds it reading
headers and sets the response-already-closed bit.  The next request (handler
1, body of 10 bytes) arrives in one read: at the end of its body the
connection is reset in the same read step, although no close has been applied
since handler 1 was created; handler 1 is still attached. -/
theorem C16_reset_without_close_of_the_request :
    (run (demo_env []) (started [] 64) double_close_trace).log
      = [Effect.async_read_some,
         Effect.parse get_root_request, Effect.create 0, Effect.on_headers 0,
         Effect.on_close 0 0,
         Effect.parser_reset, Effect.async_read_some,
         Effect.parse (post_root_request ++ [1, 2, 3, 4, 5, 6, 7, 8, 9, 10]),
         Effect.create 1, Effect.on_headers 1,
         Effect.on_data 1 [1, 2, 3, 4, 5, 6, 7, 8, 9, 10] 10, Effect.on_close 1 0,
         Effect.parser_reset, Effect.async_read_some]
    ∧ (run (demo_env []) (started [] 64) (double_close_trace.take 3)).m_state
        = read_headers ||| request_processed
    ∧ (run (demo_env []) (started [] 64) double_close_trace).m_handler = some (1, [])
    ∧ (run (demo_env []) (started [] 64) double_close_trace).m_state = read_headers := by
  decide

/-- C16 (amended): in every trace from `start`, every reset (`process_next`)
comes after an application of `close_impl` without error that no earlier reset
has used up: the marks of the trace scan.  The close need not belong to the
request being finished.  The body count is zero at every reset: `close_impl`
resets only without error, in the all-zero state and with keep-alive, and in
every reachable all-zero state the count is zero; `process_data` resets, while
the body is read, only in a step whose `on_data` left the count at zero with
the response-already-closed bit set. -/
theorem C16_reset_after_body_and_close (env : Env P Q R H) (size : Nat)
    (evs : List (Event R)) :
    (scan false (run_marks env (start (connection.init env size)) evs)).isSome = true
    ∧ ((run env (start (connection.init env size)) evs).m_state = processing_request →
        (run env (start (connection.init env size)) evs).m_content_length = 0)
    ∧ (∀ (st : connection P Q H) (err : error_code),
        Effect.parser_reset ∈ effects_since st (close_impl env st err) →
        err = 0 ∧ st.m_state = processing_request ∧ st.m_keep_alive = true)
    ∧ (∀ (st : connection P Q H) (b e : Nat),
        st.m_state &&& read_headers = 0 → st.m_state &&& read_data ≠ 0 →
        Effect.parser_reset ∈ effects_since st (process_data env st b e) →
        (deliver env st b e).2.2.m_content_length = 0
          ∧ st.m_state &&& request_processed ≠ 0) := by
  refine ⟨?_, fun h0 => ?_, close_impl_resets env, process_data_resets env⟩
  · obtain ⟨g1, hs⟩ := run_scan env evs (start (connection.init env size)) false
      (fun hb => by
        rw [started_state] at hb
        exact absurd (by decide) hb)
    rw [hs]
    rfl
  · refine body_count_run env evs _ (body_count_started env size) ?_
    rw [h0]
    decide

theorem C16_reset_after_body_and_close_witness :
    (scan false (run_marks (demo_env []) (started [] 64) double_close_trace)).isSome = true
    ∧ run_marks (demo_env []) (started [] 64) double_close_trace
        = [mark.closed, mark.reset, mark.closed, mark.reset] :=
  ⟨(C16_reset_after_body_and_close (demo_env []) 64 double_close_trace).1, by decide⟩

/-! ### C17: the count of body bytes still to read -/

theorem slice_length_le (buf : List Byte) (b n : Nat) : (slice buf b (b + n)).length ≤ n := by
  unfold slice
  rw [List.length_take]
  omega

/-- What the first statements of the body branch do to the count, when
`on_data` returns at most what it was offered. -/
theorem deliver_bounds (env : Env P Q R H) (st : connection P Q H) (b e : Nat)
    (hcontract : ∀ (h : H) (bytes : List Byte), (env.on_data h bytes).1 ≤ bytes.length)
    (hsize : st.m_content_length < size_t_mod) :
    (deliver env st b e).1 = min st.m_content_length (e - b)
    ∧ (deliver env st b e).2.1 ≤ (deliver env st b e).1
    ∧ (deliver env st b e).2.2.m_content_length
        = st.m_content_length - (deliver env st b e).2.1 := by
  unfold deliver
  dsimp only
  split
  · rename_i id h heq
    split_ifs with hpos
    · have hc := hcontract h (slice st.m_buffer b (b + min st.m_content_length (e - b)))
      have hl := slice_length_le st.m_buffer b (min st.m_content_length (e - b))
      refine ⟨rfl, le_trans hc hl, ?_⟩
      exact size_t_sub_eq _ _ hsize
        (le_trans (le_trans hc hl) (Nat.min_le_left _ _))
    · exact ⟨rfl, le_refl _, size_t_sub_eq _ _ hsize (Nat.min_le_left _ _)⟩
  · exact ⟨rfl, le_refl _, size_t_sub_eq _ _ hsize (Nat.min_le_left _ _)⟩

theorem async_read_fields (st : connection P Q H) :
    (async_read st).m_content_length = st.m_content_length
    ∧ (async_read st).m_state = st.m_state
    ∧ (async_read st).m_unprocessed_begin = st.m_unprocessed_begin
    ∧ (async_read st).m_unprocessed_end = st.m_unprocessed_end
    ∧ (async_read st).m_handler = st.m_handler := by
  unfold async_read
  split_ifs
  · exact ⟨rfl, rfl, rfl, rfl, rfl⟩
  · exact ⟨rfl, rfl, rfl, rfl, rfl⟩

/-- C17: let every `on_data` return at most the number of bytes it was
offered.  In a body-reading step of `process_data` (reading-headers bit clear,
reading-body bit set, count within `size_t`) the handler consumes at most
min(count, end - begin) bytes and the count becomes count - consumed, without
wrapping.  While that is not zero the step leaves the state word, and so the
reading-body bit, as it is and the count at count - consumed.  When it is
zero the step clears the reading-body bit with the count at zero, and goes on
from there (`process_next` when the response is already closed).  In every
state reachable from `start`, the count is zero while the reading-body bit is
clear. -/
theorem C17_body_remaining_never_increases (env : Env P Q R H) (st : connection P Q H)
    (b e : Nat)
    (hcontract : ∀ (h : H) (bytes : List Byte), (env.on_data h bytes).1 ≤ bytes.length)
    (hsize : st.m_content_length < size_t_mod)
    (h1 : st.m_state &&& read_headers = 0) (h2 : st.m_state &&& read_data ≠ 0) :
    (deliver env st b e).2.1 ≤ min st.m_content_length (e - b)
    ∧ (deliver env st b e).2.2.m_content_length
        = st.m_content_length - (deliver env st b e).2.1
    ∧ (st.m_content_length - (deliver env st b e).2.1 ≠ 0 →
        (process_data env st b e).m_content_length
            = st.m_content_length - (deliver env st b e).2.1
        ∧ (process_data env st b e).m_state = st.m_state)
    ∧ (st.m_content_length - (deliver env st b e).2.1 = 0 →
        (finish_body (deliver env st b e).2.2 (b + (deliver env st b e).2.1) e).m_content_length
            = 0
        ∧ (finish_body (deliver env st b e).2.2 (b + (deliver env st b e).2.1) e).m_state
            = st.m_state &&& bit_not read_data
        ∧ process_data env st b e =
            if st.m_state &&& request_processed ≠ 0 then
              process_next env
                (finish_body (deliver env st b e).2.2 (b + (deliver env st b e).2.1) e)
            else
              finish_body (deliver env st b e).2.2 (b + (deliver env st b e).2.1) e)
    ∧ (∀ (size : Nat) (evs : List (Event R)),
        (run env (start (connection.init env size)) evs).m_state &&& read_data = 0 →
        (run env (start (connection.init env size)) evs).m_content_length = 0) := by
  obtain ⟨d1, d2, d3⟩ := deliver_bounds env st b e hcontract hsize
  have hflag : (finish_body (deliver env st b e).2.2 (b + (deliver env st b e).2.1) e).m_state
      &&& request_processed = st.m_state &&& request_processed := by
    rw [finish_body_state, deliver_state, body_done_request_processed]
  refine ⟨by rw [← d1]; exact d2, d3, fun hne => ?_, fun hz => ⟨?_, ?_, ?_⟩,
    fun size evs => body_count_run env evs _ (body_count_started env size)⟩
  · rw [process_data_reading_body env st b e h1 h2]
    split_ifs with h3 h4 h5
    · exact ⟨d3, deliver_state env st b e⟩
    · exact ⟨(async_read_fields _).1.trans d3, (async_read_fields _).2.1.trans
        (deliver_state env st b e)⟩
    · omega
    · omega
  · rw [finish_body_content_length, d3, hz]
  · rw [finish_body_state, deliver_state]
  · have hmin := Nat.min_le_left st.m_content_length (e - b)
    rw [process_data_reading_body env st b e h1 h2]
    rw [if_neg (by rw [d1]; omega), if_neg (by rw [d3]; omega), hflag]

theorem C17_body_remaining_never_increases_witness :
    scenario_D.m_content_length < size_t_mod
    ∧ (deliver (demo_env [2]) scenario_D 0 4).2.1 ≤ min scenario_D.m_content_length (4 - 0)
    ∧ (deliver (demo_env [2]) scenario_D 0 4).2.2.m_content_length
        = scenario_D.m_content_length - (deliver (demo_env [2]) scenario_D 0 4).2.1 :=
  ⟨by decide,
    (C17_body_remaining_never_increases (demo_env [2]) scenario_D 0 4
      (fun h bytes => Nat.min_le_right _ _) (by decide) (by decide) (by decide)).1,
    (C17_body_remaining_never_increases (demo_env [2]) scenario_D 0 4
      (fun h bytes => Nat.min_le_right _ _) (by decide) (by decide) (by decide)).2.1⟩

/-! ### C18: closing the response while the handler holds back body bytes -/

/-- C18 (fails on the code): the handler holds back body bytes (8 of 10 bytes
still to count, unprocessed range `[41, 43)`, no read outstanding) and closes
its response without error.  `close_impl` drops the handler, sets the
response-already-closed bit and returns: it issues nothing.  Afterwards the
reading-body bit and the response-already-closed bit are set, 8 bytes remain,
the unprocessed range is not empty, and nothing is outstanding on the
transport: the one read issued has completed, no write was issued, and the
handler that could resume is gone. -/
theorem C18_close_under_backpressure_stalls :
    (held_back.m_state = read_data ∧ held_back.m_at_read = false
      ∧ held_back.m_content_length = 8
      ∧ held_back.m_unprocessed_begin = 41 ∧ held_back.m_unprocessed_end = 43)
    ∧ effects_since held_back (close_impl (demo_env [2]) held_back 0) = []
    ∧ (close_impl (demo_env [2]) held_back 0).m_state = read_data ||| request_processed
    ∧ (close_impl (demo_env [2]) held_back 0).m_content_length = 8
    ∧ (close_impl (demo_env [2]) held_back 0).m_handler = none
    ∧ (close_impl (demo_env [2]) held_back 0).m_at_read = false
    ∧ (close_impl (demo_env [2]) held_back 0).m_sending = false
    ∧ (close_impl (demo_env [2]) held_back 0).m_unprocessed_begin = 41
    ∧ (close_impl (demo_env [2]) held_back 0).m_unprocessed_end = 43
    ∧ wire_run (demo_env [2]) (fun _ _ _ => []) ⟨started [2] 64, 0, 0⟩
        [Event.handle_read 0 (post_root_request ++ [1, 2, 3, 4]), Event.close_impl 0]
      = some ⟨close_impl (demo_env [2]) held_back 0, 1, 0⟩
    ∧ reads_outstanding
        (⟨close_impl (demo_env [2]) held_back 0, 1, 0⟩ :
          wire (List Byte) demo_request (List Nat)) = 0
    ∧ writes_outstanding
        (⟨close_impl (demo_env [2]) held_back 0, 1, 0⟩ :
          wire (List Byte) demo_request (List Nat)) = 0 := by
  decide

/-! ### C19: the reset after a drained body does not look at keep-alive -/

theorem keeps_open_refl (st : connection P Q H) : keeps_open st st :=
  ⟨[], by simp, by simp⟩

theorem keeps_open_trans {a b c : connection P Q H} (h1 : keeps_open a b)
    (h2 : keeps_open b c) : keeps_open a c := by
  obtain ⟨n1, l1, m1⟩ := h1
  obtain ⟨n2, l2, m2⟩ := h2
  refine ⟨n1 ++ n2, by rw [l2, l1, List.append_assoc], ?_⟩
  intro h
  rcases List.mem_append.mp h with h | h
  · exact m1 h
  · exact m2 h

theorem keeps_open_async_read (st : connection P Q H) : keeps_open st (async_read st) := by
  unfold async_read
  split_ifs
  · exact keeps_open_refl st
  · exact ⟨[Effect.async_read_some], rfl, by simp⟩

theorem keeps_open_send_impl (st : connection P Q H) (info : buffer_info) :
    keeps_open st (send_impl st info) := by
  unfold send_impl
  split_ifs
  · exact ⟨[], by simp, by simp⟩
  · exact ⟨[Effect.async_write_some info.buffer], rfl, by simp⟩

theorem keeps_open_send_error (env : Env P Q R H) (st : connection P Q H) (t : status_type) :
    keeps_open st (send_error env st t) := by
  unfold send_error send_headers
  exact keeps_open_send_impl _ _

theorem keeps_open_deliver (env : Env P Q R H) (st : connection P Q H) (b e : Nat) :
    keeps_open st (deliver env st b e).2.2 := by
  unfold deliver
  dsimp only
  split
  · split_ifs
    · exact ⟨[_], rfl, by simp⟩
    · exact ⟨[], by simp, by simp⟩
  · exact ⟨[], by simp, by simp⟩

theorem keeps_open_finish_body (st : connection P Q H) (nb e : Nat) :
    keeps_open st (finish_body st nb e) := by
  unfold finish_body
  dsimp only
  split
  · exact ⟨[_], rfl, by simp⟩
  · exact ⟨[], by simp, by simp⟩

theorem keeps_open_process_next_with (env : Env P Q R H)
    (self : connection P Q H → Nat → Nat → Option (connection P Q H))
    (hself : ∀ s b e r, self s b e = some r → keeps_open s r)
    (st r : connection P Q H) (h : process_next_with env self st = some r) :
    keeps_open st r := by
  unfold process_next_with at h
  dsimp only at h
  have h0 : keeps_open st (next_request env st) := ⟨[Effect.parser_reset], rfl, by simp⟩
  split_ifs at h
  · exact keeps_open_trans h0 (hself _ _ _ _ h)
  · cases h
    exact keeps_open_trans h0 (keeps_open_async_read _)

theorem keeps_open_process_data_body (env : Env P Q R H)
    (self : connection P Q H → Nat → Nat → Option (connection P Q H))
    (hself : ∀ s b e r, self s b e = some r → keeps_open s r)
    (st : connection P Q H) (b e : Nat) (r : connection P Q H)
    (h : process_data_body env self st b e = some r) : keeps_open st r := by
  unfold process_data_body at h
  split_ifs at h with h1 h2
  · have hp : keeps_open st (parse_headers env st b e).2.2 := ⟨[_], rfl, by simp⟩
    split at h
    · rename_i k st1 heq
      rw [heq] at hp
      cases h
      exact keeps_open_trans hp (keeps_open_send_error env _ _)
    · rename_i k st1 heq
      rw [heq] at hp
      split at h
      · cases h
        exact keeps_open_trans hp (keeps_open_send_error env _ _)
      · rename_i hd hfac
        have ha : keeps_open st1 (attach_handler env st1 hd) := ⟨[_, _], rfl, by simp⟩
        exact keeps_open_trans hp (keeps_open_trans ha (hself _ _ _ _ h))
    · rename_i k st1 heq
      rw [heq] at hp
      cases h
      exact keeps_open_trans hp (keeps_open_async_read _)
  · dsimp only at h
    have hd := keeps_open_deliver env st b e
    split_ifs at h with h3 h4 h5
    · cases h
      exact keeps_open_trans hd ⟨[], by simp, by simp⟩
    · cases h
      exact keeps_open_trans hd (keeps_open_async_read _)
    · exact keeps_open_trans hd (keeps_open_trans (keeps_open_finish_body _ _ _)
        (keeps_open_process_next_with env self hself _ _ h))
    · cases h
      exact keeps_open_trans hd (keeps_open_finish_body _ _ _)
  · cases h
    exact keeps_open_refl st

theorem keeps_open_process_data_fuel (env : Env P Q R H) :
    ∀ (n : Nat) (st : connection P Q H) (b e : Nat) (r : connection P Q H),
      process_data_fuel env n st b e = some r → keeps_open st r := by
  intro n
  induction n with
  | zero => intro st b e r h; simp [process_data_fuel] at h
  | succ n ih =>
    intro st b e r h
    exact keeps_open_process_data_body env _ ih st b e r h

/-- No call of `process_data` shuts the socket down. -/
theorem keeps_open_process_data (env : Env P Q R H) (st : connection P Q H) (b e : Nat) :
    keeps_open st (process_data env st b e) :=
  keeps_open_process_data_fuel env _ st b e _ (process_data_fuel_total env _ (le_refl _) st b e)

/-! ### C20: `process_data` once the request is fully read -/

theorem close_impl_request_read_idle (env : Env P Q R H) (st : connection P Q H)
    (h0 : st.m_state = processing_request)
    (he : st.m_unprocessed_begin = st.m_unprocessed_end) :
    close_impl env st 0 =
      if st.m_keep_alive then async_read (next_request env (drop_handler st))
      else emit (drop_handler st) Effect.shutdown := by
  rw [close_impl_request_read env st h0]
  have hn : process_next env (drop_handler st)
      = async_read (next_request env (drop_handler st)) := by
    rw [process_next_unfold]
    exact if_neg (not_not.mpr he)
  rw [hn]

theorem async_read_idle (st : connection P Q H) (h : st.m_at_read = false) :
    (async_read st).log = st.log ++ [Effect.async_read_some] := by
  unfold async_read
  rw [if_neg (by simp [h])]
  rfl

/-- C20 (fails as stated): in the all-zero state with the unprocessed range
empty and a read already outstanding, `want_more_impl` issues no read. -/
theorem C20_resume_issues_no_second_read :
    resumed_after_request.m_state = processing_request
    ∧ resumed_after_request.m_unprocessed_begin = resumed_after_request.m_unprocessed_end
    ∧ resumed_after_request.m_at_read = true
    ∧ effects_since resumed_after_request (want_more_impl (demo_env []) resumed_after_request)
        = [] := by
  decide

/-- C20 (amended): in the all-zero state `process_data` returns the connection
unchanged for every range, so it calls nobody, issues nothing and leaves the
state word, the body count and the unprocessed range alone.  With the
unprocessed range empty, `want_more_impl` calls `async_read`: it issues a read
unless one is already outstanding, and a read is outstanding afterwards.  When
that read completes with bytes `data`, `handle_read` only stores them: the log,
the state word and the (empty) unprocessed range stay as they are.  The next
close without error then resets with the range empty: it issues a new read
(keep-alive) or shuts down, and the parser is handed nothing; after the reset
the first thing the parser is handed are the bytes of the next read. -/
theorem C20_request_read_is_idle (env : Env P Q R H) (st : connection P Q H)
    (h0 : st.m_state = processing_request) :
    (∀ b e, process_data env st b e = st)
    ∧ (st.m_unprocessed_begin = st.m_unprocessed_end →
        want_more_impl env st = async_read st
        ∧ (want_more_impl env st).m_at_read = true
        ∧ effects_since st (want_more_impl env st)
            = (if st.m_at_read then [] else [Effect.async_read_some])
        ∧ ∀ data,
            handle_read env (want_more_impl env st) 0 data
              = read_done (want_more_impl env st) data
            ∧ (read_done (want_more_impl env st) data).log = (want_more_impl env st).log
            ∧ (read_done (want_more_impl env st) data).m_state = processing_request
            ∧ (read_done (want_more_impl env st) data).m_unprocessed_begin
                = (read_done (want_more_impl env st) data).m_unprocessed_end
            ∧ effects_since (read_done (want_more_impl env st) data)
                (close_impl env (read_done (want_more_impl env st) data) 0)
              = (if st.m_keep_alive then [Effect.parser_reset, Effect.async_read_some]
                 else [Effect.shutdown])
            ∧ (st.m_keep_alive = true → ∀ data2, ∃ rest,
                (handle_read env
                    (close_impl env (read_done (want_more_impl env st) data) 0) 0 data2).log
                  = (close_impl env (read_done (want_more_impl env st) data) 0).log
                    ++ Effect.parse data2 :: rest)) := by
  have hb1 : st.m_state &&& read_headers = 0 := by rw [h0]; decide
  have hb2 : st.m_state &&& read_data = 0 := by rw [h0]; decide
  refine ⟨fun b e => process_data_request_read env st b e hb1 hb2, fun he => ?_⟩
  have hw : want_more_impl env st = async_read st := by
    unfold want_more_impl
    exact if_neg (not_not.mpr he)
  obtain ⟨_, f2, f3, f4, _⟩ := async_read_fields st
  have hat : (async_read st).m_at_read = true := by
    unfold async_read
    split_ifs with h
    · exact h
    · rfl
  have heff : effects_since st (async_read st)
      = (if st.m_at_read then [] else [Effect.async_read_some]) := by
    unfold async_read
    split_ifs with h
    · exact effects_since_append _ _ _ (by simp)
    · exact effects_since_append _ _ _ rfl
  have hka : (async_read st).m_keep_alive = st.m_keep_alive := by
    unfold async_read
    split_ifs <;> rfl
  rw [hw]
  refine ⟨rfl, hat, heff, fun data => ?_⟩
  have hs : (read_done (async_read st) data).m_state = processing_request := f2.trans h0
  have hu : (read_done (async_read st) data).m_unprocessed_begin
      = (read_done (async_read st) data).m_unprocessed_end := by
    show (async_read st).m_unprocessed_begin = (async_read st).m_unprocessed_end
    rw [f3, f4]
    exact he
  refine ⟨?_, rfl, hs, hu, ?_, fun hka1 data2 => ?_⟩
  · unfold handle_read
    rw [if_neg (by simp)]
    exact process_data_request_read env _ _ _ (by rw [hs]; decide) (by rw [hs]; decide)
  rotate_left
  · have hk : (read_done (async_read st) data).m_keep_alive = st.m_keep_alive := hka
    rw [close_impl_request_read_idle env _ hs hu, hk, hka1]
    simp only [if_true]
    have hst : (read_done (async_read (next_request env
        (drop_handler (read_done (async_read st) data)))) data2).m_state &&& read_headers ≠ 0 := by
      show (async_read (next_request env
        (drop_handler (read_done (async_read st) data)))).m_state &&& read_headers ≠ 0
      rw [(async_read_fields _).2.1]
      have hn : (next_request env (drop_handler (read_done (async_read st) data))).m_state
          = read_headers := rfl
      rw [hn]
      decide
    obtain ⟨rest, hrest⟩ := process_data_parses_first env _ 0 data2.length hst
    refine ⟨rest, ?_⟩
    unfold handle_read
    rw [if_neg (by simp), hrest, slice_read_done _ data2 data2.length (le_refl _),
      List.take_length]
    rfl
  · rw [close_impl_request_read_idle env _ hs hu]
    have hk : (read_done (async_read st) data).m_keep_alive = st.m_keep_alive := hka
    rw [hk]
    cases st.m_keep_alive
    · simp only [Bool.false_eq_true, if_false]
      exact effects_since_append _ _ _ rfl
    · simp only [if_true]
      refine effects_since_append _ _ _ ?_
      rw [async_read_idle _ (show (next_request env
        (drop_handler (read_done (async_read st) data))).m_at_read = false from rfl)]
      exact List.append_assoc _ [Effect.parser_reset] [Effect.async_read_some]

theorem C20_request_read_is_idle_witness :
    (handle_read (demo_env []) (started [] 64) 0 get_root_request).m_state = processing_request
    ∧ process_data (demo_env [])
        (handle_read (demo_env []) (started [] 64) 0 get_root_request) 0 5
      = handle_read (demo_env []) (started [] 64) 0 get_root_request
    ∧ effects_since (handle_read (demo_env []) (started [] 64) 0 get_root_request)
        (want_more_impl (demo_env [])
          (handle_read (demo_env []) (started [] 64) 0 get_root_request))
      = [Effect.async_read_some] :=
  ⟨by decide,
    (C20_request_read_is_idle (demo_env [])
      (handle_read (demo_env []) (started [] 64) 0 get_root_request) (by decide)).1 0 5,
    (((C20_request_read_is_idle (demo_env [])
      (handle_read (demo_env []) (started [] 64) 0 get_root_request) (by decide)).2
        (by decide)).2.2.1).trans (by decide)⟩

/-! ### C3: the `on_close` calls up to the destruction of the connection -/

theorem destroy_log (st : connection P Q H) :
    (destroy st).log = st.log ++ notify_log st.m_handler 0 ++ [Effect.socket_closed] := by
  unfold destroy
  dsimp only
  split_ifs
  · cases h : st.m_handler with
    | none => simp [notify_log, emit]
    | some p =>
      obtain ⟨id, hd⟩ := p
      simp [notify_log, emit]
  · cases h : st.m_handler with
    | none => simp [notify_log, emit]
    | some p =>
      obtain ⟨id, hd⟩ := p
      simp [notify_log, emit]

theorem final_of_close_shape (l : List error_code) (h : close_shape l) :
    final_close_shape l := by
  match l, h with
  | [], _ => trivial
  | [_], _ => trivial
  | [_, _], h => exact h.1

/-- C3 (counterexample): a request without body is read in one chunk, so its
handler (instance 0) receives `on_close` with success at body completion; the
handler then enqueues its response and the write fails with error 1: the same
handler receives `on_close` a second time.  And when the connection is
destroyed right after the request was read, the handler still attached
receives `on_close` with success a second time from the destructor. -/
theorem C3_on_close_delivered_twice :
    closes 0
      (run (demo_env []) (started [] 64)
        [Event.handle_read 0 get_root_request,
         Event.send_headers [[50, 48, 48]] [] (handler_fn.user 1),
         Event.write_finished 1 0]).log = [0, 1]
    ∧ closes 0
      (destroy (run (demo_env []) (started [] 64)
        [Event.handle_read 0 get_root_request])).log = [0, 0] := by
  decide

/-- C3 (amended): in every trace of connection steps after `start`, ended at
any point by the destruction of the connection object, the `on_close` calls
received by one handler instance are: none, or one call, or two calls of which
the first is with success (body completion).  While the connection lives the
second call is with an error (read or write error); the destructor adds a call
with success to the handler it finds attached.  So a handler never receives
`on_close` three times and never receives any `on_close` after one with an
error. -/
theorem C3_on_close_history (env : Env P Q R H) (size : Nat) (evs : List (Event R))
    (id : Nat) :
    close_shape (closes id (run env (start (connection.init env size)) evs).log)
    ∧ final_close_shape
        (closes id (destroy (run env (start (connection.init env size)) evs)).log) := by
  obtain ⟨h1, _, h3⟩ := close_inv_run env evs _ (close_inv_started env size)
  refine ⟨h1 id, ?_⟩
  generalize run env (start (connection.init env size)) evs = st at h1 h3
  rw [destroy_log, closes_append, closes_append]
  have hs : closes id [Effect.socket_closed] = [] := rfl
  rw [hs, List.append_nil]
  cases hh : st.m_handler with
  | none =>
    have hn : closes id (notify_log (none : Option (Nat × H)) 0) = [] := rfl
    rw [hn, List.append_nil]
    exact final_of_close_shape _ (h1 id)
  | some p =>
    obtain ⟨j, hd⟩ := p
    by_cases hj : j = id
    · subst hj
      have hn : closes j (notify_log (some (j, hd)) 0) = [0] := by simp [notify_log, closes]
      rw [hn]
      rcases (h3 j hd hh).2 with hc | ⟨hc, _⟩
      · rw [hc]; trivial
      · rw [hc]; rfl
    · have hn : closes id (notify_log (some (j, hd)) 0) = [] := by
        simp [notify_log, closes, hj]
      rw [hn, List.append_nil]
      exact final_of_close_shape _ (h1 id)

/-! ### C4: the whole body under backpressure -/

/-- C4 (fails on the code): body of 10 bytes.  The read of `1 2 3 4` offers 4
bytes, the handler takes 2 and holds back `3 4`; the resume hands it `3 4`
before any read, and then issues the next read: so far as claimed.  That read
delivers `5 6 7`, which the handler takes.  The unprocessed range is still the
range `[2, 4)` of the held-back bytes, now holding `7 4`, so the next resume
hands the handler `7 4`: it has consumed `1 2 3 4 5 6 7 7 4`, nine bytes of
which seven were read, and the body count is at 1. -/
theorem C4_resume_after_refill_repeats_bytes :
    effects_since slow_handler_attached
        (body_run (demo_env [2]) slow_handler_attached
          [body_step.read [1, 2, 3, 4], body_step.resume])
      = [Effect.on_data 0 [1, 2, 3, 4] 2, Effect.on_data 0 [3, 4] 2, Effect.async_read_some]
    ∧ bytes_read
        [body_step.read [1, 2, 3, 4], body_step.resume, body_step.read [5, 6, 7],
          body_step.resume]
      = [1, 2, 3, 4, 5, 6, 7]
    ∧ effects_since slow_handler_attached
        (body_run (demo_env [2]) slow_handler_attached
          [body_step.read [1, 2, 3, 4], body_step.resume, body_step.read [5, 6, 7],
            body_step.resume])
      = [Effect.on_data 0 [1, 2, 3, 4] 2, Effect.on_data 0 [3, 4] 2, Effect.async_read_some,
         Effect.on_data 0 [5, 6, 7] 3, Effect.async_read_some, Effect.on_data 0 [7, 4] 2]
    ∧ consumed_bytes (effects_since slow_handler_attached
        (body_run (demo_env [2]) slow_handler_attached
          [body_step.read [1, 2, 3, 4], body_step.resume, body_step.read [5, 6, 7],
            body_step.resume]))
      = [1, 2, 3, 4, 5, 6, 7, 7, 4]
    ∧ (body_run (demo_env [2]) slow_handler_attached
        [body_step.read [1, 2, 3, 4], body_step.resume, body_step.read [5, 6, 7],
          body_step.resume]).m_content_length = 1 := by
  decide

/-! ### C10: a request without body, by state word -/

theorem handle_read_found_bit (env : Env P Q R H) (st : connection P Q H) (data : List Byte)
    (h : H) (h1 : st.m_state &&& read_headers ≠ 0)
    (hdone : (env.parse st.m_request_parser_state st.m_request data).1 = tribool.true_value)
    (hfac : env.get_factory (env.parse st.m_request_parser_state st.m_request data).2.2.2
      = some h) :
    handle_read env st 0 data =
      process_data env (attach_handler env (after_parse env st data) h)
        (0 + (env.parse st.m_request_parser_state st.m_request data).2.1) data.length := by
  have hfac1 : env.get_factory (after_parse env st data).m_request = some h := hfac
  unfold handle_read
  rw [if_neg (by simp),
    process_data_reading_headers _ _ _ _ (show (read_done st data).m_state &&& _ ≠ 0 from h1),
    parse_headers_read_done, hdone]
  simp only [hfac1]

/-- A request without body whose header block arrives in one read, for every
state word with the reading-headers bit: the read step ends in `bodyless_done`
when the response-already-closed bit is clear, and goes on from there with
`process_next` when it is set. -/
theorem handle_read_bodyless (env : Env P Q R H) (st : connection P Q H)
    (data : List Byte) (h : H)
    (h1 : st.m_state &&& read_headers ≠ 0)
    (hdone : (env.parse st.m_request_parser_state st.m_request data).1 = tribool.true_value)
    (hfac : env.get_factory (env.parse st.m_request_parser_state st.m_request data).2.2.2
      = some h)
    (hlen : (env.content_length
        (env.parse st.m_request_parser_state st.m_request data).2.2.2).getD 0 = 0) :
    handle_read env st 0 data =
      if st.m_state &&& request_processed ≠ 0 then process_next env (bodyless_done env st data h)
      else bodyless_done env st data h := by
  have e3 : size_t_sub 0 0 = 0 := by decide
  have e4 : (0 : Nat) % size_t_mod = 0 := by decide
  rw [handle_read_found_bit env st data h h1 hdone hfac]
  have hbd : bodyless_done env st data h
      = { attach_handler env (after_parse env st data) h with
          m_content_length := 0
          m_state := (attach_handler env (after_parse env st data) h).m_state
            &&& bit_not read_data
          m_unprocessed_begin := (env.parse st.m_request_parser_state st.m_request data).2.1
          m_unprocessed_end := data.length
          log := st.log ++ [Effect.parse data, Effect.create st.handlers_created,
            Effect.on_headers st.handlers_created, Effect.on_close st.handlers_created 0] } :=
    rfl
  have hflag : (bodyless_done env st data h).m_state &&& request_processed
      = st.m_state &&& request_processed := by
    show ((st.m_state &&& bit_not read_headers ||| read_data) &&& bit_not read_data)
      &&& request_processed = _
    rw [body_done_request_processed, headers_done_request_processed]
  rw [hbd] at hflag ⊢
  generalize hk : (env.parse st.m_request_parser_state st.m_request data).2.1 = k at *
  have hs1a : (attach_handler env (after_parse env st data) h).m_state &&& read_headers = 0 :=
    headers_done_read_headers st.m_state
  have hs1b : (attach_handler env (after_parse env st data) h).m_state &&& read_data ≠ 0 := by
    have := headers_done_read_data st.m_state
    show (st.m_state &&& bit_not read_headers ||| read_data) &&& read_data ≠ 0
    rw [this]
    decide
  have hs1cl : (attach_handler env (after_parse env st data) h).m_content_length = 0 := by
    show ((env.content_length
      (env.parse st.m_request_parser_state st.m_request data).2.2.2).getD 0) % size_t_mod = 0
    rw [hlen, e4]
  have hs1att : (attach_handler env (after_parse env st data) h).m_handler
      = some (st.handlers_created, h) := rfl
  have hs1log : (attach_handler env (after_parse env st data) h).log
      = st.log ++ [Effect.parse data, Effect.create st.handlers_created,
          Effect.on_headers st.handlers_created] := by
    simp [attach_handler, after_parse, read_done]
  generalize attach_handler env (after_parse env st data) h = s1 at *
  have hdel : deliver env s1 (0 + k) data.length
      = (0, 0, { s1 with m_content_length := 0 }) := by
    unfold deliver
    simp [hs1att, hs1cl, e3]
  rw [process_data_reading_body _ _ _ _ hs1a hs1b, hdel]
  simp only [ne_eq, not_true_eq_false, if_false, gt_iff_lt, lt_self_iff_false]
  have hfb : finish_body { s1 with m_content_length := 0 } (0 + k + 0) data.length
      = { s1 with
          m_content_length := 0
          m_state := s1.m_state &&& bit_not read_data
          m_unprocessed_begin := k
          m_unprocessed_end := data.length
          log := st.log ++ [Effect.parse data, Effect.create st.handlers_created,
            Effect.on_headers st.handlers_created, Effect.on_close st.handlers_created 0] } := by
    simp [finish_body, hs1att, emit, hs1log]
  rw [hfb]
  simp only [hflag]

theorem state_word_headers (s : Nat) (h : state_word_ok s) (h1 : s &&& read_headers ≠ 0) :
    s = read_headers ∨ s = read_headers ||| request_processed := by
  rcases h with h | h | h | h | h
  · rw [h] at h1; exact absurd (by decide) h1
  · exact Or.inl h
  · rw [h] at h1; exact absurd (by decide) h1
  · exact Or.inr h
  · rw [h] at h1; exact absurd (by decide) h1

theorem state_word_body (s : Nat) (h : state_word_ok s) (h1 : s &&& read_headers = 0)
    (h2 : s &&& read_data ≠ 0) : s = read_data ∨ s = read_data ||| request_processed := by
  rcases h with h | h | h | h | h
  · rw [h] at h2; exact absurd (by decide) h2
  · rw [h] at h1; exact absurd h1 (by decide)
  · exact Or.inl h
  · rw [h] at h1; exact absurd h1 (by decide)
  · exact Or.inr h

theorem send_impl_state (st : connection P Q H) (info : buffer_info) :
    (send_impl st info).m_state = st.m_state := by
  unfold send_impl
  split_ifs <;> rfl

theorem send_error_state (env : Env P Q R H) (st : connection P Q H) (t : status_type) :
    (send_error env st t).m_state = st.m_state := by
  unfold send_error send_headers
  exact send_impl_state _ _

theorem state_ok_process_next_with (env : Env P Q R H)
    (self : connection P Q H → Nat → Nat → Option (connection P Q H))
    (hself : ∀ s b e r, self s b e = some r → state_word_ok s.m_state → state_word_ok r.m_state)
    (st r : connection P Q H) (h : process_next_with env self st = some r) :
    state_word_ok r.m_state := by
  unfold process_next_with at h
  dsimp only at h
  have hn : state_word_ok (next_request env st).m_state := Or.inr (Or.inl rfl)
  split_ifs at h
  · exact hself _ _ _ _ h hn
  · cases h
    rw [(async_read_fields _).2.1]
    exact hn

theorem state_ok_process_data_body (env : Env P Q R H)
    (self : connection P Q H → Nat → Nat → Option (connection P Q H))
    (hself : ∀ s b e r, self s b e = some r → state_word_ok s.m_state → state_word_ok r.m_state)
    (st : connection P Q H) (b e : Nat) (r : connection P Q H)
    (hinv : state_word_ok st.m_state)
    (h : process_data_body env self st b e = some r) : state_word_ok r.m_state := by
  unfold process_data_body at h
  split_ifs at h with h1 h2
  · have hp : (parse_headers env st b e).2.2.m_state = st.m_state := rfl
    split at h
    · rename_i k st1 heq
      rw [heq] at hp
      cases h
      rw [send_error_state, hp]
      exact hinv
    · rename_i k st1 heq
      rw [heq] at hp
      split at h
      · cases h
        rw [send_error_state, hp]
        exact hinv
      · refine hself _ _ _ _ h ?_
        show state_word_ok ((st1.m_state &&& bit_not read_headers) ||| read_data)
        rw [hp]
        rcases state_word_headers _ hinv h1 with hs | hs
        · rw [hs]; exact Or.inr (Or.inr (Or.inl (by decide)))
        · rw [hs]; exact Or.inr (Or.inr (Or.inr (Or.inr (by decide))))
    · rename_i k st1 heq
      rw [heq] at hp
      cases h
      rw [(async_read_fields _).2.1, hp]
      exact hinv
  · dsimp only at h
    have hd := deliver_state env st b e
    split_ifs at h with h3 h4 h5
    · cases h
      show state_word_ok (deliver env st b e).2.2.m_state
      rw [hd]
      exact hinv
    · cases h
      rw [(async_read_fields _).2.1, hd]
      exact hinv
    · exact state_ok_process_next_with env self hself _ _ h
    · cases h
      rw [finish_body_state, hd] at h5 ⊢
      rcases state_word_body _ hinv (not_not.mp h1) h2 with hs | hs
      · rw [hs]; exact Or.inl (by decide)
      · rw [hs] at h5; exact absurd (by decide) h5
  · cases h
    exact hinv

theorem state_ok_process_data_fuel (env : Env P Q R H) :
    ∀ (n : Nat) (st : connection P Q H) (b e : Nat) (r : connection P Q H),
      process_data_fuel env n st b e = some r → state_word_ok st.m_state →
      state_word_ok r.m_state := by
  intro n
  induction n with
  | zero => intro st b e r h; simp [process_data_fuel] at h
  | succ n ih =>
    intro st b e r h hinv
    exact state_ok_process_data_body env _ ih st b e r hinv h

theorem state_ok_process_data (env : Env P Q R H) {st : connection P Q H}
    (hinv : state_word_ok st.m_state) (b e : Nat) :
    state_word_ok (process_data env st b e).m_state :=
  state_ok_process_data_fuel env _ st b e _
    (process_data_fuel_total env _ (le_refl _) st b e) hinv

theorem state_ok_process_next (env : Env P Q R H) (st : connection P Q H) :
    state_word_ok (process_next env st).m_state :=
  state_ok_process_next_with env _
    (fun s b e r h hinv => by cases h; exact state_ok_process_data env hinv b e)
    st _ (process_next_eq env st)

theorem state_ok_close_impl (env : Env P Q R H) {st : connection P Q H}
    (hinv : state_word_ok st.m_state) (err : error_code) :
    state_word_ok (close_impl env st err).m_state := by
  unfold close_impl
  split_ifs with h1 h2 h3
  · exact hinv
  · show state_word_ok (st.m_state ||| request_processed)
    rcases hinv with hs | hs | hs | hs | hs
    · exact absurd hs h2
    · rw [hs]; exact Or.inr (Or.inr (Or.inr (Or.inl rfl)))
    · rw [hs]; exact Or.inr (Or.inr (Or.inr (Or.inr rfl)))
    · rw [hs]; exact Or.inr (Or.inr (Or.inr (Or.inl (by decide))))
    · rw [hs]; exact Or.inr (Or.inr (Or.inr (Or.inr (by decide))))
  · exact hinv
  · exact state_ok_process_next env _

theorem state_ok_invoke (env : Env P Q R H) {st : connection P Q H}
    (hinv : state_word_ok st.m_state) (f : handler_fn) (err : error_code) :
    state_word_ok (invoke env st f err).m_state := by
  cases f with
  | empty => exact hinv
  | user id => exact hinv
  | close_impl =>
    exact state_ok_close_impl env
      (show state_word_ok (emit st (Effect.invoke handler_fn.close_impl err)).m_state from hinv)
      err

theorem state_ok_invoke_all (env : Env P Q R H) (err : error_code) :
    ∀ (items : List buffer_info) (st : connection P Q H), state_word_ok st.m_state →
      state_word_ok (items.foldl (fun s it => invoke env s it.handler err) st).m_state := by
  intro items
  induction items with
  | nil => intro st h; exact h
  | cons it rest ih =>
    intro st h
    exact ih _ (state_ok_invoke env h it.handler err)

theorem state_ok_write_finished (env : Env P Q R H) {st : connection P Q H}
    (hinv : state_word_ok st.m_state) (err : error_code) (n : Nat) :
    state_word_ok (write_finished env st err n).m_state := by
  generalize hr : write_finished env st err n = r
  unfold write_finished at hr
  dsimp only at hr
  split_ifs at hr with herr hsize
  · rw [← hr]
    have h1 : state_word_ok ({ st with m_outgoing := [] } : connection P Q H).m_state := hinv
    have h3 := state_ok_invoke_all env err st.m_outgoing _
      (state_ok_invoke env h1 st.m_outgoing_info.handler err)
    refine state_ok_close_impl env ?_ err
    split
    · exact h3
    · exact h3
  · rw [← hr]
    exact hinv
  · have h1 : state_word_ok ({ st with m_outgoing_info :=
        { st.m_outgoing_info with buffer := advance n st.m_outgoing_info.buffer } } :
          connection P Q H).m_state := hinv
    have h2 := state_ok_invoke env h1 st.m_outgoing_info.handler err
    split at hr
    · rw [← hr]
      exact h2
    · rw [← hr]
      exact h2

theorem state_ok_handle_read (env : Env P Q R H) {st : connection P Q H}
    (hinv : state_word_ok st.m_state) (err : error_code) (data : List Byte) :
    state_word_ok (handle_read env st err data).m_state := by
  have h0 : state_word_ok (read_done st data).m_state := hinv
  unfold handle_read
  split_ifs with herr
  · split
    · exact h0
    · exact h0
  · exact state_ok_process_data env h0 _ _

theorem state_ok_step (env : Env P Q R H) {st : connection P Q H}
    (hinv : state_word_ok st.m_state) (ev : Event R) :
    state_word_ok (step env st ev).m_state := by
  cases ev with
  | handle_read err data => exact state_ok_handle_read env hinv err data
  | write_finished err n => exact state_ok_write_finished env hinv err n
  | send_headers rep content handler =>
    show state_word_ok (send_headers env st rep content handler).m_state
    unfold send_headers
    rw [send_impl_state]
    exact hinv
  | send_data buffer handler =>
    show state_word_ok (send_data st buffer handler).m_state
    unfold send_data
    rw [send_impl_state]
    exact hinv
  | want_more_impl =>
    show state_word_ok (want_more_impl env st).m_state
    unfold want_more_impl
    split_ifs
    · exact state_ok_process_data env hinv _ _
    · rw [(async_read_fields _).2.1]
      exact hinv
  | close_impl err => exact state_ok_close_impl env hinv err

theorem state_ok_run (env : Env P Q R H) (evs : List (Event R)) :
    ∀ st : connection P Q H, state_word_ok st.m_state →
      state_word_ok (run env st evs).m_state := by
  induction evs with
  | nil => intro st h; exact h
  | cons ev rest ih => intro st h; exact ih _ (state_ok_step env h ev)

/-- C10 (fails as stated): the handler of a first request has closed its
response twice, so the connection is reading headers with the
response-already-closed bit set.  A request without body then arrives in one
read: after `on_close` the connection is reset in the same step, so the final
state is reading headers, not the all-zero value, and a new read is issued. -/
theorem C10_bodyless_request_after_stray_close :
    (run (demo_env []) (started [] 64) stray_close_trace).m_state
      = read_headers ||| request_processed
    ∧ effects_since (run (demo_env []) (started [] 64) stray_close_trace)
        (handle_read (demo_env []) (run (demo_env []) (started [] 64) stray_close_trace) 0
          get_root_request)
      = [Effect.parse get_root_request, Effect.create 1, Effect.on_headers 1,
         Effect.on_close 1 0, Effect.parser_reset, Effect.async_read_some]
    ∧ (handle_read (demo_env []) (run (demo_env []) (started [] 64) stray_close_trace) 0
        get_root_request).m_state = read_headers
    ∧ (handle_read (demo_env []) (run (demo_env []) (started [] 64) stray_close_trace) 0
        get_root_request).m_at_read = true := by
  decide

/-- C10 (amended): a connection that is reading headers receives, in one read,
bytes on which the parser reports success, for a target with a handler factory
and a request without body.  The handler is created and receives `on_headers`
and `on_close` with success, `on_data` is not called, the body count is 0, the
reading-body bit is set after `on_headers` and cleared again in the same call,
and the unprocessed range is the bytes after the header boundary
(`bodyless_done`).  When the state word was exactly `read_headers` the step
ends there: these four effects are all it does, so no read is issued, and the
state word is all-zero.  When the
response-already-closed bit was set, the step goes on with `process_next` from
there: the parser reset follows `on_close`, and with no bytes after the header
a new read is issued and the state word ends at `read_headers`, the handler
still attached.  Between steps a state word with the reading-headers bit is
one of these two. -/
theorem C10_request_without_body_by_state (env : Env P Q R H) (st : connection P Q H)
    (data : List Byte) (h : H)
    (h1 : st.m_state &&& read_headers ≠ 0)
    (hdone : (env.parse st.m_request_parser_state st.m_request data).1 = tribool.true_value)
    (hfac : env.get_factory (env.parse st.m_request_parser_state st.m_request data).2.2.2
      = some h)
    (hlen : (env.content_length
        (env.parse st.m_request_parser_state st.m_request data).2.2.2).getD 0 = 0) :
    (handle_read env st 0 data =
      if st.m_state &&& request_processed ≠ 0 then process_next env (bodyless_done env st data h)
      else bodyless_done env st data h)
    ∧ (effects_since st (bodyless_done env st data h)
          = [Effect.parse data, Effect.create st.handlers_created,
             Effect.on_headers st.handlers_created, Effect.on_close st.handlers_created 0]
      ∧ (bodyless_done env st data h).m_content_length = 0
      ∧ (attach_handler env (after_parse env st data) h).m_state &&& read_data ≠ 0
      ∧ (bodyless_done env st data h).m_state &&& read_data = 0
      ∧ (bodyless_done env st data h).m_unprocessed_begin
          = (env.parse st.m_request_parser_state st.m_request data).2.1
      ∧ (bodyless_done env st data h).m_unprocessed_end = data.length
      ∧ (bodyless_done env st data h).m_handler = some (st.handlers_created, h)
      ∧ (bodyless_done env st data h).m_at_read = false)
    ∧ (st.m_state = read_headers →
        handle_read env st 0 data = bodyless_done env st data h
        ∧ (handle_read env st 0 data).m_state = processing_request
        ∧ effects_since st (handle_read env st 0 data)
            = [Effect.parse data, Effect.create st.handlers_created,
               Effect.on_headers st.handlers_created, Effect.on_close st.handlers_created 0]
        ∧ (handle_read env st 0 data).m_content_length = 0
        ∧ (handle_read env st 0 data).m_at_read = false
        ∧ (handle_read env st 0 data).m_unprocessed_begin
            = (env.parse st.m_request_parser_state st.m_request data).2.1
        ∧ (handle_read env st 0 data).m_unprocessed_end = data.length
        ∧ (handle_read env st 0 data).m_handler = some (st.handlers_created, h))
    ∧ (st.m_state = read_headers ||| request_processed →
        handle_read env st 0 data = process_next env (bodyless_done env st data h)
        ∧ (bodyless_done env st data h).m_state = request_processed
        ∧ (∃ rest, effects_since st (handle_read env st 0 data)
            = [Effect.parse data, Effect.create st.handlers_created,
               Effect.on_headers st.handlers_created, Effect.on_close st.handlers_created 0,
               Effect.parser_reset] ++ rest)
        ∧ ((env.parse st.m_request_parser_state st.m_request data).2.1 = data.length →
            effects_since st (handle_read env st 0 data)
              = [Effect.parse data, Effect.create st.handlers_created,
                 Effect.on_headers st.handlers_created, Effect.on_close st.handlers_created 0,
                 Effect.parser_reset, Effect.async_read_some]
            ∧ (handle_read env st 0 data).m_state = read_headers
            ∧ (handle_read env st 0 data).m_at_read = true
            ∧ (handle_read env st 0 data).m_handler = some (st.handlers_created, h)))
    ∧ (∀ (size : Nat) (evs : List (Event R)),
        (run env (start (connection.init env size)) evs).m_state &&& read_headers ≠ 0 →
        (run env (start (connection.init env size)) evs).m_state = read_headers
        ∨ (run env (start (connection.init env size)) evs).m_state
            = read_headers ||| request_processed) := by
  have hv := handle_read_bodyless env st data h h1 hdone hfac hlen
  have hlog : (bodyless_done env st data h).log
      = st.log ++ [Effect.parse data, Effect.create st.handlers_created,
          Effect.on_headers st.handlers_created, Effect.on_close st.handlers_created 0] := rfl
  have hbit : (attach_handler env (after_parse env st data) h).m_state &&& read_data ≠ 0 := by
    show (st.m_state &&& bit_not read_headers ||| read_data) &&& read_data ≠ 0
    rw [headers_done_read_data]
    decide
  refine ⟨hv, ⟨effects_since_append _ _ _ hlog, rfl, hbit, body_done_read_data _, rfl, rfl,
    rfl, rfl⟩, fun hs => ?_, fun hs => ?_, fun size evs hb => ?_⟩
  · rw [hv, if_neg (by rw [hs]; decide)]
    refine ⟨rfl, ?_, effects_since_append _ _ _ hlog, rfl, rfl, rfl, rfl, rfl⟩
    show (st.m_state &&& bit_not read_headers ||| read_data) &&& bit_not read_data = _
    rw [hs]
    decide
  · rw [hv, if_pos (by rw [hs]; decide)]
    have hst : (bodyless_done env st data h).m_state = request_processed := by
      show (st.m_state &&& bit_not read_headers ||| read_data) &&& bit_not read_data = _
      rw [hs]
      decide
    obtain ⟨rest, hrest, _, _⟩ := process_next_marks env (bodyless_done env st data h)
    refine ⟨rfl, hst, ⟨rest, effects_since_append _ _ _ ?_⟩, fun hk => ?_⟩
    · rw [hrest, hlog, List.append_assoc]
      rfl
    · have hn : process_next env (bodyless_done env st data h)
          = async_read (next_request env (bodyless_done env st data h)) := by
        rw [process_next_unfold]
        exact if_neg (not_not.mpr hk)
      have hidle : (next_request env (bodyless_done env st data h)).m_at_read = false := rfl
      have hal := async_read_idle _ hidle
      rw [hn]
      refine ⟨effects_since_append _ _ _ ?_, (async_read_fields _).2.1, ?_,
        (async_read_fields _).2.2.2.2⟩
      · rw [hal]
        show (st.log ++ _ ++ [Effect.parser_reset]) ++ [Effect.async_read_some] = _
        simp
      · unfold async_read
        rw [if_neg (by simp [hidle])]
        rfl
  · exact state_word_headers _
      (state_ok_run env evs _ (by rw [started_state]; exact Or.inr (Or.inl rfl))) hb

theorem C10_request_without_body_by_state_witness :
    (started [] 64).m_state &&& read_headers ≠ 0
    ∧ handle_read (demo_env []) (started [] 64) 0 get_root_request
        = bodyless_done (demo_env []) (started [] 64) get_root_request []
    ∧ (handle_read (demo_env []) (started [] 64) 0 get_root_request).m_state
        = processing_request
    ∧ effects_since (started [] 64)
        (bodyless_done (demo_env []) (started [] 64) get_root_request [])
        = [Effect.parse get_root_request, Effect.create 0, Effect.on_headers 0,
           Effect.on_close 0 0] :=
  ⟨by decide,
    ((C10_request_without_body_by_state (demo_env []) (started [] 64) get_root_request []
      (by decide) (by decide) (by decide) (by decide)).2.2.1 (by decide)).1,
    ((C10_request_without_body_by_state (demo_env []) (started [] 64) get_root_request []
      (by decide) (by decide) (by decide) (by decide)).2.2.1 (by decide)).2.1,
    (C10_request_without_body_by_state (demo_env []) (started [] 64) get_root_request []
      (by decide) (by decide) (by decide) (by decide)).2.1.1⟩

/-! ### C19: the reset on the drain path, for every keep-alive -/

theorem deliver_frame (env : Env P Q R H) (st : connection P Q H) (b e : Nat) :
    (deliver env st b e).2.2.m_buffer = st.m_buffer
    ∧ (deliver env st b e).2.2.m_keep_alive = st.m_keep_alive
    ∧ (deliver env st b e).2.2.m_at_read = st.m_at_read := by
  unfold deliver
  dsimp only
  split
  · split_ifs
    · exact ⟨rfl, rfl, rfl⟩
    · exact ⟨rfl, rfl, rfl⟩
  · exact ⟨rfl, rfl, rfl⟩

theorem finish_body_frame (st : connection P Q H) (nb e : Nat) :
    (finish_body st nb e).m_unprocessed_begin = nb
    ∧ (finish_body st nb e).m_unprocessed_end = e
    ∧ (finish_body st nb e).m_buffer = st.m_buffer
    ∧ (finish_body st nb e).m_keep_alive = st.m_keep_alive
    ∧ (finish_body st nb e).m_at_read = st.m_at_read := by
  unfold finish_body
  dsimp only
  split
  · exact ⟨rfl, rfl, rfl, rfl, rfl⟩
  · exact ⟨rfl, rfl, rfl, rfl, rfl⟩

/-- C19: the response was closed without error while the body was being read
(reading-body bit and response-already-closed bit set, reading-headers bit
clear).  The step of `process_data` that brings the body count to zero
(nothing held back) goes on from `body_finished` with `process_next`, whatever
`m_keep_alive` is: the state word becomes `read_headers`, the parser and the
request are fresh, and then `process_data` is called on the bytes after the
body when there are any, its first effect being the parser call on them, and
`async_read` otherwise, which issues a read unless one is outstanding and
leaves one outstanding.  The step does not shut the socket down and leaves
`m_keep_alive` as it was. -/
theorem C19_drain_reset_ignores_keep_alive (env : Env P Q R H) (st : connection P Q H)
    (b e : Nat)
    (h1 : st.m_state &&& read_headers = 0) (h2 : st.m_state &&& read_data ≠ 0)
    (h3 : st.m_state &&& request_processed ≠ 0)
    (hdone : (deliver env st b e).1 = (deliver env st b e).2.1)
    (hzero : (deliver env st b e).2.2.m_content_length = 0) :
    (process_data env st b e =
      if b + (deliver env st b e).2.1 ≠ e then
        process_data env (next_request env (body_finished env st b e))
          (b + (deliver env st b e).2.1) e
      else
        async_read (next_request env (body_finished env st b e)))
    ∧ ((body_finished env st b e).m_state = st.m_state &&& bit_not read_data
      ∧ (body_finished env st b e).m_keep_alive = st.m_keep_alive
      ∧ (next_request env (body_finished env st b e)).m_state = read_headers
      ∧ (next_request env (body_finished env st b e)).m_request_parser_state
          = env.parser_initial
      ∧ (next_request env (body_finished env st b e)).m_keep_alive = st.m_keep_alive)
    ∧ (b + (deliver env st b e).2.1 = e →
        (process_data env st b e).m_state = read_headers
        ∧ (process_data env st b e).m_request_parser_state = env.parser_initial
        ∧ (process_data env st b e).m_at_read = true
        ∧ (process_data env st b e).m_keep_alive = st.m_keep_alive
        ∧ effects_since (body_finished env st b e) (process_data env st b e)
            = Effect.parser_reset :: (if st.m_at_read then [] else [Effect.async_read_some]))
    ∧ (b + (deliver env st b e).2.1 ≠ e →
        ∃ rest, effects_since (body_finished env st b e) (process_data env st b e)
          = Effect.parser_reset
            :: Effect.parse (slice st.m_buffer (b + (deliver env st b e).2.1) e) :: rest)
    ∧ Effect.shutdown ∉ effects_since st (process_data env st b e) := by
  obtain ⟨d1, d2, d3⟩ := deliver_frame env st b e
  obtain ⟨f1, f2, f3, f4, f5⟩ := finish_body_frame (deliver env st b e).2.2
    (b + (deliver env st b e).2.1) e
  have hstate : (body_finished env st b e).m_state = st.m_state &&& bit_not read_data := by
    unfold body_finished
    rw [finish_body_state, deliver_state]
  have hka : (body_finished env st b e).m_keep_alive = st.m_keep_alive := f4.trans d2
  have hat : (body_finished env st b e).m_at_read = st.m_at_read := f5.trans d3
  have hbuf : (body_finished env st b e).m_buffer = st.m_buffer := f3.trans d1
  have hv : process_data env st b e = process_next env (body_finished env st b e) := by
    rw [process_data_reading_body env st b e h1 h2]
    rw [if_neg (not_not.mpr hdone), if_neg (by rw [hzero]; decide),
      if_pos (by
        rw [finish_body_state, deliver_state, body_done_request_processed]
        exact h3)]
    rfl
  have hn : process_next env (body_finished env st b e) =
      if b + (deliver env st b e).2.1 ≠ e then
        process_data env (next_request env (body_finished env st b e))
          (b + (deliver env st b e).2.1) e
      else
        async_read (next_request env (body_finished env st b e)) := by
    have g1 : (body_finished env st b e).m_unprocessed_begin = b + (deliver env st b e).2.1 := f1
    have g2 : (body_finished env st b e).m_unprocessed_end = e := f2
    by_cases hc : b + (deliver env st b e).2.1 = e
    · rw [if_neg (not_not.mpr hc), process_next_unfold,
        if_neg (by rw [g1, g2]; exact not_not.mpr hc)]
      rfl
    · rw [if_pos hc, process_next_unfold, if_pos (by rw [g1, g2]; exact hc)]
      show process_data env (next_request env (body_finished env st b e))
        (body_finished env st b e).m_unprocessed_begin
        (body_finished env st b e).m_unprocessed_end = _
      rw [g1, g2]
  refine ⟨hv.trans hn, ⟨hstate, hka, rfl, rfl, hka⟩, fun heq => ?_, fun hne => ?_, ?_⟩
  · rw [hv, hn, if_neg (not_not.mpr heq)]
    have hr : (next_request env (body_finished env st b e)).m_at_read = st.m_at_read := hat
    have hk1 : (async_read (next_request env (body_finished env st b e))).m_keep_alive
        = st.m_keep_alive := by
      unfold async_read
      split_ifs
      · exact hka
      · exact hka
    refine ⟨(async_read_fields _).2.1, ?_, ?_, hk1, ?_⟩
    · unfold async_read
      split_ifs <;> rfl
    · unfold async_read
      split_ifs with hc
      · exact hc
      · rfl
    · cases hc : st.m_at_read
      · rw [hc] at hr
        simp only [Bool.false_eq_true, if_false]
        refine effects_since_append _ _ _ ?_
        rw [async_read_idle _ hr]
        exact List.append_assoc _ [Effect.parser_reset] [Effect.async_read_some]
      · rw [hc] at hr
        simp only [if_true]
        refine effects_since_append _ _ _ ?_
        unfold async_read
        rw [if_pos hr]
        rfl
  · rw [hv, hn, if_pos hne]
    obtain ⟨rest, hrest⟩ := process_data_parses_first env
      (next_request env (body_finished env st b e)) (b + (deliver env st b e).2.1) e
      (by
        have hs : (next_request env (body_finished env st b e)).m_state = read_headers := rfl
        rw [hs]
        decide)
    refine ⟨rest, effects_since_append _ _ _ ?_⟩
    rw [hrest]
    have hb : (next_request env (body_finished env st b e)).m_buffer = st.m_buffer := hbuf
    rw [hb]
    show ((body_finished env st b e).log ++ [Effect.parser_reset]) ++ _ = _
    rw [List.append_assoc]
    rfl
  · obtain ⟨new, hlog, hno⟩ := keeps_open_process_data env st b e
    rw [effects_since_append _ _ new hlog]
    exact hno

theorem C19_drain_reset_ignores_keep_alive_witness :
    (read_done closed_early_no_keep_alive [1, 2, 3, 4, 5, 6, 7, 8, 9, 10]).m_keep_alive = false
    ∧ (read_done closed_early_no_keep_alive [1, 2, 3, 4, 5, 6, 7, 8, 9, 10]).m_state
        = read_data ||| request_processed
    ∧ (process_data (demo_env [])
        (read_done closed_early_no_keep_alive [1, 2, 3, 4, 5, 6, 7, 8, 9, 10]) 0 10).m_state
        = read_headers
    ∧ (process_data (demo_env [])
        (read_done closed_early_no_keep_alive [1, 2, 3, 4, 5, 6, 7, 8, 9, 10]) 0 10).m_at_read
        = true
    ∧ Effect.shutdown ∉ effects_since
        (read_done closed_early_no_keep_alive [1, 2, 3, 4, 5, 6, 7, 8, 9, 10])
        (process_data (demo_env [])
          (read_done closed_early_no_keep_alive [1, 2, 3, 4, 5, 6, 7, 8, 9, 10]) 0 10) :=
  ⟨by decide, by decide,
    ((C19_drain_reset_ignores_keep_alive (demo_env [])
      (read_done closed_early_no_keep_alive [1, 2, 3, 4, 5, 6, 7, 8, 9, 10]) 0 10
      (by decide) (by decide) (by decide) (by decide) (by decide)).2.2.1 (by decide)).1,
    ((C19_drain_reset_ignores_keep_alive (demo_env [])
      (read_done closed_early_no_keep_alive [1, 2, 3, 4, 5, 6, 7, 8, 9, 10]) 0 10
      (by decide) (by decide) (by decide) (by decide) (by decide)).2.2.1 (by decide)).2.2.1,
    (C19_drain_reset_ignores_keep_alive (demo_env [])
      (read_done closed_early_no_keep_alive [1, 2, 3, 4, 5, 6, 7, 8, 9, 10]) 0 10
      (by decide) (by decide) (by decide) (by decide) (by decide)).2.2.2.2⟩

/-! ### C8: a rejected header block -/

theorem state_not_request_read (s : Nat) (h : s &&& read_headers ≠ 0) :
    s ≠ processing_request := by
  intro h0
  rw [h0] at h
  exact h (by decide)

theorem process_data_rejected (env : Env P Q R H) (st : connection P Q H) (b e : Nat)
    (h1 : st.m_state &&& read_headers ≠ 0)
    (hfail : (parse_headers env st b e).1 = tribool.false_value) :
    process_data env st b e
      = send_error env (parse_headers env st b e).2.2 status_type.bad_request := by
  rw [process_data_reading_headers env st b e h1]
  rcases hpe : parse_headers env st b e with ⟨t, k, st1⟩
  rw [hpe] at hfail
  dsimp only at hfail
  subst hfail
  rfl

/-- What `send_error` does: the stock item is appended to the queue while a
write is outstanding, and written at once otherwise. -/
theorem send_error_cases (env : Env P Q R H) (st : connection P Q H) (t : status_type) :
    send_error env st t =
      if st.m_sending then
        { st with m_outgoing := st.m_outgoing ++ [stock_item env st t] }
      else
        emit { st with m_sending := true, m_outgoing_info := stock_item env st t }
          (Effect.async_write_some (stock_item env st t).buffer) := by
  unfold send_error send_headers send_impl
  rfl

theorem close_impl_flag (env : Env P Q R H) (s : connection P Q H)
    (h : s.m_state ≠ processing_request) :
    close_impl env s 0
      = { (drop_handler s) with m_state := (drop_handler s).m_state ||| request_processed } := by
  unfold close_impl
  rw [if_neg (by simp), if_pos (show (drop_handler s).m_state ≠ processing_request from h)]

/-- The write completion that flushes an item whose completion is the bound
`close_impl`, while the state word is not all-zero: `close_impl` is called
without error and only sets the response-already-closed bit; the next queued
item, if any, is written. -/
theorem stock_reply_flushed (env : Env P Q R H) (s1 : connection P Q H) (n : Nat)
    (hh : s1.m_outgoing_info.handler = handler_fn.close_impl)
    (hstate : s1.m_state ≠ processing_request)
    (hflush : buffer_size (advance n s1.m_outgoing_info.buffer) = 0) :
    (write_finished env s1 0 n).log
        = s1.log ++ Effect.invoke handler_fn.close_impl 0
            :: (s1.m_outgoing.head?.map (fun it => Effect.async_write_some it.buffer)).toList
    ∧ (write_finished env s1 0 n).m_state = s1.m_state ||| request_processed
    ∧ (write_finished env s1 0 n).m_handler = none
    ∧ (write_finished env s1 0 n).m_at_read = s1.m_at_read
    ∧ (s1.m_outgoing = [] →
        (write_finished env s1 0 n).m_sending = false
        ∧ (write_finished env s1 0 n).m_outgoing = []) := by
  have hi : ∀ X : connection P Q H, X.m_outgoing_info.handler = handler_fn.close_impl →
      X.m_state ≠ processing_request →
      invoke env X X.m_outgoing_info.handler 0
        = { (drop_handler (emit X (Effect.invoke handler_fn.close_impl 0))) with
            m_state := X.m_state ||| request_processed } := by
    intro X hX hs
    rw [hX]
    show close_impl env (emit X (Effect.invoke handler_fn.close_impl 0)) 0 = _
    rw [close_impl_flag env _ (show (emit X _).m_state ≠ processing_request from hs)]
    rfl
  have hX := hi { s1 with m_outgoing_info :=
      { s1.m_outgoing_info with buffer := advance n s1.m_outgoing_info.buffer } } hh hstate
  generalize hr : write_finished env s1 0 n = r
  unfold write_finished at hr
  dsimp only at hr
  split_ifs at hr with c1 c2
  · exact absurd rfl c1
  · have c3 : buffer_size (advance n s1.m_outgoing_info.buffer) > 0 := c2
    omega
  · rw [hX] at hr
    dsimp only at hr
    split at hr
    · rename_i heq
      have h0 : s1.m_outgoing = [] := heq
      rw [← hr, h0]
      exact ⟨rfl, rfl, rfl, rfl, fun _ => ⟨rfl, rfl⟩⟩
    · rename_i front rest heq
      have h0 : s1.m_outgoing = front :: rest := heq
      rw [← hr, h0]
      refine ⟨?_, rfl, rfl, rfl, fun hc => by cases hc⟩
      show (s1.log ++ [Effect.invoke handler_fn.close_impl 0])
        ++ [Effect.async_write_some front.buffer] = _
      rw [List.append_assoc]
      rfl

/-- C8 (amended): on a connection that is reading headers, a byte range on
which the parser reports failure makes `process_data` call the parser and hand
the bad-request stock reply to `send_impl` (written at once, or queued while a
write is outstanding), and nothing else: no handler is created, nothing is
delivered, no read is issued.  The write completion that flushes such a reply
calls its completion, `close_impl` without error, which does not shut the
socket down: while the state word is not all-zero it only sets the
response-already-closed bit and drops the handler; the next queued item, if
any, is written.  When the reply was written at once with nothing queued,
nothing is being sent, nothing is queued and no handler is attached after the
flush, and a read is outstanding only if one was before; the socket is closed
when the connection object is destroyed, which adds nothing else. -/
theorem C8_bad_request_closed_by_destruction (env : Env P Q R H) (st : connection P Q H)
    (b e : Nat)
    (h1 : st.m_state &&& read_headers ≠ 0)
    (hfail : (parse_headers env st b e).1 = tribool.false_value) :
    (process_data env st b e
        = send_error env (parse_headers env st b e).2.2 status_type.bad_request
      ∧ effects_since st (process_data env st b e)
          = Effect.parse (slice st.m_buffer b e)
            :: (if st.m_sending then []
                else [Effect.async_write_some (stock_item env st status_type.bad_request).buffer])
      ∧ (st.m_sending = true →
          (process_data env st b e).m_outgoing
              = st.m_outgoing ++ [stock_item env st status_type.bad_request]
          ∧ (process_data env st b e).m_outgoing_info = st.m_outgoing_info)
      ∧ (st.m_sending = false →
          (process_data env st b e).m_outgoing_info = stock_item env st status_type.bad_request
          ∧ (process_data env st b e).m_outgoing = st.m_outgoing)
      ∧ (stock_item env st status_type.bad_request).handler = handler_fn.close_impl
      ∧ (process_data env st b e).m_handler = st.m_handler
      ∧ (process_data env st b e).handlers_created = st.handlers_created
      ∧ (process_data env st b e).m_at_read = st.m_at_read
      ∧ (process_data env st b e).m_state = st.m_state)
    ∧ (∀ (s : connection P Q H) (n : Nat),
        s.m_outgoing_info.handler = handler_fn.close_impl →
        s.m_state ≠ processing_request →
        buffer_size (advance n s.m_outgoing_info.buffer) = 0 →
        effects_since s (write_finished env s 0 n)
            = Effect.invoke handler_fn.close_impl 0
              :: (s.m_outgoing.head?.map (fun it => Effect.async_write_some it.buffer)).toList
        ∧ Effect.shutdown ∉ effects_since s (write_finished env s 0 n)
        ∧ (write_finished env s 0 n).m_state = s.m_state ||| request_processed
        ∧ (write_finished env s 0 n).m_handler = none
        ∧ (write_finished env s 0 n).m_at_read = s.m_at_read)
    ∧ (st.m_sending = false → st.m_outgoing = [] → ∀ n,
        buffer_size (advance n (stock_item env st status_type.bad_request).buffer) = 0 →
        effects_since (process_data env st b e)
            (write_finished env (process_data env st b e) 0 n)
          = [Effect.invoke handler_fn.close_impl 0]
        ∧ (write_finished env (process_data env st b e) 0 n).m_state
            = st.m_state ||| request_processed
        ∧ (write_finished env (process_data env st b e) 0 n).m_sending = false
        ∧ (write_finished env (process_data env st b e) 0 n).m_outgoing = []
        ∧ (write_finished env (process_data env st b e) 0 n).m_handler = none
        ∧ (write_finished env (process_data env st b e) 0 n).m_at_read = st.m_at_read
        ∧ effects_since (write_finished env (process_data env st b e) 0 n)
              (destroy (write_finished env (process_data env st b e) 0 n))
            = [Effect.socket_closed]) := by
  have hv := process_data_rejected env st b e h1 hfail
  have hs := send_error_cases env (parse_headers env st b e).2.2 status_type.bad_request
  have hitem : stock_item env (parse_headers env st b e).2.2 status_type.bad_request
      = stock_item env st status_type.bad_request := rfl
  have hps : (parse_headers env st b e).2.2.m_sending = st.m_sending := rfl
  rw [hitem, hps] at hs
  have hp := hv.trans hs
  have hplog : (parse_headers env st b e).2.2.log
      = st.log ++ [Effect.parse (slice st.m_buffer b e)] := rfl
  have partA : effects_since st (process_data env st b e)
        = Effect.parse (slice st.m_buffer b e)
          :: (if st.m_sending then []
              else [Effect.async_write_some (stock_item env st status_type.bad_request).buffer])
      ∧ (st.m_sending = true →
          (process_data env st b e).m_outgoing
              = st.m_outgoing ++ [stock_item env st status_type.bad_request]
          ∧ (process_data env st b e).m_outgoing_info = st.m_outgoing_info)
      ∧ (st.m_sending = false →
          (process_data env st b e).m_outgoing_info = stock_item env st status_type.bad_request
          ∧ (process_data env st b e).m_outgoing = st.m_outgoing)
      ∧ (process_data env st b e).m_handler = st.m_handler
      ∧ (process_data env st b e).handlers_created = st.handlers_created
      ∧ (process_data env st b e).m_at_read = st.m_at_read
      ∧ (process_data env st b e).m_state = st.m_state := by
    rw [hp]
    by_cases hc : st.m_sending = true
    · rw [if_pos hc, if_pos hc]
      refine ⟨?_, ?_, ?_, rfl, rfl, rfl, rfl⟩
      · exact effects_since_append _ _ _ hplog
      · intro _
        exact ⟨rfl, rfl⟩
      · intro hx
        rw [hc] at hx
        cases hx
    · rw [if_neg hc, if_neg hc]
      refine ⟨?_, ?_, ?_, rfl, rfl, rfl, rfl⟩
      · refine effects_since_append _ _ _ ?_
        show (st.log ++ [Effect.parse (slice st.m_buffer b e)]) ++ [_] = _
        rw [List.append_assoc]
        rfl
      · intro hx
        exact absurd hx hc
      · intro _
        exact ⟨rfl, rfl⟩
  obtain ⟨a1, a2, a3, a4, a5, a6, a7⟩ := partA
  refine ⟨⟨hv, a1, a2, a3, rfl, a4, a5, a6, a7⟩, fun s n hh hstate hflush => ?_,
    fun hsend hq n hflush => ?_⟩
  · obtain ⟨g1, g2, g3, g4, _⟩ := stock_reply_flushed env s n hh hstate hflush
    have he := effects_since_append _ _ _ g1
    refine ⟨he, ?_, g2, g3, g4⟩
    rw [he]
    intro hin
    rcases List.mem_cons.mp hin with hx | hx
    · cases hx
    · cases hq : s.m_outgoing.head? with
      | none => rw [hq] at hx; cases hx
      | some it =>
        rw [hq] at hx
        simp at hx
  · obtain ⟨f2, f6⟩ := a3 hsend
    obtain ⟨g1, g2, g3, g4, g5⟩ := stock_reply_flushed env (process_data env st b e) n
      (by rw [f2]; rfl) (by rw [a7]; exact state_not_request_read _ h1)
      (by rw [f2]; exact hflush)
    have hq1 : (process_data env st b e).m_outgoing = [] := f6.trans hq
    obtain ⟨g6, g7⟩ := g5 hq1
    rw [hq1] at g1
    refine ⟨effects_since_append _ _ _ g1, by rw [g2, a7], g6, g7, g3, by rw [g4, a6],
      effects_since_append _ _ _ ?_⟩
    rw [destroy_log, g3, List.append_assoc]
    rfl

theorem C8_bad_request_closed_by_destruction_witness :
    (read_done (started [] 64) [33, 13, 10]).m_state &&& read_headers ≠ 0
    ∧ effects_since (read_done (started [] 64) [33, 13, 10])
        (process_data (demo_env []) (read_done (started [] 64) [33, 13, 10]) 0 3)
      = [Effect.parse [33, 13, 10], Effect.async_write_some [[52, 48, 48], []]]
    ∧ (write_finished (demo_env [])
        (process_data (demo_env []) (read_done (started [] 64) [33, 13, 10]) 0 3) 0 3).m_sending
        = false
    ∧ effects_since
        (write_finished (demo_env [])
          (process_data (demo_env []) (read_done (started [] 64) [33, 13, 10]) 0 3) 0 3)
        (destroy (write_finished (demo_env [])
          (process_data (demo_env []) (read_done (started [] 64) [33, 13, 10]) 0 3) 0 3))
      = [Effect.socket_closed] :=
  ⟨by decide,
    ((C8_bad_request_closed_by_destruction (demo_env []) (read_done (started [] 64) [33, 13, 10])
      0 3 (by decide) (by decide)).1.2.1).trans (by decide),
    ((C8_bad_request_closed_by_destruction (demo_env []) (read_done (started [] 64) [33, 13, 10])
      0 3 (by decide) (by decide)).2.2 (by decide) (by decide) 3 (by decide)).2.2.1,
    ((C8_bad_request_closed_by_destruction (demo_env []) (read_done (started [] 64) [33, 13, 10])
      0 3 (by decide) (by decide)).2.2 (by decide) (by decide) 3 (by decide)).2.2.2.2.2.2⟩

end thevoid
